import Mathlib

/-!
# Register: the entity store of `script.js`

A shallow embedding of the store of the school-administration dashboard
(`AppState`, `Utils.generateId`, `DataManager`, the student import, the
searches, the placement listing and exports, the reports, the statistics of
the dashboard, `Auth.login`) together with the part of the JavaScript platform
it relies on (objects as ordered property lists, strict equality,
`JSON.stringify`, `JSON.parse`, `localStorage`, the properties every object
inherits, the rounding of a quotient to binary64), followed by theorems about
it.

Conventions of the embedding.

* A JavaScript value is a `JSValue`.  Numbers are the integers (`num n`),
  exact in JavaScript below 2^53; non-integral numbers, `NaN` and the
  infinities are not represented.  Strings are sequences of Unicode scalar
  values.
* An object is the list of its own enumerable properties in the order they
  were created (`Record`); the records of this program have no integer-like
  keys, which JavaScript would enumerate first.  A JavaScript object never has
  two properties with one key; a `Record` with that property is called well
  formed (`Record.WF`).
* A collection (`AppState.students`, ...) is an array of objects, a
  `List Record`.
* Values are passed by value: the embedding has no object identity.  The
  object handed to `add` is a fresh one, as in `handleAddStudent`.
* The clock (`Date.now()`, `new Date()`) and the random source
  (`Math.random()`) are inputs of the operations that read them.
* The notifications shown by `Utils.showToast` are collected in a log; the
  rest of the page (tables, modals) is not part of the state.  A function
  that writes a table is given by the rows it writes, an export by the rows
  it hands to `Utils.exportToExcel`; the elements of the page they write to
  are taken to exist.
* Unicode lower-casing and the formatting of dates for a locale are taken
  as given (`Platform`).
* A function that can throw returns an `Option`, `none` when it throws.
* The tables the reports count in are objects written `{}` and keyed by data;
  for them the properties inherited from `Object.prototype` are part of the
  embedding (`inheritedKeys`, `Tally`), and their numbers can be `NaN`
  (`Count`).  The order in which such a table is enumerated is the order of
  creation; integer-like keys, which JavaScript would enumerate first, are not
  told apart.
* The rates of the reports and of the dashboard are quotients of two counts,
  computed in binary64: `Double` holds the numbers they can be, and
  `roundToDouble` is the rounding to nearest, ties to even.
-/

namespace Register

set_option maxRecDepth 100000

/-! ## JavaScript values -/

/-- A JavaScript value. -/
inductive JSValue where
  | undefined
  | null
  | bool (b : Bool)
  | num (n : Int)
  | str (s : String)
  | arr (items : List JSValue)
  | obj (props : List (String × JSValue))
  deriving Repr, Inhabited

/-- An object: its own enumerable properties, in enumeration order. -/
abbrev Record := List (String × JSValue)

mutual
/-- Structural equality test on values. -/
def JSValue.beq : JSValue → JSValue → Bool
  | .undefined, .undefined => true
  | .null, .null => true
  | .bool a, .bool b => a == b
  | .num a, .num b => a == b
  | .str a, .str b => a == b
  | .arr xs, .arr ys => beqItems xs ys
  | .obj ps, .obj qs => beqProps ps qs
  | _, _ => false
/-- Structural equality test on lists of values. -/
def beqItems : List JSValue → List JSValue → Bool
  | [], [] => true
  | x :: xs, y :: ys => JSValue.beq x y && beqItems xs ys
  | _, _ => false
/-- Structural equality test on property lists. -/
def beqProps : List (String × JSValue) → List (String × JSValue) → Bool
  | [], [] => true
  | (k, x) :: ps, (l, y) :: qs => k == l && JSValue.beq x y && beqProps ps qs
  | _, _ => false
end

mutual
/-- The test `JSValue.beq` decides equality of values. -/
def JSValue.beq_iff : ∀ a b : JSValue, JSValue.beq a b = true ↔ a = b
  | .undefined, b => by cases b <;> simp [JSValue.beq]
  | .null, b => by cases b <;> simp [JSValue.beq]
  | .bool _, b => by cases b <;> simp [JSValue.beq]
  | .num _, b => by cases b <;> simp [JSValue.beq]
  | .str _, b => by cases b <;> simp [JSValue.beq]
  | .arr xs, b => by cases b <;> simp [JSValue.beq, beqItems_iff xs]
  | .obj ps, b => by cases b <;> simp [JSValue.beq, beqProps_iff ps]
/-- The test `beqItems` decides equality of lists of values. -/
def beqItems_iff : ∀ xs ys : List JSValue, beqItems xs ys = true ↔ xs = ys
  | [], ys => by cases ys <;> simp [beqItems]
  | x :: xs, ys => by
    cases ys <;> simp [beqItems, JSValue.beq_iff x, beqItems_iff xs]
/-- The test `beqProps` decides equality of property lists. -/
def beqProps_iff :
    ∀ ps qs : List (String × JSValue), beqProps ps qs = true ↔ ps = qs
  | [], qs => by cases qs <;> simp [beqProps]
  | (k, x) :: ps, qs => by
    cases qs with
    | nil => simp [beqProps]
    | cons q qs =>
      obtain ⟨l, y⟩ := q
      simp [beqProps, JSValue.beq_iff x, beqProps_iff ps, and_assoc]
end

instance : DecidableEq JSValue := fun a b =>
  decidable_of_iff (JSValue.beq a b = true) (JSValue.beq_iff a b)

/-- Strict equality `a === b`.  Primitive values are compared by value.
Objects and arrays are compared by identity in JavaScript; values here carry
no identity and two object values stand for two distinct objects. -/
def strictEq : JSValue → JSValue → Bool
  | .undefined, .undefined => true
  | .null, .null => true
  | .bool a, .bool b => a == b
  | .num a, .num b => a == b
  | .str a, .str b => a == b
  | _, _ => false

/-- Truthiness (`ToBoolean`), as used by `||`. -/
def truthy : JSValue → Bool
  | .undefined => false
  | .null => false
  | .bool b => b
  | .num n => n != 0
  | .str s => s != ""
  | .arr _ => true
  | .obj _ => true

/-- The operator `a || b`. -/
def jsOr (a b : JSValue) : JSValue := if truthy a then a else b

/-! ## Objects -/

/-- Property read `r[k]` / `r.k`: the value of the property, `undefined` when
the object has no such property. -/
def getProp : Record → String → JSValue
  | [], _ => .undefined
  | (k, v) :: r, key => if k = key then v else getProp r key

/-- Whether the object has an own property `key`. -/
def hasProp : Record → String → Bool
  | [], _ => false
  | (k, _) :: r, key => k = key || hasProp r key

/-- Property write `r[k] = v`: an existing property keeps its place and takes
the new value, a new property is added last. -/
def setProp : Record → String → JSValue → Record
  | [], key, v => [(key, v)]
  | (k, x) :: r, key, v => if k = key then (k, v) :: r else (k, x) :: setProp r key v

/-- The object literal with spreads `{ ...a, ...b }`: a fresh object that
receives the properties of `a` and then those of `b`, in order. -/
def spread (a b : Record) : Record :=
  (a ++ b).foldl (fun acc p => setProp acc p.1 p.2) []

/-- The keys of an object. -/
def keys (r : Record) : List String := r.map Prod.fst

/-- An object has no two properties with the same key. -/
def Record.WF (r : Record) : Prop := (keys r).Nodup

instance (r : Record) : Decidable (Record.WF r) := by
  unfold Record.WF; infer_instance

/-! ## Text -/

/-- The character `"`. -/
def dquote : Char := Char.ofNat 34
/-- The character `\`. -/
def backslash : Char := Char.ofNat 92
/-- The opening brace. -/
def lbrace : Char := Char.ofNat 123
/-- The closing brace. -/
def rbrace : Char := Char.ofNat 125

/-- The digit `d` of a radix up to 36: `0`-`9`, then `a`-`z`. -/
def digitChar (d : Nat) : Char :=
  if d < 10 then Char.ofNat (48 + d) else Char.ofNat (87 + d)

/-- The digits of `n` in radix `b` in front of `acc`, most significant first. -/
def toRadixAux (b : Nat) : Nat → Nat → List Char → List Char
  | 0, _, acc => acc
  | fuel + 1, n, acc =>
    if n < b then digitChar n :: acc
    else toRadixAux b fuel (n / b) (digitChar (n % b) :: acc)

/-- The numeral of the natural number `n` in radix `b`, as
`Number.prototype.toString(b)` prints it. -/
def toRadix (b n : Nat) : List Char := toRadixAux b (n + 1) n []

/-- `String(n)` for an integer `n`. -/
def intToChars (n : Int) : List Char :=
  if n < 0 then '-' :: toRadix 10 n.natAbs else toRadix 10 n.natAbs

/-- The numeral of `n` in radix 10, padded with zeros to `w` digits. -/
def padZero (w n : Nat) : List Char :=
  List.replicate (w - (toRadix 10 n).length) '0' ++ toRadix 10 n

/-! ## `JSON.stringify` -/

/-- The text of one character inside a JSON string (`QuoteJSONString`). -/
def quoteChar (c : Char) : List Char :=
  if c = dquote then [backslash, dquote]
  else if c = backslash then [backslash, backslash]
  else if c = Char.ofNat 8 then [backslash, 'b']
  else if c = Char.ofNat 12 then [backslash, 'f']
  else if c = Char.ofNat 10 then [backslash, 'n']
  else if c = Char.ofNat 13 then [backslash, 'r']
  else if c = Char.ofNat 9 then [backslash, 't']
  else if c.toNat < 32 then
    [backslash, 'u', '0', '0', digitChar (c.toNat / 16), digitChar (c.toNat % 16)]
  else [c]

/-- The characters of a string, quoted, without the enclosing quotes. -/
def quoteBody : List Char → List Char
  | [] => []
  | c :: cs => quoteChar c ++ quoteBody cs

/-- `QuoteJSONString`: the JSON string literal of a string. -/
def quoteJSONString (s : String) : List Char :=
  dquote :: (quoteBody s.data ++ [dquote])

/-- The parts of a list joined by commas. -/
def joinComma : List (List Char) → List Char
  | [] => []
  | [x] => x
  | x :: y :: r => x ++ ',' :: joinComma (y :: r)

mutual
/-- `SerializeJSONProperty`: the JSON text of a value, `none` for `undefined`,
which has no JSON text. -/
def serialize : JSValue → Option (List Char)
  | .undefined => none
  | .null => some ['n', 'u', 'l', 'l']
  | .bool true => some ['t', 'r', 'u', 'e']
  | .bool false => some ['f', 'a', 'l', 's', 'e']
  | .num n => some (intToChars n)
  | .str s => some (quoteJSONString s)
  | .arr xs => some ('[' :: (joinComma (serializeItems xs) ++ [']']))
  | .obj ps => some (lbrace :: (joinComma (serializeProps ps) ++ [rbrace]))
/-- `SerializeJSONArray`: the texts of the elements; an element without a JSON
text is written `null`. -/
def serializeItems : List JSValue → List (List Char)
  | [] => []
  | x :: xs =>
    (match serialize x with
      | some t => t
      | none => ['n', 'u', 'l', 'l']) :: serializeItems xs
/-- `SerializeJSONObject`: the texts `"key":value` of the properties; a
property whose value has no JSON text is left out. -/
def serializeProps : List (String × JSValue) → List (List Char)
  | [] => []
  | (k, v) :: ps =>
    match serialize v with
    | some t => (quoteJSONString k ++ ':' :: t) :: serializeProps ps
    | none => serializeProps ps
end

/-- `JSON.stringify(v)`: a string, or `undefined` (here `none`). -/
def JSON.stringify (v : JSValue) : Option String :=
  (serialize v).map String.mk

/-! ## `localStorage` -/

/-- The durable key-value store: its slots in insertion order. -/
abbrev Storage := List (String × String)

/-- `localStorage.getItem(key)`: the slot, `none` (`null`) when it is missing. -/
def Storage.getItem : Storage → String → Option String
  | [], _ => none
  | (k, v) :: st, key => if k = key then some v else Storage.getItem st key

/-- `localStorage.setItem(key, value)`. -/
def Storage.setItem : Storage → String → String → Storage
  | [], key, v => [(key, v)]
  | (k, x) :: st, key, v =>
    if k = key then (k, v) :: st else (k, x) :: Storage.setItem st key v

/-! ## Clock and random source -/

/-- The civil date (year, month, day) of a day number counted from
1970-01-01, in the proleptic Gregorian calendar. -/
def civilFromDays (days : Nat) : Nat × Nat × Nat :=
  let z := days + 719468
  let era := z / 146097
  let doe := z % 146097
  let yoe := (doe - doe / 1460 + doe / 36524 - doe / 146096) / 365
  let doy := doe - (365 * yoe + yoe / 4 - yoe / 100)
  let mp := (5 * doy + 2) / 153
  let d := doy - (153 * mp + 2) / 5 + 1
  let m := if mp < 10 then mp + 3 else mp - 9
  let y := yoe + era * 400 + (if m ≤ 2 then 1 else 0)
  (y, m, d)

/-- `new Date(ms).toISOString()` for a time `ms` in milliseconds since the
epoch: `YYYY-MM-DDTHH:mm:ss.sssZ`, the year written `+YYYYYY` from 10000 on. -/
def toISOString (ms : Nat) : String :=
  let days := ms / 86400000
  let r := ms % 86400000
  let (y, m, d) := civilFromDays days
  let year := if y ≤ 9999 then padZero 4 y else '+' :: padZero 6 y
  String.mk (year ++ '-' :: padZero 2 m ++ '-' :: padZero 2 d ++
    'T' :: padZero 2 (r / 3600000) ++ ':' :: padZero 2 (r / 60000 % 60) ++
    ':' :: padZero 2 (r / 1000 % 60) ++ '.' :: padZero 3 (r % 1000) ++ ['Z'])

/-- `x.toString(36)` for a draw `x` of `Math.random()`, a number in `[0, 1)`
given by the digits of its radix-36 expansion: `0.` and the digits, or `0`
when the draw is zero. -/
def drawToString36 (draw : List Nat) : List Char :=
  if draw = [] then ['0'] else '0' :: '.' :: draw.map digitChar

/-- `Utils.generateId()`:
`Date.now().toString(36) + Math.random().toString(36).substr(2)`,
for the clock reading `now` and the random draw `draw`. -/
def Utils.generateId (now : Nat) (draw : List Nat) : String :=
  String.mk (toRadix 36 now ++ (drawToString36 draw).drop 2)

/-! ## Application state -/

/-- A notification shown by `Utils.showToast`. -/
structure Toast where
  message : String
  type : String
  deriving DecidableEq, Repr

/-- The object `AppState`. -/
structure AppState where
  currentUser : Option String
  userRole : Option String
  currentPage : String
  theme : String
  students : List Record
  teachers : List Record
  attendance : List Record
  grades : List Record
  placements : List Record
  schools : List Record
  deriving DecidableEq

/-- Everything the store reads and writes: `AppState`, `localStorage` and the
notifications shown so far. -/
structure World where
  state : AppState
  localStorage : Storage
  toasts : List Toast
  deriving DecidableEq

/-- `Utils.showToast(message, type)`. -/
def Utils.showToast (message type : String) (w : World) : World :=
  { w with toasts := w.toasts ++ [⟨message, type⟩] }

/-- A collection as a JavaScript value: the array of its records. -/
def collectionValue (c : List Record) : JSValue := .arr (c.map .obj)

/-- The string `localStorage.setItem` stores for the result of
`JSON.stringify`. -/
def slotText (v : JSValue) : String :=
  match JSON.stringify v with
  | some t => t
  | none => "undefined"

/-- `Array.prototype.findIndex`, counting from `i`: the index of the first
element that satisfies `p`, `-1` when there is none. -/
def findIndexFrom (p : Record → Bool) : List Record → Nat → Int
  | [], _ => -1
  | x :: xs, i => if p x then (i : Int) else findIndexFrom p xs (i + 1)

/-- `Array.prototype.findIndex`. -/
def findIndex (p : Record → Bool) (c : List Record) : Int := findIndexFrom p c 0

/-! ## `DataManager.students` -/

/-- `DataManager.students.save()`. -/
def DataManager.students.save (w : World) : World :=
  { w with localStorage :=
      w.localStorage.setItem "students" (slotText (collectionValue w.state.students)) }

/-- `DataManager.students.add(student)`, with the clock reading and the draw
of `Utils.generateId()` and the clock reading of `new Date()`. -/
def DataManager.students.add (student : Record) (idNow : Nat) (idDraw : List Nat)
    (createdNow : Nat) (w : World) : World :=
  let student := setProp student "id" (.str (Utils.generateId idNow idDraw))
  let student := setProp student "createdAt" (.str (toISOString createdNow))
  let w := { w with state := { w.state with students := w.state.students ++ [student] } }
  let w := DataManager.students.save w
  Utils.showToast "Student added successfully" "success" w

/-- `DataManager.students.update(id, updates)`. -/
def DataManager.students.update (id : JSValue) (updates : Record) (w : World) : World :=
  let index := findIndex (fun s => strictEq (getProp s "id") id) w.state.students
  if index ≠ -1 then
    let merged := spread (w.state.students.getD index.toNat []) updates
    let w := { w with state :=
      { w.state with students := w.state.students.set index.toNat merged } }
    let w := DataManager.students.save w
    Utils.showToast "Student updated successfully" "success" w
  else w

/-- `DataManager.students.delete(id)`. -/
def DataManager.students.delete (id : JSValue) (w : World) : World :=
  let w := { w with state := { w.state with
    students := w.state.students.filter (fun s => !strictEq (getProp s "id") id) } }
  let w := DataManager.students.save w
  Utils.showToast "Student deleted successfully" "success" w

/-! ## `DataManager.placements` -/

/-- `DataManager.placements.save()`. -/
def DataManager.placements.save (w : World) : World :=
  { w with localStorage :=
      w.localStorage.setItem "placements" (slotText (collectionValue w.state.placements)) }

/-- `DataManager.placements.add(placement)`, with the clock reading and the
draw of `Utils.generateId()` and the clock reading of `new Date()`. -/
def DataManager.placements.add (placement : Record) (idNow : Nat) (idDraw : List Nat)
    (createdNow : Nat) (w : World) : World :=
  let placement := setProp placement "id" (.str (Utils.generateId idNow idDraw))
  let placement := setProp placement "createdAt" (.str (toISOString createdNow))
  let w := { w with state := { w.state with placements := w.state.placements ++ [placement] } }
  let w := DataManager.placements.save w
  Utils.showToast "Placement added successfully" "success" w

/-- `DataManager.placements.update(id, updates)`. -/
def DataManager.placements.update (id : JSValue) (updates : Record) (w : World) : World :=
  let index := findIndex (fun p => strictEq (getProp p "id") id) w.state.placements
  if index ≠ -1 then
    let merged := spread (w.state.placements.getD index.toNat []) updates
    let w := { w with state :=
      { w.state with placements := w.state.placements.set index.toNat merged } }
    let w := DataManager.placements.save w
    Utils.showToast "Placement updated successfully" "success" w
  else w

/-- `DataManager.placements.delete(id)`. -/
def DataManager.placements.delete (id : JSValue) (w : World) : World :=
  let w := { w with state := { w.state with
    placements := w.state.placements.filter (fun p => !strictEq (getProp p "id") id) } }
  let w := DataManager.placements.save w
  Utils.showToast "Placement deleted successfully" "success" w

/-! ## Student import -/

/-- What `processImportFile` gets from the file it is given: the file cannot
be read (`onload` never runs), reading or converting the workbook throws, or
the first sheet converts to a list of row objects. -/
inductive ImportFile where
  | unreadable
  | malformed
  | sheet (rows : List Record)

/-- The clock readings and random draws taken while one row is converted: for
the `id`, for the fallback `studentId`, and for `createdAt`. -/
structure RowEnv where
  idNow : Nat
  idDraw : List Nat
  fallbackNow : Nat
  fallbackDraw : List Nat
  createdNow : Nat

/-- The student object `processImportFile` builds from one row. -/
def importRow (e : RowEnv) (row : Record) : Record :=
  [("id", .str (Utils.generateId e.idNow e.idDraw)),
   ("studentId", jsOr (getProp row "Student ID")
      (.str ("SHS" ++ String.mk ((Utils.generateId e.fallbackNow e.fallbackDraw).data.take 6)))),
   ("firstName", getProp row "First Name"),
   ("lastName", getProp row "Last Name"),
   ("class", getProp row "Class"),
   ("gender", getProp row "Gender"),
   ("dateOfBirth", getProp row "Date of Birth"),
   ("parentPhone", getProp row "Parent Phone"),
   ("status", .str "Active"),
   ("createdAt", .str (toISOString e.createdNow))]

/-- The rows of a sheet converted in order, the `k`-th row with the readings
`env k`. -/
def importRows (env : Nat → RowEnv) : List Record → Nat → List Record
  | [], _ => []
  | row :: rows, k => importRow (env k) row :: importRows env rows (k + 1)

/-- `StudentsPage.processImportFile(file)`, from the moment the file has been
handed to the reader. -/
def StudentsPage.processImportFile (file : ImportFile) (env : Nat → RowEnv)
    (w : World) : World :=
  match file with
  | .unreadable => w
  | .malformed => Utils.showToast "Error importing file" "error" w
  | .sheet jsonData =>
    let importedStudents := importRows env jsonData 0
    let w := { w with state :=
      { w.state with students := w.state.students ++ importedStudents } }
    let w := DataManager.students.save w
    Utils.showToast
      ("Successfully imported " ++ String.mk (toRadix 10 importedStudents.length) ++ " students")
      "success" w

/-! ## Operations of the store -/

/-- A mutating operation of the store, with the readings it takes. -/
inductive Op where
  | addStudent (student : Record) (idNow : Nat) (idDraw : List Nat) (createdNow : Nat)
  | updateStudent (id : JSValue) (updates : Record)
  | deleteStudent (id : JSValue)
  | importStudents (file : ImportFile) (env : Nat → RowEnv)
  | addPlacement (placement : Record) (idNow : Nat) (idDraw : List Nat) (createdNow : Nat)
  | updatePlacement (id : JSValue) (updates : Record)
  | deletePlacement (id : JSValue)

/-- The effect of one operation. -/
def Op.run : Op → World → World
  | .addStudent r t d c => DataManager.students.add r t d c
  | .updateStudent i u => DataManager.students.update i u
  | .deleteStudent i => DataManager.students.delete i
  | .importStudents f e => StudentsPage.processImportFile f e
  | .addPlacement r t d c => DataManager.placements.add r t d c
  | .updatePlacement i u => DataManager.placements.update i u
  | .deletePlacement i => DataManager.placements.delete i

/-- The effect of a sequence of operations, first to last. -/
def runOps : List Op → World → World
  | [], w => w
  | op :: ops, w => runOps ops (op.run w)

/-! ## Start-up data -/

/-- The sample students of `DataManager.initSampleData`. -/
def sampleStudents : List Record :=
  [[("id", .str "1"), ("studentId", .str "SHS001"), ("firstName", .str "Kwame"),
    ("lastName", .str "Ampofo"), ("gender", .str "Male"), ("class", .str "Form 1A"),
    ("dateOfBirth", .str "2008-05-15"), ("parentPhone", .str "+233201234567"),
    ("status", .str "Active")],
   [("id", .str "2"), ("studentId", .str "SHS002"), ("firstName", .str "Ama"),
    ("lastName", .str "Mensah"), ("gender", .str "Female"), ("class", .str "Form 2B"),
    ("dateOfBirth", .str "2007-08-22"), ("parentPhone", .str "+233241234567"),
    ("status", .str "Active")],
   [("id", .str "3"), ("studentId", .str "SHS003"), ("firstName", .str "Kofi"),
    ("lastName", .str "Asare"), ("gender", .str "Male"), ("class", .str "Form 3A"),
    ("dateOfBirth", .str "2006-11-30"), ("parentPhone", .str "+233271234567"),
    ("status", .str "Active")]]

/-- The sample schools of `DataManager.initSampleData`. -/
def sampleSchools : List Record :=
  [[("id", .str "1"), ("name", .str "University of Ghana"), ("type", .str "University"),
    ("location", .str "Accra"),
    ("programs", .arr [.str "Computer Science", .str "Business Administration",
      .str "Medicine"])],
   [("id", .str "2"), ("name", .str "KNUST"), ("type", .str "University"),
    ("location", .str "Kumasi"),
    ("programs", .arr [.str "Engineering", .str "Agriculture", .str "Pharmacy"])],
   [("id", .str "3"), ("name", .str "Takoradi Technical University"),
    ("type", .str "Technical"), ("location", .str "Takoradi"),
    ("programs", .arr [.str "Mechanical Engineering", .str "Hospitality", .str "ICT"])]]

/-- The sample placements of `DataManager.initSampleData`. -/
def samplePlacements : List Record :=
  [[("id", .str "1"), ("studentId", .str "1"), ("schoolId", .str "1"),
    ("program", .str "Computer Science"), ("placementDate", .str "2024-09-01"),
    ("status", .str "placed"), ("notes", .str "Excellent academic performance")],
   [("id", .str "2"), ("studentId", .str "2"), ("schoolId", .str "2"),
    ("program", .str "Engineering"), ("placementDate", .str "2024-09-01"),
    ("status", .str "pending"), ("notes", .str "Awaiting final approval")]]

/-- `DataManager.initSampleData()`. -/
def DataManager.initSampleData (w : World) : World :=
  let w := if w.state.students.length = 0 then
      DataManager.students.save { w with state := { w.state with students := sampleStudents } }
    else w
  let w := if w.state.schools.length = 0 then
      let w := { w with state := { w.state with schools := sampleSchools } }
      { w with localStorage :=
          w.localStorage.setItem "schools" (slotText (collectionValue w.state.schools)) }
    else w
  if w.state.placements.length = 0 then
    DataManager.placements.save { w with state := { w.state with placements := samplePlacements } }
  else w

/-- The application on its first start: nothing in `localStorage`, every
collection empty. -/
def firstStart : World :=
  { state :=
      { currentUser := none, userRole := none, currentPage := "dashboard", theme := "light",
        students := [], teachers := [], attendance := [], grades := [], placements := [],
        schools := [] },
    localStorage := [],
    toasts := [] }

/-- The application after `DataManager.initSampleData()` on its first start. -/
def seeded : World := DataManager.initSampleData firstStart

/-! ## The id column -/

/-- The ids of the records of a collection, in order. -/
def idColumn (c : List Record) : List JSValue := c.map (fun s => getProp s "id")

/-- Every record of the two collections the store mutates is a well-formed
object. -/
def World.WF (w : World) : Prop :=
  (∀ s ∈ w.state.students, Record.WF s) ∧ (∀ p ∈ w.state.placements, Record.WF p)

/-- The record or patch an operation is given is a well-formed object. -/
def Op.WF : Op → Prop
  | .addStudent r _ _ _ => Record.WF r
  | .updateStudent _ u => Record.WF u
  | .addPlacement r _ _ _ => Record.WF r
  | .updatePlacement _ u => Record.WF u
  | _ => True

/-- The patch of an update has no `id` field, or has there the id the update
is addressed to. -/
def Op.KeepsId : Op → Prop
  | .updateStudent i u => hasProp u "id" = false ∨ strictEq (getProp u "id") i = true
  | .updatePlacement i u => hasProp u "id" = false ∨ strictEq (getProp u "id") i = true
  | _ => True

/-- The id column of the students after an operation, told from the id column
before it alone: an add and an import put the ids they generate behind it, a
delete takes the entries equal to its id out, and no operation writes into an
entry. -/
def Op.studentIds : Op → List JSValue → List JSValue
  | .addStudent _ t d _, ids => ids ++ [.str (Utils.generateId t d)]
  | .deleteStudent i, ids => ids.filter (fun x => !strictEq x i)
  | .importStudents (.sheet rows) env, ids => ids ++ idColumn (importRows env rows 0)
  | _, ids => ids

/-- The id column of the placements after an operation, told from the id
column before it alone. -/
def Op.placementIds : Op → List JSValue → List JSValue
  | .addPlacement _ t d _, ids => ids ++ [.str (Utils.generateId t d)]
  | .deletePlacement i, ids => ids.filter (fun x => !strictEq x i)
  | _, ids => ids

instance (w : World) : Decidable (World.WF w) := by
  unfold World.WF; infer_instance

instance (op : Op) : Decidable (Op.WF op) := by
  cases op <;> unfold Op.WF <;> infer_instance

instance (op : Op) : Decidable (Op.KeepsId op) := by
  cases op <;> unfold Op.KeepsId <;> infer_instance

/-! ## Reading numerals and slots -/

/-- The value of a digit character of a radix up to 36 (the inverse of
`digitChar`), `0`-`9` and `a`-`z`. -/
def digitVal (c : Char) : Nat :=
  if c.toNat < 58 then c.toNat - 48 else c.toNat - 87

/-- The number a numeral in radix `b` stands for. -/
def ofRadix (b : Nat) (ds : List Char) : Nat :=
  ds.foldl (fun a c => a * b + digitVal c) 0

/-- The `students` slot holds the serialization of the students in memory. -/
def studentsInSync (w : World) : Prop :=
  w.localStorage.getItem "students" = some (slotText (collectionValue w.state.students))

/-- The `placements` slot holds the serialization of the placements in
memory. -/
def placementsInSync (w : World) : Prop :=
  w.localStorage.getItem "placements" = some (slotText (collectionValue w.state.placements))

instance (w : World) : Decidable (studentsInSync w) := by
  unfold studentsInSync; infer_instance

instance (w : World) : Decidable (placementsInSync w) := by
  unfold placementsInSync; infer_instance

/-! ## `JSON.parse` -/

/-- JSON white space: tab, line feed, carriage return, space. -/
def isWs (c : Char) : Bool :=
  c = Char.ofNat 9 || c = Char.ofNat 10 || c = Char.ofNat 13 || c = ' '

/-- The text without its leading white space. -/
def skipWs : List Char → List Char
  | [] => []
  | c :: cs => if isWs c then skipWs cs else c :: cs

/-- A decimal digit. -/
def isDigit (c : Char) : Bool := 48 ≤ c.toNat && c.toNat ≤ 57

/-- The value of a hexadecimal digit, in either case. -/
def hexVal (c : Char) : Option Nat :=
  if 48 ≤ c.toNat ∧ c.toNat ≤ 57 then some (c.toNat - 48)
  else if 97 ≤ c.toNat ∧ c.toNat ≤ 102 then some (c.toNat - 87)
  else if 65 ≤ c.toNat ∧ c.toNat ≤ 70 then some (c.toNat - 55)
  else none

/-- Where the reader of a JSON string literal stands: between characters, after
a backslash, inside the four digits of a `\u` escape (`count` digits read,
with value `value`; `high` is the high surrogate escaped just before, if any),
or after the escape of a high surrogate, where the escape of its low surrogate
has to follow. -/
inductive StringState where
  | normal
  | escape
  | hex (count value : Nat) (high : Option Nat)
  | lowBackslash (high : Nat)
  | lowU (high : Nat)

/-- The rest of a JSON string literal after its opening quote: the string it
denotes (behind the characters `acc` already read) and the text after the
closing quote.  `none` when the literal is not closed, has a control
character or a wrong escape, or has an escaped surrogate without its partner
(a string value that is not a sequence of Unicode scalar values). -/
def parseStringBody : List Char → StringState → List Char → Option (String × List Char)
  | [], _, _ => none
  | c :: cs, .normal, acc =>
    if c = dquote then some (String.mk acc, cs)
    else if c = backslash then parseStringBody cs .escape acc
    else if c.toNat < 32 then none
    else parseStringBody cs .normal (acc ++ [c])
  | c :: cs, .escape, acc =>
    if c = dquote then parseStringBody cs .normal (acc ++ [dquote])
    else if c = backslash then parseStringBody cs .normal (acc ++ [backslash])
    else if c = '/' then parseStringBody cs .normal (acc ++ ['/'])
    else if c = 'b' then parseStringBody cs .normal (acc ++ [Char.ofNat 8])
    else if c = 'f' then parseStringBody cs .normal (acc ++ [Char.ofNat 12])
    else if c = 'n' then parseStringBody cs .normal (acc ++ [Char.ofNat 10])
    else if c = 'r' then parseStringBody cs .normal (acc ++ [Char.ofNat 13])
    else if c = 't' then parseStringBody cs .normal (acc ++ [Char.ofNat 9])
    else if c = 'u' then parseStringBody cs (.hex 0 0 none) acc
    else none
  | c :: cs, .hex count value high, acc =>
    match hexVal c with
    | none => none
    | some d =>
      if count < 3 then parseStringBody cs (.hex (count + 1) (value * 16 + d) high) acc
      else
        match high with
        | some h =>
          if 0xDC00 ≤ value * 16 + d ∧ value * 16 + d < 0xE000 then
            parseStringBody cs .normal
              (acc ++ [Char.ofNat (0x10000 + (h - 0xD800) * 0x400 + (value * 16 + d - 0xDC00))])
          else none
        | none =>
          if 0xD800 ≤ value * 16 + d ∧ value * 16 + d < 0xDC00 then
            parseStringBody cs (.lowBackslash (value * 16 + d)) acc
          else if 0xDC00 ≤ value * 16 + d ∧ value * 16 + d < 0xE000 then none
          else parseStringBody cs .normal (acc ++ [Char.ofNat (value * 16 + d)])
  | c :: cs, .lowBackslash h, acc =>
    if c = backslash then parseStringBody cs (.lowU h) acc else none
  | c :: cs, .lowU h, acc =>
    if c = 'u' then parseStringBody cs (.hex 0 0 (some h)) acc else none

/-- The text after the literal `lit`, when the text starts with it. -/
def stripLiteral : List Char → List Char → Option (List Char)
  | [], cs => some cs
  | _ :: _, [] => none
  | l :: ls, c :: cs => if l = c then stripLiteral ls cs else none

/-- The leading decimal digits of a text, and the text after them. -/
def spanDigits : List Char → List Char × List Char
  | [] => ([], [])
  | c :: cs =>
    if isDigit c then ((spanDigits cs).1.cons c, (spanDigits cs).2) else ([], c :: cs)

/-- An unsigned JSON integer numeral at the head of a text: its value and the
text after it.  `none` when there is no digit, when a zero is followed by
another digit, and when a fraction or an exponent follows (a number this
embedding does not represent). -/
def parseNat (cs : List Char) : Option (Nat × List Char) :=
  match spanDigits cs with
  | ([], _) => none
  | (d :: ds, rest) =>
    if d = '0' ∧ ds ≠ [] then none
    else
      match rest with
      | [] => some (ofRadix 10 (d :: ds), rest)
      | c :: _ =>
        if c = '.' ∨ c = 'e' ∨ c = 'E' then none else some (ofRadix 10 (d :: ds), rest)

mutual
/-- A JSON value at the head of a text (no white space in front): the value
and the text after it. -/
def parseValue : Nat → List Char → Option (JSValue × List Char)
  | 0, _ => none
  | _ + 1, [] => none
  | fuel + 1, c :: cs =>
    if c = 'n' then
      match stripLiteral ['u', 'l', 'l'] cs with
      | some rest => some (.null, rest)
      | none => none
    else if c = 't' then
      match stripLiteral ['r', 'u', 'e'] cs with
      | some rest => some (.bool true, rest)
      | none => none
    else if c = 'f' then
      match stripLiteral ['a', 'l', 's', 'e'] cs with
      | some rest => some (.bool false, rest)
      | none => none
    else if c = dquote then
      match parseStringBody cs .normal [] with
      | some (s, rest) => some (.str s, rest)
      | none => none
    else if c = '-' then
      match parseNat cs with
      | some (n, rest) => some (.num (-(n : Int)), rest)
      | none => none
    else if isDigit c then
      match parseNat (c :: cs) with
      | some (n, rest) => some (.num (n : Int), rest)
      | none => none
    else if c = '[' then
      match skipWs cs with
      | [] => none
      | d :: ds =>
        if d = ']' then some (.arr [], ds)
        else
          match parseItems fuel (d :: ds) [] with
          | some (xs, rest) => some (.arr xs, rest)
          | none => none
    else if c = lbrace then
      match skipWs cs with
      | [] => none
      | d :: ds =>
        if d = rbrace then some (.obj [], ds)
        else
          match parseMembers fuel (d :: ds) [] with
          | some (ps, rest) => some (.obj ps, rest)
          | none => none
    else none
/-- The elements of a JSON array after the opening bracket, behind the
elements `acc` already read, up to the closing bracket. -/
def parseItems : Nat → List Char → List JSValue → Option (List JSValue × List Char)
  | 0, _, _ => none
  | fuel + 1, cs, acc =>
    match parseValue fuel cs with
    | none => none
    | some (v, rest) =>
      match skipWs rest with
      | [] => none
      | d :: ds =>
        if d = ',' then parseItems fuel (skipWs ds) (acc ++ [v])
        else if d = ']' then some (acc ++ [v], ds)
        else none
/-- The members of a JSON object after the opening brace, written into the
object `acc` read so far, up to the closing brace. -/
def parseMembers : Nat → List Char → Record → Option (Record × List Char)
  | 0, _, _ => none
  | _ + 1, [], _ => none
  | fuel + 1, q :: cs, acc =>
    if q = dquote then
      match parseStringBody cs .normal [] with
      | none => none
      | some (k, rest) =>
        match skipWs rest with
        | [] => none
        | d :: ds =>
          if d = ':' then
            match parseValue fuel (skipWs ds) with
            | none => none
            | some (v, rest1) =>
              match skipWs rest1 with
              | [] => none
              | e :: es =>
                if e = ',' then parseMembers fuel (skipWs es) (setProp acc k v)
                else if e = rbrace then some (setProp acc k v, es)
                else none
          else none
    else none
end

/-- `JSON.parse(text)`: the value of a JSON text, `none` when `JSON.parse`
throws a `SyntaxError` (or the text holds a number or a string this embedding
does not represent). -/
def JSON.parse (text : String) : Option JSValue :=
  match parseValue (text.data.length + 1) (skipWs text.data) with
  | some (v, rest) => if skipWs rest = [] then some v else none
  | none => none

/-- `JSON.parse(localStorage.getItem(key)) || []`, as `AppState` does for each
collection at start-up; a missing slot reads as `null`, whose string is
`"null"`.  `none` when `JSON.parse` throws. -/
def loadSlot (st : Storage) (key : String) : Option JSValue :=
  match JSON.parse (match st.getItem key with
    | some t => t
    | none => "null") with
  | some v => some (jsOr v (.arr []))
  | none => none

mutual
/-- A value that `JSON.stringify` writes in full: it is not `undefined`, holds
no `undefined` at any depth, and each of its objects is well formed. -/
def JSValue.jsonSafe : JSValue → Bool
  | .undefined => false
  | .null => true
  | .bool _ => true
  | .num _ => true
  | .str _ => true
  | .arr xs => itemsSafe xs
  | .obj ps => propsSafe ps && decide (ps.map Prod.fst).Nodup
/-- Every element is `jsonSafe`. -/
def itemsSafe : List JSValue → Bool
  | [] => true
  | x :: xs => x.jsonSafe && itemsSafe xs
/-- Every property value is `jsonSafe`. -/
def propsSafe : List (String × JSValue) → Bool
  | [] => true
  | (_, v) :: ps => v.jsonSafe && propsSafe ps
end

/-- A character that can follow a value in a JSON text written by
`JSON.stringify`. -/
def isDelimiter (c : Char) : Bool := c = ',' || c = ']' || c = rbrace

/-- The text is empty or starts with a delimiter. -/
def Delimited (rest : List Char) : Prop := ∀ c ∈ rest.head?, isDelimiter c = true

/-- The id `v` of a record is shorter than the numeral of the clock reading
`now`, or is no string at all. -/
def shorterThanClock (now : Nat) (v : JSValue) : Bool :=
  match v with
  | .str x => x.length < (toRadix 36 now).length
  | _ => true

/-- An id already present that `Utils.generateId()` does not return at the
clock reading `now`: it is not a string or is shorter than the numeral of
`now` (as the ids `"1"`, `"2"`, `"3"` of the sample data are), or it was
generated at another clock reading whose numeral has the same length. -/
def notGeneratedAt (now : Nat) (v : JSValue) : Prop :=
  shorterThanClock now v = true ∨
  ∃ t d, v = .str (Utils.generateId t d) ∧ t ≠ now ∧
    (toRadix 36 t).length = (toRadix 36 now).length

/-! ## Text of values, and the platform's text functions -/

mutual
/-- `String(v)`, the text a template literal shows for a value. -/
def toStr : JSValue → List Char
  | .undefined => ['u', 'n', 'd', 'e', 'f', 'i', 'n', 'e', 'd']
  | .null => ['n', 'u', 'l', 'l']
  | .bool true => ['t', 'r', 'u', 'e']
  | .bool false => ['f', 'a', 'l', 's', 'e']
  | .num n => intToChars n
  | .str s => s.data
  | .arr xs => joinComma (toStrItems xs)
  | .obj _ => "[object Object]".data
/-- The texts of the elements of an array in `Array.prototype.join`: empty for
`undefined` and `null`. -/
def toStrItems : List JSValue → List (List Char)
  | [] => []
  | .undefined :: xs => [] :: toStrItems xs
  | .null :: xs => [] :: toStrItems xs
  | x :: xs => toStr x :: toStrItems xs
end

/-- `String(v)` as a string. -/
def toText (v : JSValue) : String := String.mk (toStr v)

/-- The functions of the JavaScript platform that are taken as given: the
Unicode lower-casing of `String.prototype.toLowerCase`, and the text of
`new Date(value).toLocaleDateString('en-GH')`. -/
structure Platform where
  toLowerCase : String → String
  toLocaleDateString : JSValue → String

/-- `Utils.formatDate(date)`. -/
def Utils.formatDate (pf : Platform) (date : JSValue) : String :=
  pf.toLocaleDateString date

/-- Whether the text `hay` starts with the text `needle`. -/
def startsWith : List Char → List Char → Bool
  | _, [] => true
  | [], _ :: _ => false
  | h :: hay, n :: needle => h = n && startsWith hay needle

/-- `hay.includes(needle)`. -/
def includes : List Char → List Char → Bool
  | [], needle => startsWith [] needle
  | h :: hay, needle => startsWith (h :: hay) needle || includes hay needle

/-- `s.length`: the number of UTF-16 code units of a text. -/
def utf16Length : List Char → Nat
  | [] => 0
  | c :: cs => (if c.toNat < 0x10000 then 1 else 2) + utf16Length cs

/-- White space and line terminators, which `String.prototype.trim` removes. -/
def isTrimSpace (c : Char) : Bool :=
  c.toNat = 9 || c.toNat = 10 || c.toNat = 11 || c.toNat = 12 || c.toNat = 13 ||
  c.toNat = 0x20 || c.toNat = 0xA0 || c.toNat = 0x1680 ||
  (0x2000 ≤ c.toNat && c.toNat ≤ 0x200A) || c.toNat = 0x2028 || c.toNat = 0x2029 ||
  c.toNat = 0x202F || c.toNat = 0x205F || c.toNat = 0x3000 || c.toNat = 0xFEFF

/-- `s.trim()`. -/
def trim (s : List Char) : List Char :=
  ((s.dropWhile isTrimSpace).reverse.dropWhile isTrimSpace).reverse

/-! ## Evaluation that may throw -/

/-- `v.toLowerCase().includes(needle)` for a field value `v`: `none` when `v`
is not a string, where the call throws a `TypeError`. -/
def lowerIncludes (pf : Platform) (v : JSValue) (needle : String) : Option Bool :=
  match v with
  | .str s => some (includes (pf.toLowerCase s).data needle.data)
  | _ => none

/-- `a || b` for two tests that may throw: `b` is evaluated only when `a` is
false. -/
def orThen (a b : Option Bool) : Option Bool :=
  match a with
  | some true => some true
  | some false => b
  | none => none

/-- `found && test(found)` for the result of `Array.prototype.find`: false
when nothing was found. -/
def andFound (found : Option Record) (test : Record → Option Bool) : Option Bool :=
  match found with
  | none => some false
  | some r => test r

/-- `Array.prototype.filter` with a callback that may throw: `none` when the
callback throws for an element. -/
def filterThrowing (p : Record → Option Bool) : List Record → Option (List Record)
  | [] => some []
  | x :: xs =>
    match p x with
    | none => none
    | some b =>
      match filterThrowing p xs with
      | none => none
      | some r => some (if b then x :: r else r)

/-! ## `StudentsPage.searchStudents` -/

/-- The students `StudentsPage.searchStudents(query)` selects and shows in the
table; `none` when it throws. -/
def StudentsPage.searchStudents (pf : Platform) (query : String) (s : AppState) :
    Option (List Record) :=
  filterThrowing (fun student =>
    orThen (lowerIncludes pf (getProp student "studentId") (pf.toLowerCase query))
      (orThen (lowerIncludes pf (getProp student "firstName") (pf.toLowerCase query))
        (orThen (lowerIncludes pf (getProp student "lastName") (pf.toLowerCase query))
          (lowerIncludes pf (getProp student "class") (pf.toLowerCase query)))))
    s.students

/-! ## `PlacementsPage` -/

/-- `AppState.students.find(s => s.id === placement.studentId)`. -/
def findStudent (s : AppState) (placement : Record) : Option Record :=
  s.students.find? (fun st => strictEq (getProp st "id") (getProp placement "studentId"))

/-- `AppState.schools.find(s => s.id === placement.schoolId)`. -/
def findSchool (s : AppState) (placement : Record) : Option Record :=
  s.schools.find? (fun sc => strictEq (getProp sc "id") (getProp placement "schoolId"))

/-- The student's name as the tables show it: first and last name of the
student found, `N/A` when none was found. -/
def studentName (student : Option Record) : String :=
  match student with
  | some st => toText (getProp st "firstName") ++ " " ++ toText (getProp st "lastName")
  | none => "N/A"

/-- The texts of one row of the placements table. -/
structure PlacementRow where
  student : String
  school : String
  program : String
  date : String
  badge : String
  status : String
  id : String
  deriving DecidableEq, Repr

/-- The row `populatePlacementsTable` writes for one placement. -/
def PlacementsPage.placementRow (pf : Platform) (s : AppState) (placement : Record) :
    PlacementRow :=
  let student := findStudent s placement
  let school := findSchool s placement
  { student := studentName student,
    school := match school with
      | some sc => toText (getProp sc "name")
      | none => "N/A",
    program := toText (getProp placement "program"),
    date := Utils.formatDate pf (getProp placement "placementDate"),
    badge :=
      if strictEq (getProp placement "status") (.str "placed") then "badge-success"
      else if strictEq (getProp placement "status") (.str "pending") then "badge-warning"
      else "badge-danger",
    status := toText (getProp placement "status"),
    id := toText (getProp placement "id") }

/-- `PlacementsPage.populatePlacementsTable()`: the rows written to the table
body. -/
def PlacementsPage.populatePlacementsTable (pf : Platform) (s : AppState) :
    List PlacementRow :=
  s.placements.map (PlacementsPage.placementRow pf s)

/-- The object `exportPlacements` builds for one placement. -/
def PlacementsPage.exportRow (pf : Platform) (s : AppState) (placement : Record) : Record :=
  let student := findStudent s placement
  let school := findSchool s placement
  [("Student Name", .str (studentName student)),
   ("Student ID", match student with
      | some st => getProp st "studentId"
      | none => .str "N/A"),
   ("School", match school with
      | some sc => getProp sc "name"
      | none => .str "N/A"),
   ("Program", getProp placement "program"),
   ("Placement Date", .str (Utils.formatDate pf (getProp placement "placementDate"))),
   ("Status", getProp placement "status"),
   ("Notes", getProp placement "notes")]

/-- `PlacementsPage.exportPlacements()`: the rows handed to
`Utils.exportToExcel`. -/
def PlacementsPage.exportPlacements (pf : Platform) (s : AppState) : List Record :=
  s.placements.map (PlacementsPage.exportRow pf s)

/-- The object `ReportsPage.exportReport` builds for one placement. -/
def ReportsPage.exportRow (pf : Platform) (s : AppState) (placement : Record) : Record :=
  let student := findStudent s placement
  let school := findSchool s placement
  [("Student Name", .str (studentName student)),
   ("Student ID", match student with
      | some st => getProp st "studentId"
      | none => .str "N/A"),
   ("School", match school with
      | some sc => getProp sc "name"
      | none => .str "N/A"),
   ("Program", getProp placement "program"),
   ("Status", getProp placement "status"),
   ("Placement Date", .str (Utils.formatDate pf (getProp placement "placementDate")))]

/-- `ReportsPage.exportReport(reportType)`: the rows handed to
`Utils.exportToExcel`. -/
def ReportsPage.exportReport (pf : Platform) (s : AppState) : List Record :=
  s.placements.map (ReportsPage.exportRow pf s)

/-- The test of `PlacementsPage.searchPlacements(query)` for one placement;
`none` when it throws. -/
def PlacementsPage.placementMatches (pf : Platform) (query : String) (s : AppState)
    (placement : Record) : Option Bool :=
  let student := findStudent s placement
  let school := findSchool s placement
  orThen
    (andFound student (fun st =>
      orThen (lowerIncludes pf (getProp st "studentId") (pf.toLowerCase query))
        (orThen (lowerIncludes pf (getProp st "firstName") (pf.toLowerCase query))
          (lowerIncludes pf (getProp st "lastName") (pf.toLowerCase query)))))
    (orThen
      (andFound school (fun sc =>
        lowerIncludes pf (getProp sc "name") (pf.toLowerCase query)))
      (lowerIncludes pf (getProp placement "program") (pf.toLowerCase query)))

/-- The placements `PlacementsPage.searchPlacements(query)` selects and shows
in the table; `none` when it throws. -/
def PlacementsPage.searchPlacements (pf : Platform) (query : String) (s : AppState) :
    Option (List Record) :=
  filterThrowing (PlacementsPage.placementMatches pf query s) s.placements

/-- One entry of the result list of `searchStudentPlacement`: a student, the
first placement of the student if there is one, and the school of that
placement if it is found. -/
structure LookupEntry where
  student : Record
  placement : Option Record
  school : Option Record
  deriving DecidableEq

/-- What `searchStudentPlacement` writes into the results container: the
request for at least two characters, the note that no student was found, or
the list of the students found. -/
inductive LookupResult where
  | tooShort
  | noStudents
  | found (entries : List LookupEntry)
  deriving DecidableEq

/-- The entry `searchStudentPlacement` shows for one student. -/
def PlacementsPage.lookupEntry (s : AppState) (student : Record) : LookupEntry :=
  let placement :=
    s.placements.find? (fun p => strictEq (getProp p "studentId") (getProp student "id"))
  { student := student,
    placement := placement,
    school := match placement with
      | some p => findSchool s p
      | none => none }

/-- `PlacementsPage.searchStudentPlacement()` for the text `input` of the
search field of the dialog; `none` when it throws. -/
def PlacementsPage.searchStudentPlacement (pf : Platform) (input : String) (s : AppState) :
    Option LookupResult :=
  let query := String.mk (trim (pf.toLowerCase input).data)
  if utf16Length query.data < 2 then some .tooShort
  else
    match filterThrowing (fun student =>
      orThen (lowerIncludes pf (getProp student "studentId") query)
        (orThen (lowerIncludes pf (getProp student "firstName") query)
          (lowerIncludes pf (getProp student "lastName") query))) s.students with
    | none => none
    | some [] => some .noStudents
    | some (m :: ms) => some (.found ((m :: ms).map (PlacementsPage.lookupEntry s)))

/-! ## Start-up -/

/-- The records of a list of values that are all objects. -/
def asRecords : List JSValue → Option (List Record)
  | [] => some []
  | .obj r :: xs =>
    match asRecords xs with
    | some rs => some (r :: rs)
    | none => none
  | _ :: _ => none

/-- The collection a value is, when it is an array of objects. -/
def asCollection : JSValue → Option (List Record)
  | .arr xs => asRecords xs
  | _ => none

/-- The collection `AppState` takes from a slot at start-up: `none` when
`JSON.parse` throws, or what is loaded is not an array of objects. -/
def loadCollection (st : Storage) (key : String) : Option (List Record) :=
  match loadSlot st key with
  | some v => asCollection v
  | none => none

/-- The object `AppState` as the script builds it at start-up from
`localStorage`; `none` when the script stops with an exception (or a slot
holds something else than an array of objects). -/
def AppState.init (st : Storage) : Option AppState :=
  match loadCollection st "students", loadCollection st "teachers",
    loadCollection st "attendance", loadCollection st "grades",
    loadCollection st "placements", loadCollection st "schools" with
  | some students, some teachers, some attendance, some grades, some placements,
      some schools =>
    some
      { currentUser := none, userRole := none, currentPage := "dashboard",
        theme := match st.getItem "theme" with
          | some t => if t = "" then "light" else t
          | none => "light",
        students := students, teachers := teachers, attendance := attendance,
        grades := grades, placements := placements, schools := schools }
  | _, _, _, _, _, _ => none

/-- The lower-casing of the letters `A` to `Z`, and dates shown as the text
of the stored value: a platform for the examples. -/
def examplePlatform : Platform :=
  { toLowerCase := fun t => String.mk (t.data.map Char.toLower),
    toLocaleDateString := toText }

/-! ## What the searches are to select -/

/-- The field value `v` is a string that contains the query, both in lower
case. -/
def containsIgnoringCase (pf : Platform) (v : JSValue) (query : String) : Prop :=
  ∃ t, v = .str t ∧ (pf.toLowerCase query).data <:+: (pf.toLowerCase t).data

/-- A student the student search is to select: the query is contained in the
`studentId`, the `firstName`, the `lastName` or the `class`. -/
def studentMatches (pf : Platform) (query : String) (st : Record) : Prop :=
  containsIgnoringCase pf (getProp st "studentId") query ∨
  containsIgnoringCase pf (getProp st "firstName") query ∨
  containsIgnoringCase pf (getProp st "lastName") query ∨
  containsIgnoringCase pf (getProp st "class") query

/-- A placement the placement search is to select: the query is contained in
the `studentId`, `firstName` or `lastName` of the student found for it, in the
`name` of the school found for it, or in its `program`. -/
def placementMatchesQuery (pf : Platform) (query : String) (s : AppState) (p : Record) : Prop :=
  (∃ st, findStudent s p = some st ∧
    (containsIgnoringCase pf (getProp st "studentId") query ∨
      containsIgnoringCase pf (getProp st "firstName") query ∨
      containsIgnoringCase pf (getProp st "lastName") query)) ∨
  (∃ sc, findSchool s p = some sc ∧ containsIgnoringCase pf (getProp sc "name") query) ∨
  containsIgnoringCase pf (getProp p "program") query

/-- The field value is a string. -/
def isText (v : JSValue) : Prop := ∃ t, v = .str t

/-- The fields the placement search reads for a placement are strings: its
`program`, the `studentId`, `firstName` and `lastName` of the student found
for it, and the `name` of the school found for it. -/
def placementSearchable (s : AppState) (p : Record) : Prop :=
  isText (getProp p "program") ∧
  (∀ st, findStudent s p = some st → isText (getProp st "studentId") ∧
    isText (getProp st "firstName") ∧ isText (getProp st "lastName")) ∧
  (∀ sc, findSchool s p = some sc → isText (getProp sc "name"))

/-- Whether the field value is a string that includes the needle, in lower
case. -/
def textIncludes (pf : Platform) (v : JSValue) (needle : String) : Bool :=
  match v with
  | .str t => includes (pf.toLowerCase t).data needle.data
  | _ => false

/-- Whether something was found and satisfies the test. -/
def foundAnd (found : Option Record) (b : Record → Bool) : Bool :=
  match found with
  | some r => b r
  | none => false

/-! ## Frequency tables of the reports -/

/-- The names of the properties an object written `{}` inherits from
`Object.prototype`. -/
def inheritedKeys : List String :=
  ["constructor", "__defineGetter__", "__defineSetter__", "hasOwnProperty",
   "__lookupGetter__", "__lookupSetter__", "isPrototypeOf", "propertyIsEnumerable",
   "toString", "valueOf", "__proto__", "toLocaleString"]

/-- A number held by a frequency table: a count, or `NaN`. -/
inductive Count where
  | nan
  | count (n : Nat)
  deriving DecidableEq, Repr

/-- A frequency table, the object `{}` a report function fills: its own
properties in the order they were created. -/
abbrev Tally := List (String × Count)

/-- What the property read `data[key]` finds in a frequency table: nothing, a
number of the table, or a value inherited from `Object.prototype` (one of its
functions, or the prototype itself for `__proto__`). -/
inductive Reading where
  | undefined
  | number (c : Count)
  | inherited
  deriving DecidableEq, Repr

/-- The own property `key` of a frequency table. -/
def Tally.own : Tally → String → Option Count
  | [], _ => none
  | (k, c) :: t, key => if k = key then some c else Tally.own t key

/-- The property read `data[key]`. -/
def Tally.read (t : Tally) (key : String) : Reading :=
  match t.own key with
  | some c => .number c
  | none => if key ∈ inheritedKeys then .inherited else .undefined

/-- The test `!value`: true for `undefined`, `0` and `NaN`. -/
def Reading.falsy : Reading → Bool
  | .undefined => true
  | .number .nan => true
  | .number (.count n) => n == 0
  | .inherited => false

/-- The number `value + 1` that `data[key]++` stores: `NaN` unless the value
is a count. -/
def Reading.succ : Reading → Count
  | .number (.count n) => .count (n + 1)
  | _ => .nan

/-- An own property is set: an existing one keeps its place, a new one is
added last. -/
def Tally.set : Tally → String → Count → Tally
  | [], key, c => [(key, c)]
  | (k, x) :: t, key, c => if k = key then (k, c) :: t else (k, x) :: Tally.set t key c

/-- The assignment `data[key] = c` of a number.  For the key `__proto__` it
runs the setter of `Object.prototype`, which ignores a number. -/
def Tally.write (t : Tally) (key : String) (c : Count) : Tally :=
  if key = "__proto__" then t else t.set key c

/-- The statements `if (!data[key]) { data[key] = 0; } data[key]++;`. -/
def Tally.bump (t : Tally) (key : String) : Tally :=
  let t := if (t.read key).falsy then t.write key (.count 0) else t
  t.write key (t.read key).succ

/-- `ReportsPage.getPlacementsBySchool()`.  The key of a school is its `name`
as a property key, `String(name)`. -/
def ReportsPage.getPlacementsBySchool (s : AppState) : Tally :=
  s.placements.foldl (fun schoolData placement =>
    match findSchool s placement with
    | some school => schoolData.bump (toText (getProp school "name"))
    | none => schoolData) []

/-- `ReportsPage.getPlacementsByProgram()`. -/
def ReportsPage.getPlacementsByProgram (s : AppState) : Tally :=
  s.placements.foldl (fun programData placement =>
    programData.bump (toText (getProp placement "program"))) []

/-- `ReportsPage.getPlacementsByStatus()`. -/
def ReportsPage.getPlacementsByStatus (s : AppState) : Record :=
  [("placed", .num (s.placements.filter
      (fun p => strictEq (getProp p "status") (.str "placed"))).length),
   ("pending", .num (s.placements.filter
      (fun p => strictEq (getProp p "status") (.str "pending"))).length),
   ("rejected", .num (s.placements.filter
      (fun p => strictEq (getProp p "status") (.str "rejected"))).length)]

/-- The sum of two numbers of a frequency table. -/
def Count.add : Count → Count → Count
  | .count a, .count b => .count (a + b)
  | _, _ => .nan

/-- The sum of the numbers of a frequency table. -/
def Tally.total (t : Tally) : Count :=
  t.foldr (fun e acc => Count.add e.2 acc) (.count 0)

/-- The count a frequency table holds for a key: 0 when it has no such own
property, or holds `NaN` there. -/
def Tally.countOf (t : Tally) (key : String) : Nat :=
  match t.own key with
  | some (.count n) => n
  | _ => 0

/-- What a frequency table holds for a name inherited from `Object.prototype`
(other than `__proto__`) after `n` rounds of counting: nothing, then `NaN`,
then one less than the number of rounds. -/
def inheritedCount : Nat → Option Count
  | 0 => none
  | 1 => some .nan
  | n + 2 => some (.count (n + 1))

/-- The number of placements whose school is found and has a name that reads
`key`. -/
def placementsOfSchool (s : AppState) (key : String) : Nat :=
  s.placements.countP (fun p =>
    foundAnd (findSchool s p) (fun sc => decide (toText (getProp sc "name") = key)))

/-- The number of placements whose school is found. -/
def placementsResolved (s : AppState) : Nat :=
  s.placements.countP (fun p => (findSchool s p).isSome)

/-- The number of placements whose program reads `key`. -/
def placementsOfProgram (s : AppState) (key : String) : Nat :=
  s.placements.countP (fun p => decide (toText (getProp p "program") = key))

/-- The number of placements with the status `status`. -/
def placementsOfStatus (s : AppState) (status : String) : Nat :=
  s.placements.countP (fun p => decide (getProp p "status" = .str status))

/-! ## Numbers of the reports -/

/-- A JavaScript number that is not negative: `NaN`, `Infinity`, or a finite
number, given as a fraction `num / den`. -/
inductive Double where
  | nan
  | infinity
  | finite (num den : Nat)
  deriving DecidableEq, Repr

/-- The integer nearest to `a / b`, the even one of two that are equally
near. -/
def roundHalfEven (a b : Nat) : Nat :=
  if 2 * (a % b) < b then a / b
  else if b < 2 * (a % b) then a / b + 1
  else if a / b % 2 = 0 then a / b
  else a / b + 1

/-- How often `n` can be halved before it is below 2, with `fuel` for the
halvings. -/
def halvings : Nat → Nat → Nat
  | 0, _ => 0
  | fuel + 1, n => if n < 2 then 0 else halvings fuel (n / 2) + 1

/-- The binary logarithm of `n`, rounded down: the exponent of the highest
power of two that is at most `n`. -/
def ilog2 (n : Nat) : Nat := halvings n n

/-- The binary64 number nearest to `a / b` (53 significant bits, ties to
even), as a fraction.  `a / b` is scaled by a power of two to a number from
2^52 to 2^53, rounded to an integer there, and scaled back.  The exponent range
of binary64 is not modelled: the quotients of the program are far from its
ends. -/
def roundToDouble (a b : Nat) : Nat × Nat :=
  if a = 0 then (0, 1)
  else if a * 2 ^ (53 + ilog2 b) < b * 2 ^ ilog2 a * 2 ^ 53 then
    (roundHalfEven (a * 2 ^ (53 + ilog2 b)) (b * 2 ^ ilog2 a) * 2 ^ ilog2 a,
      2 ^ (53 + ilog2 b))
  else
    (roundHalfEven (a * 2 ^ (53 + ilog2 b)) (2 * (b * 2 ^ ilog2 a)) * 2 * 2 ^ ilog2 a,
      2 ^ (53 + ilog2 b))

/-- The quotient `a / b` of two counts. -/
def Double.ofQuotient (a b : Nat) : Double :=
  if b = 0 then (if a = 0 then .nan else .infinity)
  else .finite (roundToDouble a b).1 (roundToDouble a b).2

/-- The product `x * 100`. -/
def Double.timesHundred : Double → Double
  | .nan => .nan
  | .infinity => .infinity
  | .finite n d => .finite (roundToDouble (n * 100) d).1 (roundToDouble (n * 100) d).2

/-- `Math.round(x)`: the integer nearest to `x`, the larger one of two that
are equally near. -/
def Math.round : Double → Double
  | .nan => .nan
  | .infinity => .infinity
  | .finite n d => .finite ((2 * n + d) / (2 * d)) 1

/-- The expression `x || 0`. -/
def Double.orZero : Double → Double
  | .nan => .finite 0 1
  | .infinity => .infinity
  | .finite n d => if n = 0 then .finite 0 1 else .finite n d

/-- The numbers `Dashboard.updateStats()` writes into the page. -/
structure DashboardStats where
  totalStudents : Nat
  totalTeachers : Nat
  attendanceRate : Double
  placedStudents : Nat
  deriving DecidableEq, Repr

/-- `Dashboard.updateStats()`. -/
def Dashboard.updateStats (s : AppState) : DashboardStats :=
  let totalAttendance := s.attendance.foldl
    (fun sum record => sum + (if truthy (getProp record "present") then 1 else 0)) 0
  let attendanceRate :=
    if s.attendance.length > 0 then
      Math.round (Double.ofQuotient totalAttendance s.attendance.length).timesHundred
    else .finite 0 1
  { totalStudents := s.students.length,
    totalTeachers := s.teachers.length,
    attendanceRate := attendanceRate,
    placedStudents :=
      (s.placements.filter (fun p => strictEq (getProp p "status") (.str "placed"))).length }

/-- The object `summary` of a report. -/
structure ReportSummary where
  totalStudents : Nat
  placedStudents : Nat
  placementRate : Double
  deriving DecidableEq, Repr

/-- The object `summary` that `generateReport` and `exportDetailedReport`
build. -/
def ReportsPage.summary (s : AppState) : ReportSummary :=
  { totalStudents := s.students.length,
    placedStudents :=
      (s.placements.filter (fun p => strictEq (getProp p "status") (.str "placed"))).length,
    placementRate :=
      (Math.round (Double.ofQuotient
        (s.placements.filter (fun p => strictEq (getProp p "status") (.str "placed"))).length
        s.students.length).timesHundred).orZero }

/-- The object `reportData` of `generateReport`. -/
structure ReportData where
  summary : ReportSummary
  bySchool : Tally
  byProgram : Tally
  byStatus : Record

/-- `ReportsPage.generateReport()`: the report it hands to `showReportModal`. -/
def ReportsPage.generateReport (s : AppState) : ReportData :=
  { summary := ReportsPage.summary s,
    bySchool := ReportsPage.getPlacementsBySchool s,
    byProgram := ReportsPage.getPlacementsByProgram s,
    byStatus := ReportsPage.getPlacementsByStatus s }

/-- The object `reportData` of `exportDetailedReport`. -/
structure DetailedReport where
  summary : ReportSummary
  placements : List Record

/-- The object `exportDetailedReport` builds for one placement. -/
def ReportsPage.detailedRow (pf : Platform) (s : AppState) (placement : Record) : Record :=
  let student := findStudent s placement
  let school := findSchool s placement
  [("studentName", .str (studentName student)),
   ("studentId", match student with
      | some st => getProp st "studentId"
      | none => .str "N/A"),
   ("school", match school with
      | some sc => getProp sc "name"
      | none => .str "N/A"),
   ("program", getProp placement "program"),
   ("status", getProp placement "status"),
   ("placementDate", .str (Utils.formatDate pf (getProp placement "placementDate")))]

/-- `ReportsPage.exportDetailedReport()`: the report it writes to the file. -/
def ReportsPage.exportDetailedReport (pf : Platform) (s : AppState) : DetailedReport :=
  { summary := ReportsPage.summary s,
    placements := s.placements.map (ReportsPage.detailedRow pf s) }

/-! ## `Auth` -/

/-- The object `Auth.users`. -/
def Auth.users : List (String × Record) :=
  [("admin", [("password", .str "admin123"), ("role", .str "admin"),
      ("name", .str "System Administrator")]),
   ("teacher", [("password", .str "teacher123"), ("role", .str "teacher"),
      ("name", .str "John Teacher")]),
   ("staff", [("password", .str "staff123"), ("role", .str "staff"),
      ("name", .str "Jane Staff")]),
   ("parent", [("password", .str "parent123"), ("role", .str "parent"),
      ("name", .str "Parent User")]),
   ("student", [("password", .str "student123"), ("role", .str "student"),
      ("name", .str "Student User")])]

/-- The own property `key` of the object `Auth.users`. -/
def Auth.ownUser : List (String × Record) → String → Option Record
  | [], _ => none
  | (k, u) :: t, key => if k = key then some u else Auth.ownUser t key

/-- The property read `this.users[username]`: the entry of the table, `none`
(`undefined`) when there is none.  For a name inherited from
`Object.prototype` the read gives a function of the prototype (the prototype
itself for `__proto__`), an object that has no `password` and no `role`: it is
given here as the object without properties. -/
def Auth.user (username : String) : Option Record :=
  match Auth.ownUser Auth.users username with
  | some u => some u
  | none => if username ∈ inheritedKeys then some [] else none

/-- `Auth.login(username, password, role)`, with the texts of the login form
for `username` and `role` (or those of the saved session): the result, and the
state after it. -/
def Auth.login (username : String) (password : JSValue) (role : String) (w : World) :
    Bool × World :=
  match Auth.user username with
  | some user =>
    if strictEq (getProp user "password") password &&
        strictEq (getProp user "role") (.str role) then
      let w := { w with state :=
        { w.state with currentUser := some username, userRole := some role } }
      let w := { w with localStorage :=
        (w.localStorage.setItem "currentUser" username).setItem "userRole" role }
      (true, Utils.showToast ("Welcome back, " ++ toText (getProp user "name") ++ "!")
        "success" w)
    else (false, Utils.showToast "Invalid login credentials" "error" w)
  | none => (false, Utils.showToast "Invalid login credentials" "error" w)

/-- Two states of the application that differ at most in who is logged in:
in `currentUser` and `userRole`, in memory and in the slots of these names. -/
def sameExceptUser (w w' : World) : Prop :=
  w'.state = { w.state with currentUser := w'.state.currentUser,
                            userRole := w'.state.userRole } ∧
  ∀ key, key ≠ "currentUser" → key ≠ "userRole" →
    w'.localStorage.getItem key = w.localStorage.getItem key

/-! ## Reading `createdAt` -/

/-- The day number, counted from 1970-01-01, of a civil date from that day on
(the inverse of `civilFromDays`). -/
def daysFromCivil (y m d : Nat) : Nat :=
  let y := if m ≤ 2 then y - 1 else y
  let era := y / 400
  let yoe := y % 400
  let mp := if m ≤ 2 then m + 9 else m - 3
  let doy := (153 * mp + 2) / 5 + d - 1
  let doe := yoe * 365 + yoe / 4 - yoe / 100 + doy
  era * 146097 + doe - 719468

/-- The number written by the decimal digits at the head of a text, and the
text after the separator `sep` that follows them; `none` when another
character follows, or none. -/
def readField (sep : Char) (cs : List Char) : Option (Nat × List Char) :=
  match (spanDigits cs).2 with
  | c :: rest => if c = sep then some (ofRadix 10 (spanDigits cs).1, rest) else none
  | [] => none

/-- The text without the sign `+` that a year of six digits has in front. -/
def dropSign : List Char → List Char
  | [] => []
  | c :: cs => if c = '+' then cs else c :: cs

/-- The instant, in milliseconds since the epoch, that a date-time text in the
format of `toISOString` stands for (what `Date.parse` and `new Date(text)` make
of it): the fields year, month, day, hours, minutes, seconds and milliseconds
are read between their separators, the year after its sign `+` if it has one.
`none` for a text of another shape. -/
def isoInstant (text : String) : Option Nat :=
  (readField '-' (dropSign text.data)).bind fun year =>
  (readField '-' year.2).bind fun month =>
  (readField 'T' month.2).bind fun day =>
  (readField ':' day.2).bind fun hours =>
  (readField ':' hours.2).bind fun minutes =>
  (readField '.' minutes.2).bind fun seconds =>
  (readField 'Z' seconds.2).bind fun millis =>
  if millis.2 = [] then
    some ((((daysFromCivil year.1 month.1 day.1 * 24 + hours.1) * 60 + minutes.1) * 60 +
      seconds.1) * 1000 + millis.1)
  else none

/-- The instant the `createdAt` of a record stands for. -/
def createdInstant (r : Record) : Option Nat :=
  match getProp r "createdAt" with
  | .str t => isoInstant t
  | _ => none

/-- The `createdAt` of the record `a` stands for an instant that is not later
than the one of the record `b`. -/
def createdNoLater (a b : Record) : Prop :=
  ∃ x y, createdInstant a = some x ∧ createdInstant b = some y ∧ x ≤ y

/-- One call of `add`: the record handed over, the clock reading and the draw
of `Utils.generateId()`, and the clock reading of `new Date()`. -/
structure AddCall where
  record : Record
  idNow : Nat
  idDraw : List Nat
  createdNow : Nat

/-- The call as `DataManager.students.add`. -/
def AddCall.student (a : AddCall) : Op := .addStudent a.record a.idNow a.idDraw a.createdNow

/-- The call as `DataManager.placements.add`. -/
def AddCall.placement (a : AddCall) : Op :=
  .addPlacement a.record a.idNow a.idDraw a.createdNow

/-! # Theorems -/

/-! ## Objects: basic facts -/

theorem getProp_setProp_same (r : Record) (k : String) (v : JSValue) :
    getProp (setProp r k v) k = v := by
  induction r with
  | nil => simp [setProp, getProp]
  | cons p r ih =>
    obtain ⟨k', x⟩ := p
    by_cases h : k' = k
    · simp [setProp, getProp, h]
    · simp [setProp, getProp, h, ih]

theorem getProp_setProp_other (r : Record) (k k' : String) (v : JSValue) (h : k ≠ k') :
    getProp (setProp r k v) k' = getProp r k' := by
  induction r with
  | nil => simp [setProp, getProp, h]
  | cons p r ih =>
    obtain ⟨l, x⟩ := p
    by_cases hl : l = k
    · subst hl
      simp [setProp, getProp, h]
    · simp only [setProp, if_neg hl, getProp, ih]

theorem hasProp_setProp (r : Record) (k k' : String) (v : JSValue) :
    hasProp (setProp r k v) k' = (decide (k = k') || hasProp r k') := by
  induction r with
  | nil => simp [setProp, hasProp]
  | cons p r ih =>
    obtain ⟨l, x⟩ := p
    by_cases hl : l = k
    · subst hl
      by_cases h : l = k' <;> simp [setProp, hasProp, h]
    · simp only [setProp, if_neg hl, hasProp, ih]
      by_cases h : k = k' <;> by_cases h' : l = k' <;> simp [h, h']

theorem hasProp_iff_mem_keys (r : Record) (k : String) :
    hasProp r k = true ↔ k ∈ keys r := by
  induction r with
  | nil => simp [hasProp, keys]
  | cons p r ih =>
    obtain ⟨l, x⟩ := p
    have ih' : hasProp r k = true ↔ k ∈ List.map Prod.fst r := ih
    simp only [hasProp, keys, List.map_cons, List.mem_cons, Bool.or_eq_true,
      decide_eq_true_eq, ih']
    constructor
    · rintro (h | h)
      · exact Or.inl h.symm
      · exact Or.inr h
    · rintro (h | h)
      · exact Or.inl h.symm
      · exact Or.inr h

theorem getProp_of_not_hasProp (r : Record) (k : String) (h : hasProp r k = false) :
    getProp r k = .undefined := by
  induction r with
  | nil => rfl
  | cons p r ih =>
    obtain ⟨l, x⟩ := p
    simp only [hasProp, Bool.or_eq_false_iff, decide_eq_false_iff_not] at h
    simp [getProp, h.1, ih h.2]

/-- Folding property writes over `b`: a key of `b` ends with its last value in
`b`, any other key keeps the value it had. -/
theorem getProp_foldl_setProp (b acc : Record) (k : String) (hb : Record.WF b) :
    getProp (b.foldl (fun a p => setProp a p.1 p.2) acc) k =
      if hasProp b k then getProp b k else getProp acc k := by
  induction b generalizing acc with
  | nil => simp [hasProp]
  | cons p b ih =>
    obtain ⟨l, x⟩ := p
    have hb' : Record.WF b := by
      simp only [Record.WF, keys, List.map_cons, List.nodup_cons] at hb ⊢
      exact hb.2
    have hl : hasProp b l = false := by
      simp only [Record.WF, keys, List.map_cons, List.nodup_cons] at hb
      cases hh : hasProp b l with
      | false => rfl
      | true => exact absurd ((hasProp_iff_mem_keys b l).1 hh) hb.1
    simp only [List.foldl_cons]
    rw [ih _ hb']
    by_cases h : l = k
    · subst h
      simp [hasProp, getProp, hl, getProp_setProp_same]
    · simp [hasProp, getProp, h, getProp_setProp_other _ _ _ _ h]

theorem hasProp_foldl_setProp (b acc : Record) (k : String) :
    hasProp (b.foldl (fun a p => setProp a p.1 p.2) acc) k = (hasProp acc k || hasProp b k) := by
  induction b generalizing acc with
  | nil => simp [hasProp]
  | cons p b ih =>
    obtain ⟨l, x⟩ := p
    simp only [List.foldl_cons]
    rw [ih, hasProp_setProp]
    by_cases h : l = k <;> simp [hasProp, h, Bool.or_comm]

/-- The fields of `{ ...a, ...b }`: those of `b`, and those of `a` that `b`
does not have. -/
theorem getProp_spread (a b : Record) (k : String) (ha : Record.WF a) (hb : Record.WF b) :
    getProp (spread a b) k = if hasProp b k then getProp b k else getProp a k := by
  unfold spread
  rw [List.foldl_append, getProp_foldl_setProp _ _ _ hb, getProp_foldl_setProp _ _ _ ha]
  by_cases h : hasProp a k = true
  · simp [h]
  · simp only [Bool.not_eq_true] at h
    simp [h, getProp_of_not_hasProp a k h, getProp]

theorem hasProp_spread (a b : Record) (k : String) :
    hasProp (spread a b) k = (hasProp a k || hasProp b k) := by
  unfold spread
  rw [List.foldl_append, hasProp_foldl_setProp, hasProp_foldl_setProp]
  simp [hasProp]

/-! ## `localStorage`: basic facts -/

theorem getItem_setItem_same (st : Storage) (k v : String) :
    (st.setItem k v).getItem k = some v := by
  induction st with
  | nil => simp [Storage.setItem, Storage.getItem]
  | cons p st ih =>
    obtain ⟨l, x⟩ := p
    by_cases hl : l = k
    · subst hl
      simp [Storage.setItem, Storage.getItem]
    · simp only [Storage.setItem, if_neg hl, Storage.getItem, ih]

theorem getItem_setItem_other (st : Storage) (k k' v : String) (h : k ≠ k') :
    (st.setItem k v).getItem k' = st.getItem k' := by
  induction st with
  | nil => simp [Storage.setItem, Storage.getItem, h]
  | cons p st ih =>
    obtain ⟨l, x⟩ := p
    by_cases hl : l = k
    · subst hl
      simp [Storage.setItem, Storage.getItem, h]
    · simp only [Storage.setItem, if_neg hl, Storage.getItem, ih]

theorem setItem_setItem_same (st : Storage) (k v v' : String) :
    (st.setItem k v).setItem k v' = st.setItem k v' := by
  induction st with
  | nil => simp [Storage.setItem]
  | cons p st ih =>
    obtain ⟨l, x⟩ := p
    by_cases hl : l = k
    · subst hl
      simp [Storage.setItem]
    · simp only [Storage.setItem, if_neg hl, ih]

/-! ## `findIndex`: basic facts -/

/-- No element satisfies `p`: `findIndex` answers `-1`. -/
theorem findIndexFrom_none (p : Record → Bool) (c : List Record) (i : Nat)
    (h : ∀ x ∈ c, p x = false) : findIndexFrom p c i = -1 := by
  induction c generalizing i with
  | nil => rfl
  | cons x xs ih =>
    have hx : p x = false := h x (List.mem_cons_self _ _)
    simp only [findIndexFrom, hx, Bool.false_eq_true, if_false]
    exact ih (i + 1) (fun y hy => h y (List.mem_cons_of_mem _ hy))

/-- The first element that satisfies `p` is `x`, after the elements `pre`:
`findIndex` answers its index. -/
theorem findIndexFrom_split (p : Record → Bool) (pre : List Record) (x : Record)
    (post : List Record) (i : Nat) (hpre : ∀ y ∈ pre, p y = false) (hx : p x = true) :
    findIndexFrom p (pre ++ x :: post) i = ((i + pre.length : Nat) : Int) := by
  induction pre generalizing i with
  | nil => simp [findIndexFrom, hx]
  | cons y ys ih =>
    have hy : p y = false := hpre y (List.mem_cons_self _ _)
    show findIndexFrom p (y :: (ys ++ x :: post)) i = _
    rw [findIndexFrom, if_neg (by simp [hy]),
      ih (i + 1) (fun z hz => hpre z (List.mem_cons_of_mem _ hz))]
    simp only [List.length_cons]
    congr 1
    omega

theorem getD_append_cons (pre : List Record) (x : Record) (post : List Record)
    (d : Record) : (pre ++ x :: post).getD pre.length d = x := by
  induction pre with
  | nil => rfl
  | cons y ys ih => simpa using ih

theorem set_append_cons (pre : List Record) (x y : Record) (post : List Record) :
    (pre ++ x :: post).set pre.length y = pre ++ y :: post := by
  induction pre with
  | nil => rfl
  | cons z zs ih => simp [ih]

/-- A list with an element that satisfies `p` splits at the first such
element. -/
theorem exists_first_split (p : Record → Bool) (c : List Record)
    (h : ∃ x ∈ c, p x = true) :
    ∃ pre x post, c = pre ++ x :: post ∧ (∀ y ∈ pre, p y = false) ∧ p x = true := by
  induction c with
  | nil =>
    obtain ⟨x, hx, _⟩ := h
    cases hx
  | cons y ys ih =>
    by_cases hy : p y = true
    · exact ⟨[], y, ys, rfl, by simp, hy⟩
    · have hy' : p y = false := by simpa using hy
      obtain ⟨x, hx, hpx⟩ := h
      have hx' : x ∈ ys := by
        rcases List.mem_cons.1 hx with e | e
        · subst e
          rw [hpx] at hy'
          cases hy'
        · exact e
      obtain ⟨pre, z, post, e, hpre, hz⟩ := ih ⟨x, hx', hpx⟩
      refine ⟨y :: pre, z, post, by simp [e], ?_, hz⟩
      intro w hw
      rcases List.mem_cons.1 hw with e' | e'
      · subst e'
        exact hy'
      · exact hpre w e'

/-- The collection `update` leaves in memory: the first record with the given
id is replaced by the merge, every other record stays. -/
theorem students_update_split (id : JSValue) (u : Record) (w : World)
    (pre : List Record) (x : Record) (post : List Record)
    (hc : w.state.students = pre ++ x :: post)
    (hpre : ∀ y ∈ pre, strictEq (getProp y "id") id = false)
    (hx : strictEq (getProp x "id") id = true) :
    DataManager.students.update id u w =
      Utils.showToast "Student updated successfully" "success"
        (DataManager.students.save
          { w with state := { w.state with students := pre ++ spread x u :: post } }) := by
  have hidx : findIndex (fun s => strictEq (getProp s "id") id) w.state.students
      = ((pre.length : Nat) : Int) := by
    unfold findIndex
    rw [hc, findIndexFrom_split _ pre x post 0 hpre hx]
    simp
  unfold DataManager.students.update
  simp only [hidx]
  have hne : ((pre.length : Nat) : Int) ≠ -1 := by omega
  rw [if_pos hne]
  simp only [Int.toNat_ofNat, hc, getD_append_cons, set_append_cons]

theorem placements_update_split (id : JSValue) (u : Record) (w : World)
    (pre : List Record) (x : Record) (post : List Record)
    (hc : w.state.placements = pre ++ x :: post)
    (hpre : ∀ y ∈ pre, strictEq (getProp y "id") id = false)
    (hx : strictEq (getProp x "id") id = true) :
    DataManager.placements.update id u w =
      Utils.showToast "Placement updated successfully" "success"
        (DataManager.placements.save
          { w with state := { w.state with placements := pre ++ spread x u :: post } }) := by
  have hidx : findIndex (fun s => strictEq (getProp s "id") id) w.state.placements
      = ((pre.length : Nat) : Int) := by
    unfold findIndex
    rw [hc, findIndexFrom_split _ pre x post 0 hpre hx]
    simp
  unfold DataManager.placements.update
  simp only [hidx]
  have hne : ((pre.length : Nat) : Int) ≠ -1 := by omega
  rw [if_pos hne]
  simp only [Int.toNat_ofNat, hc, getD_append_cons, set_append_cons]

theorem students_update_none (id : JSValue) (u : Record) (w : World)
    (h : ∀ s ∈ w.state.students, strictEq (getProp s "id") id = false) :
    DataManager.students.update id u w = w := by
  unfold DataManager.students.update findIndex
  rw [findIndexFrom_none _ _ 0 h]
  simp

theorem placements_update_none (id : JSValue) (u : Record) (w : World)
    (h : ∀ p ∈ w.state.placements, strictEq (getProp p "id") id = false) :
    DataManager.placements.update id u w = w := by
  unfold DataManager.placements.update findIndex
  rw [findIndexFrom_none _ _ 0 h]
  simp

/-! ## The store: update of a missing id, delete, add -/

/-- C3: an `update` whose id matches no record of the collection is a silent
no-op: the collection in memory, `localStorage` and the notifications are what
they were (nothing is written, nothing is reported). -/
theorem update_missing_id_is_noop (id : JSValue) (updates : Record) (w : World) :
    ((∀ s ∈ w.state.students, strictEq (getProp s "id") id = false) →
      DataManager.students.update id updates w = w) ∧
    ((∀ p ∈ w.state.placements, strictEq (getProp p "id") id = false) →
      DataManager.placements.update id updates w = w) :=
  ⟨students_update_none id updates w, placements_update_none id updates w⟩

/-- C3, on the seeded store: no student and no placement has id `"9"`, and
updating it changes nothing. -/
theorem update_missing_id_is_noop_witness :
    ((∀ s ∈ seeded.state.students, strictEq (getProp s "id") (.str "9") = false) ∧
      DataManager.students.update (.str "9") [("firstName", .str "Yaw")] seeded = seeded) ∧
    ((∀ p ∈ seeded.state.placements, strictEq (getProp p "id") (.str "9") = false) ∧
      DataManager.placements.update (.str "9") [("status", .str "placed")] seeded = seeded) :=
  ⟨⟨by decide, (update_missing_id_is_noop (.str "9") [("firstName", .str "Yaw")] seeded).1
      (by decide)⟩,
   ⟨by decide, (update_missing_id_is_noop (.str "9") [("status", .str "placed")] seeded).2
      (by decide)⟩⟩

/-- C4: `delete` is idempotent: the state in memory and `localStorage` after
two `delete(id)` in a row are those after one, for students and for
placements. -/
theorem delete_idempotent (id : JSValue) (w : World) :
    ((DataManager.students.delete id (DataManager.students.delete id w)).state =
        (DataManager.students.delete id w).state ∧
      (DataManager.students.delete id (DataManager.students.delete id w)).localStorage =
        (DataManager.students.delete id w).localStorage) ∧
    ((DataManager.placements.delete id (DataManager.placements.delete id w)).state =
        (DataManager.placements.delete id w).state ∧
      (DataManager.placements.delete id (DataManager.placements.delete id w)).localStorage =
        (DataManager.placements.delete id w).localStorage) := by
  simp [DataManager.students.delete, DataManager.placements.delete,
    DataManager.students.save, DataManager.placements.save, Utils.showToast,
    setItem_setItem_same]

/-- A filter that rejects nothing returns the list. -/
theorem filter_ne_id_of_none (id : JSValue) (c : List Record)
    (h : ∀ s ∈ c, strictEq (getProp s "id") id = false) :
    c.filter (fun s => !strictEq (getProp s "id") id) = c := by
  apply List.filter_eq_self.2
  intro s hs
  simp [h s hs]

/-- C6: a `delete` whose id matches no record leaves the collection in memory
as it was (same records, same order), still writes the whole collection to its
slot, and reports success, not an error. -/
theorem delete_missing_id_keeps_collection (id : JSValue) (w : World) :
    ((∀ s ∈ w.state.students, strictEq (getProp s "id") id = false) →
      (DataManager.students.delete id w).state = w.state ∧
      (DataManager.students.delete id w).localStorage =
        w.localStorage.setItem "students" (slotText (collectionValue w.state.students)) ∧
      (DataManager.students.delete id w).localStorage.getItem "students" =
        some (slotText (collectionValue w.state.students)) ∧
      (DataManager.students.delete id w).toasts =
        w.toasts ++ [⟨"Student deleted successfully", "success"⟩]) ∧
    ((∀ p ∈ w.state.placements, strictEq (getProp p "id") id = false) →
      (DataManager.placements.delete id w).state = w.state ∧
      (DataManager.placements.delete id w).localStorage =
        w.localStorage.setItem "placements" (slotText (collectionValue w.state.placements)) ∧
      (DataManager.placements.delete id w).localStorage.getItem "placements" =
        some (slotText (collectionValue w.state.placements)) ∧
      (DataManager.placements.delete id w).toasts =
        w.toasts ++ [⟨"Placement deleted successfully", "success"⟩]) := by
  constructor
  · intro h
    simp [DataManager.students.delete, DataManager.students.save, Utils.showToast,
      filter_ne_id_of_none id _ h, getItem_setItem_same]
  · intro h
    simp [DataManager.placements.delete, DataManager.placements.save, Utils.showToast,
      filter_ne_id_of_none id _ h, getItem_setItem_same]

/-- C6, on the seeded store: no student has id `"9"`; deleting it keeps the
three students and rewrites the `students` slot. -/
theorem delete_missing_id_keeps_collection_witness :
    (∀ s ∈ seeded.state.students, strictEq (getProp s "id") (.str "9") = false) ∧
    (DataManager.students.delete (.str "9") seeded).state = seeded.state ∧
    (DataManager.students.delete (.str "9") seeded).localStorage.getItem "students" =
      some (slotText (collectionValue seeded.state.students)) :=
  ⟨by decide,
   ((delete_missing_id_keeps_collection (.str "9") seeded).1 (by decide)).1,
   ((delete_missing_id_keeps_collection (.str "9") seeded).1 (by decide)).2.2.1⟩

/-- C8: `add(r)` yields the collection followed by exactly one new record,
which is `r` with `id` and `createdAt` set by the store (whatever the caller
supplied for them) and every other field as in `r`; this holds for every `r`,
also one with no field at all. -/
theorem add_appends_one_record (r : Record) (idNow : Nat) (idDraw : List Nat)
    (createdNow : Nat) (w : World) :
    (∃ new : Record,
      (DataManager.students.add r idNow idDraw createdNow w).state.students =
        w.state.students ++ [new] ∧
      (DataManager.students.add r idNow idDraw createdNow w).state.students.length =
        w.state.students.length + 1 ∧
      getProp new "id" = .str (Utils.generateId idNow idDraw) ∧
      getProp new "createdAt" = .str (toISOString createdNow) ∧
      (∀ k, k ≠ "id" → k ≠ "createdAt" →
        getProp new k = getProp r k ∧ hasProp new k = hasProp r k)) ∧
    (∃ new : Record,
      (DataManager.placements.add r idNow idDraw createdNow w).state.placements =
        w.state.placements ++ [new] ∧
      (DataManager.placements.add r idNow idDraw createdNow w).state.placements.length =
        w.state.placements.length + 1 ∧
      getProp new "id" = .str (Utils.generateId idNow idDraw) ∧
      getProp new "createdAt" = .str (toISOString createdNow) ∧
      (∀ k, k ≠ "id" → k ≠ "createdAt" →
        getProp new k = getProp r k ∧ hasProp new k = hasProp r k)) := by
  have hnew : getProp (setProp (setProp r "id" (.str (Utils.generateId idNow idDraw)))
        "createdAt" (.str (toISOString createdNow))) "id"
      = .str (Utils.generateId idNow idDraw) := by
    rw [getProp_setProp_other _ _ _ _ (by decide), getProp_setProp_same]
  have hrest : ∀ k, k ≠ "id" → k ≠ "createdAt" →
      getProp (setProp (setProp r "id" (.str (Utils.generateId idNow idDraw)))
        "createdAt" (.str (toISOString createdNow))) k = getProp r k ∧
      hasProp (setProp (setProp r "id" (.str (Utils.generateId idNow idDraw)))
        "createdAt" (.str (toISOString createdNow))) k = hasProp r k := by
    intro k h1 h2
    constructor
    · rw [getProp_setProp_other _ _ _ _ (Ne.symm h2), getProp_setProp_other _ _ _ _ (Ne.symm h1)]
    · rw [hasProp_setProp, hasProp_setProp]
      simp [Ne.symm h1, Ne.symm h2]
  constructor
  · refine ⟨_, rfl, ?_, hnew, getProp_setProp_same _ _ _, hrest⟩
    simp [DataManager.students.add, DataManager.students.save, Utils.showToast]
  · refine ⟨_, rfl, ?_, hnew, getProp_setProp_same _ _ _, hrest⟩
    simp [DataManager.placements.add, DataManager.placements.save, Utils.showToast]

/-! ## The store: delete -/

/-- When at most one element satisfies `p`, filtering the elements that
satisfy `p` out removes the first of them. -/
theorem filter_not_eq_eraseP (p : Record → Bool) (c : List Record)
    (h : (c.filter p).length ≤ 1) : c.filter (fun s => !p s) = c.eraseP p := by
  induction c with
  | nil => rfl
  | cons x xs ih =>
    by_cases hx : p x = true
    · have hxs : xs.filter p = [] := by
        simp only [List.filter_cons, hx, if_true, List.length_cons] at h
        exact List.length_eq_zero.1 (by omega)
      have hall : ∀ y ∈ xs, p y = false := by
        intro y hy
        cases hp : p y with
        | false => rfl
        | true =>
          have : y ∈ xs.filter p := List.mem_filter.2 ⟨hy, hp⟩
          rw [hxs] at this
          cases this
      have hkeep : xs.filter (fun s => !p s) = xs := by
        apply List.filter_eq_self.2
        intro y hy
        simp [hall y hy]
      simp [List.filter_cons, List.eraseP_cons, hx, hkeep]
    · have hx' : p x = false := by simpa using hx
      have h' : (xs.filter p).length ≤ 1 := by
        simpa [List.filter_cons, hx'] using h
      simp [List.filter_cons, List.eraseP_cons, hx', ih h']

/-- C5, as the code has it: `delete(id)` removes every record whose id equals
`id` and keeps every record with another id, as often as it occurred and in
the original order; when at most one record has the id, this is the removal of
the first record with that id. -/
theorem delete_removes_every_match (id : JSValue) (w : World) :
    (List.Sublist (DataManager.students.delete id w).state.students w.state.students ∧
      (∀ s, s ∈ (DataManager.students.delete id w).state.students ↔
        s ∈ w.state.students ∧ strictEq (getProp s "id") id = false) ∧
      (∀ s, strictEq (getProp s "id") id = false →
        (DataManager.students.delete id w).state.students.count s =
          w.state.students.count s) ∧
      ((w.state.students.filter (fun s => strictEq (getProp s "id") id)).length ≤ 1 →
        (DataManager.students.delete id w).state.students =
          w.state.students.eraseP (fun s => strictEq (getProp s "id") id))) ∧
    (List.Sublist (DataManager.placements.delete id w).state.placements w.state.placements ∧
      (∀ p, p ∈ (DataManager.placements.delete id w).state.placements ↔
        p ∈ w.state.placements ∧ strictEq (getProp p "id") id = false) ∧
      (∀ p, strictEq (getProp p "id") id = false →
        (DataManager.placements.delete id w).state.placements.count p =
          w.state.placements.count p) ∧
      ((w.state.placements.filter (fun p => strictEq (getProp p "id") id)).length ≤ 1 →
        (DataManager.placements.delete id w).state.placements =
          w.state.placements.eraseP (fun p => strictEq (getProp p "id") id))) := by
  have hs : (DataManager.students.delete id w).state.students =
      w.state.students.filter (fun s => !strictEq (getProp s "id") id) := rfl
  have hp : (DataManager.placements.delete id w).state.placements =
      w.state.placements.filter (fun s => !strictEq (getProp s "id") id) := rfl
  rw [hs, hp]
  refine ⟨⟨List.filter_sublist _, ?_, ?_, ?_⟩, ⟨List.filter_sublist _, ?_, ?_, ?_⟩⟩
  · intro s
    simp [List.mem_filter]
  · intro s h
    exact List.count_filter (by simp [h])
  · intro h
    exact filter_not_eq_eraseP _ _ h
  · intro s
    simp [List.mem_filter]
  · intro s h
    exact List.count_filter (by simp [h])
  · intro h
    exact filter_not_eq_eraseP _ _ h

/-- C5, on the seeded store: one student has id `"1"`, and deleting it removes
that student and keeps the other two. -/
theorem delete_removes_every_match_witness :
    (seeded.state.students.filter (fun s => strictEq (getProp s "id") (.str "1"))).length ≤ 1 ∧
    (DataManager.students.delete (.str "1") seeded).state.students =
      seeded.state.students.eraseP (fun s => strictEq (getProp s "id") (.str "1")) :=
  ⟨by decide, (delete_removes_every_match (.str "1") seeded).1.2.2.2 (by decide)⟩

/-- C5 as stated fails: with two records of id `"1"` in the collection,
`delete("1")` removes both, where removing the first one would keep the
second. -/
theorem delete_removes_first_only_counterexample :
    (DataManager.students.delete (.str "1")
      { seeded with state := { seeded.state with students :=
          [[("id", .str "1"), ("firstName", .str "Kwame")],
           [("id", .str "1"), ("firstName", .str "Ama")]] } }).state.students = [] ∧
    List.eraseP (fun s => strictEq (getProp s "id") (.str "1"))
        [[("id", .str "1"), ("firstName", .str "Kwame")],
         [("id", .str "1"), ("firstName", .str "Ama")]] =
      [[("id", .str "1"), ("firstName", .str "Ama")]] ∧
    (DataManager.students.delete (.str "1")
      { seeded with state := { seeded.state with students :=
          [[("id", .str "1"), ("firstName", .str "Kwame")],
           [("id", .str "1"), ("firstName", .str "Ama")]] } }).state.students ≠
      List.eraseP (fun s => strictEq (getProp s "id") (.str "1"))
        [[("id", .str "1"), ("firstName", .str "Kwame")],
         [("id", .str "1"), ("firstName", .str "Ama")]] := by
  decide

/-! ## The store: update -/

/-- Strictly equal values are equal. -/
theorem eq_of_strictEq (a b : JSValue) (h : strictEq a b = true) : a = b := by
  cases a <;> cases b <;> simp_all [strictEq]

/-- The id of the merge `{ ...old, ...patch }` is still `id`, when the patch
has no `id` or has the same one. -/
theorem strictEq_id_spread (id : JSValue) (old patch : Record)
    (hold : Record.WF old) (hpatch : Record.WF patch)
    (hid : strictEq (getProp old "id") id = true)
    (hkeep : hasProp patch "id" = false ∨ strictEq (getProp patch "id") id = true) :
    getProp (spread old patch) "id" = getProp old "id" := by
  rw [getProp_spread _ _ _ hold hpatch]
  rcases hkeep with h | h
  · simp [h]
  · by_cases hh : hasProp patch "id" = true
    · rw [if_pos hh, eq_of_strictEq _ _ h, eq_of_strictEq _ _ hid]
    · rw [if_neg hh]

/-- The records with a given id, in a collection split at the first of them
when no later record has the id. -/
theorem filter_id_split (q : Record → Bool) (pre : List Record) (x : Record)
    (post : List Record) (hpre : ∀ y ∈ pre, q y = false) (hpost : ∀ y ∈ post, q y = false)
    (hx : q x = true) : (pre ++ x :: post).filter q = [x] := by
  have h1 : pre.filter q = [] := List.filter_eq_nil_iff.2 (fun y hy => by simp [hpre y hy])
  have h2 : post.filter q = [] := List.filter_eq_nil_iff.2 (fun y hy => by simp [hpost y hy])
  simp [List.filter_append, List.filter_cons, h1, h2, hx]

/-- A collection in which exactly one record satisfies `q` splits around that
record. -/
theorem exists_unique_split (q : Record → Bool) (c : List Record)
    (h : (c.filter q).length = 1) :
    ∃ pre x post, c = pre ++ x :: post ∧ (∀ y ∈ pre, q y = false) ∧ q x = true ∧
      (∀ y ∈ post, q y = false) := by
  have hex : ∃ x ∈ c, q x = true := by
    obtain ⟨x, hx⟩ := List.length_eq_one.1 h
    have : x ∈ c.filter q := by simp [hx]
    exact ⟨x, (List.mem_filter.1 this).1, (List.mem_filter.1 this).2⟩
  obtain ⟨pre, x, post, hc, hpre, hx⟩ := exists_first_split q c hex
  refine ⟨pre, x, post, hc, hpre, hx, ?_⟩
  have h1 : pre.filter q = [] := List.filter_eq_nil_iff.2 (fun y hy => by simp [hpre y hy])
  have hlen : (post.filter q).length = 0 := by
    rw [hc] at h
    simp only [List.filter_append, List.filter_cons, h1, hx, if_true, List.nil_append,
      List.length_cons] at h
    omega
  intro y hy
  cases hq : q y with
  | false => rfl
  | true =>
    have : y ∈ post.filter q := List.mem_filter.2 ⟨hy, hq⟩
    rw [List.length_eq_zero.1 hlen] at this
    cases this

/-- C1, as the code has it: in a collection where exactly one record has id
`id`, and for a patch that has no `id` field or has `id` itself there,
`update(id, patch)` puts the merge of that record and the patch in its place;
afterwards exactly one record has id `id`, its fields are those of the patch
and, for every key the patch does not have, those of the record before. -/
theorem update_merges_patch (id : JSValue) (patch : Record) (w : World)
    (hpatch : Record.WF patch)
    (hkeep : hasProp patch "id" = false ∨ strictEq (getProp patch "id") id = true) :
    ((∀ s ∈ w.state.students, Record.WF s) →
      (w.state.students.filter (fun s => strictEq (getProp s "id") id)).length = 1 →
      ∃ pre old post new,
        w.state.students = pre ++ old :: post ∧
        (DataManager.students.update id patch w).state.students = pre ++ new :: post ∧
        w.state.students.filter (fun s => strictEq (getProp s "id") id) = [old] ∧
        (DataManager.students.update id patch w).state.students.filter
          (fun s => strictEq (getProp s "id") id) = [new] ∧
        (∀ k, getProp new k = if hasProp patch k then getProp patch k else getProp old k) ∧
        (∀ k, hasProp new k = (hasProp old k || hasProp patch k))) ∧
    ((∀ p ∈ w.state.placements, Record.WF p) →
      (w.state.placements.filter (fun p => strictEq (getProp p "id") id)).length = 1 →
      ∃ pre old post new,
        w.state.placements = pre ++ old :: post ∧
        (DataManager.placements.update id patch w).state.placements = pre ++ new :: post ∧
        w.state.placements.filter (fun p => strictEq (getProp p "id") id) = [old] ∧
        (DataManager.placements.update id patch w).state.placements.filter
          (fun p => strictEq (getProp p "id") id) = [new] ∧
        (∀ k, getProp new k = if hasProp patch k then getProp patch k else getProp old k) ∧
        (∀ k, hasProp new k = (hasProp old k || hasProp patch k))) := by
  constructor
  · intro hwf hone
    obtain ⟨pre, old, post, hc, hpre, hold, hpost⟩ := exists_unique_split _ _ hone
    have hwfold : Record.WF old := hwf old (by simp [hc])
    refine ⟨pre, old, post, spread old patch, hc, ?_, ?_, ?_, ?_, ?_⟩
    · rw [students_update_split id patch w pre old post hc hpre hold]
      rfl
    · rw [hc]
      exact filter_id_split _ pre old post hpre hpost hold
    · rw [students_update_split id patch w pre old post hc hpre hold]
      show (pre ++ spread old patch :: post).filter _ = _
      apply filter_id_split _ pre _ post hpre hpost
      show strictEq (getProp (spread old patch) "id") id = true
      rw [strictEq_id_spread id old patch hwfold hpatch hold hkeep]
      exact hold
    · intro k
      exact getProp_spread old patch k hwfold hpatch
    · intro k
      exact hasProp_spread old patch k
  · intro hwf hone
    obtain ⟨pre, old, post, hc, hpre, hold, hpost⟩ := exists_unique_split _ _ hone
    have hwfold : Record.WF old := hwf old (by simp [hc])
    refine ⟨pre, old, post, spread old patch, hc, ?_, ?_, ?_, ?_, ?_⟩
    · rw [placements_update_split id patch w pre old post hc hpre hold]
      rfl
    · rw [hc]
      exact filter_id_split _ pre old post hpre hpost hold
    · rw [placements_update_split id patch w pre old post hc hpre hold]
      show (pre ++ spread old patch :: post).filter _ = _
      apply filter_id_split _ pre _ post hpre hpost
      show strictEq (getProp (spread old patch) "id") id = true
      rw [strictEq_id_spread id old patch hwfold hpatch hold hkeep]
      exact hold
    · intro k
      exact getProp_spread old patch k hwfold hpatch
    · intro k
      exact hasProp_spread old patch k

/-- C1, on the seeded store: student `"2"` is updated with a new class and
status. -/
theorem update_merges_patch_witness :
    Record.WF [("class", JSValue.str "Form 3C"), ("status", JSValue.str "Graduated")] ∧
    (hasProp [("class", JSValue.str "Form 3C"), ("status", JSValue.str "Graduated")] "id" = false ∨
      strictEq (getProp [("class", JSValue.str "Form 3C"), ("status", JSValue.str "Graduated")]
        "id") (.str "2") = true) ∧
    (∀ s ∈ seeded.state.students, Record.WF s) ∧
    (seeded.state.students.filter (fun s => strictEq (getProp s "id") (.str "2"))).length = 1 ∧
    ∃ pre old post new,
      seeded.state.students = pre ++ old :: post ∧
      (DataManager.students.update (.str "2")
        [("class", .str "Form 3C"), ("status", .str "Graduated")] seeded).state.students =
          pre ++ new :: post ∧
      seeded.state.students.filter (fun s => strictEq (getProp s "id") (.str "2")) = [old] ∧
      (DataManager.students.update (.str "2")
        [("class", .str "Form 3C"), ("status", .str "Graduated")] seeded).state.students.filter
          (fun s => strictEq (getProp s "id") (.str "2")) = [new] ∧
      (∀ k, getProp new k =
        if hasProp [("class", JSValue.str "Form 3C"), ("status", JSValue.str "Graduated")] k
        then getProp [("class", JSValue.str "Form 3C"), ("status", JSValue.str "Graduated")] k
        else getProp old k) ∧
      (∀ k, hasProp new k = (hasProp old k ||
        hasProp [("class", JSValue.str "Form 3C"), ("status", JSValue.str "Graduated")] k)) :=
  ⟨by decide, Or.inl (by decide), by decide, by decide,
   (update_merges_patch (.str "2") [("class", .str "Form 3C"), ("status", .str "Graduated")]
      seeded (by decide) (Or.inl (by decide))).1 (by decide) (by decide)⟩

/-- C1 as stated fails, in two ways.  With two records of id `"1"`, after
`update("1", patch)` two records have id `"1"`.  With a patch that sets `id`,
after `update("1", patch)` on the seeded store no record has id `"1"`. -/
theorem update_exactly_one_counterexample :
    ((∃ s ∈ [[("id", JSValue.str "1"), ("firstName", JSValue.str "Kwame")],
             [("id", JSValue.str "1"), ("firstName", JSValue.str "Ama")]],
        strictEq (getProp s "id") (.str "1") = true) ∧
      ((DataManager.students.update (.str "1") [("firstName", .str "Kofi")]
        { seeded with state := { seeded.state with students :=
            [[("id", .str "1"), ("firstName", .str "Kwame")],
             [("id", .str "1"), ("firstName", .str "Ama")]] } }).state.students.filter
          (fun s => strictEq (getProp s "id") (.str "1"))).length = 2) ∧
    ((∃ s ∈ seeded.state.students, strictEq (getProp s "id") (.str "1") = true) ∧
      ((DataManager.students.update (.str "1") [("id", .str "7")]
        seeded).state.students.filter
          (fun s => strictEq (getProp s "id") (.str "1"))).length = 0) := by
  decide

/-! ## The store: ids -/

theorem keys_setProp (r : Record) (k : String) (v : JSValue) :
    keys (setProp r k v) = if hasProp r k then keys r else keys r ++ [k] := by
  induction r with
  | nil => simp [setProp, keys, hasProp]
  | cons p r ih =>
    obtain ⟨l, x⟩ := p
    have ih' : List.map Prod.fst (setProp r k v) =
        if hasProp r k then List.map Prod.fst r else List.map Prod.fst r ++ [k] := ih
    by_cases hl : l = k
    · subst hl
      simp [setProp, keys, hasProp]
    · simp only [setProp, if_neg hl, keys, List.map_cons, hasProp, ih']
      by_cases hh : hasProp r k = true
      · simp [hl, hh]
      · simp [hl, hh]

/-- A property write keeps an object well formed. -/
theorem WF_setProp (r : Record) (k : String) (v : JSValue) (h : Record.WF r) :
    Record.WF (setProp r k v) := by
  unfold Record.WF at h ⊢
  rw [keys_setProp]
  by_cases hh : hasProp r k = true
  · rw [if_pos hh]
    exact h
  · rw [if_neg hh]
    have hk : k ∉ keys r := fun hm => hh ((hasProp_iff_mem_keys r k).2 hm)
    exact List.Nodup.append h (List.nodup_singleton k) (by simpa using hk)

theorem WF_foldl_setProp (b acc : Record) (h : Record.WF acc) :
    Record.WF (b.foldl (fun a p => setProp a p.1 p.2) acc) := by
  induction b generalizing acc with
  | nil => exact h
  | cons p b ih => exact ih _ (WF_setProp _ _ _ h)

/-- The object `{ ...a, ...b }` is well formed. -/
theorem WF_spread (a b : Record) : Record.WF (spread a b) :=
  WF_foldl_setProp _ _ (by simp [Record.WF, keys])

theorem WF_importRow (e : RowEnv) (row : Record) : Record.WF (importRow e row) := by
  simp [Record.WF, keys, importRow]

theorem WF_importRows (env : Nat → RowEnv) (rows : List Record) (k : Nat) :
    ∀ s ∈ importRows env rows k, Record.WF s := by
  induction rows generalizing k with
  | nil => simp [importRows]
  | cons row rows ih =>
    intro s hs
    rcases List.mem_cons.1 hs with e | e
    · subst e
      exact WF_importRow _ _
    · exact ih (k + 1) s e

theorem idColumn_append (c d : List Record) : idColumn (c ++ d) = idColumn c ++ idColumn d := by
  simp [idColumn]

theorem idColumn_filter (id : JSValue) (c : List Record) :
    idColumn (c.filter (fun s => !strictEq (getProp s "id") id)) =
      (idColumn c).filter (fun x => !strictEq x id) := by
  induction c with
  | nil => rfl
  | cons x xs ih =>
    have ih' : List.map (fun s => getProp s "id")
        (List.filter (fun s => !strictEq (getProp s "id") id) xs) =
        List.filter (fun x => !strictEq x id) (List.map (fun s => getProp s "id") xs) := ih
    by_cases hx : strictEq (getProp x "id") id = true
    · simp [idColumn, List.filter_cons, hx, ih']
    · simp [idColumn, List.filter_cons, hx, ih']

/-- The id column after replacing the first record of id `id` by its merge
with a patch that keeps the id. -/
theorem idColumn_update (id : JSValue) (u : Record) (c : List Record)
    (pre : List Record) (x : Record) (post : List Record) (hc : c = pre ++ x :: post)
    (hx : strictEq (getProp x "id") id = true) (hwf : Record.WF x) (hu : Record.WF u)
    (hkeep : hasProp u "id" = false ∨ strictEq (getProp u "id") id = true) :
    idColumn (pre ++ spread x u :: post) = idColumn c := by
  rw [hc]
  simp [idColumn, strictEq_id_spread id x u hwf hu hx hkeep]

/-- An update with a patch that keeps the id leaves the id column of the
students as it is. -/
theorem students_update_idColumn (id : JSValue) (u : Record) (w : World)
    (hwf : ∀ s ∈ w.state.students, Record.WF s) (hu : Record.WF u)
    (hkeep : hasProp u "id" = false ∨ strictEq (getProp u "id") id = true) :
    idColumn (DataManager.students.update id u w).state.students =
      idColumn w.state.students := by
  by_cases h : ∃ x ∈ w.state.students, strictEq (getProp x "id") id = true
  · obtain ⟨pre, x, post, hc, hpre, hx⟩ := exists_first_split _ _ h
    rw [students_update_split id u w pre x post hc hpre hx]
    exact idColumn_update id u _ pre x post hc hx (hwf x (by simp [hc])) hu hkeep
  · have h' : ∀ s ∈ w.state.students, strictEq (getProp s "id") id = false := by
      intro s hs
      cases hq : strictEq (getProp s "id") id with
      | false => rfl
      | true => exact absurd ⟨s, hs, hq⟩ h
    rw [students_update_none id u w h']

theorem placements_update_idColumn (id : JSValue) (u : Record) (w : World)
    (hwf : ∀ p ∈ w.state.placements, Record.WF p) (hu : Record.WF u)
    (hkeep : hasProp u "id" = false ∨ strictEq (getProp u "id") id = true) :
    idColumn (DataManager.placements.update id u w).state.placements =
      idColumn w.state.placements := by
  by_cases h : ∃ x ∈ w.state.placements, strictEq (getProp x "id") id = true
  · obtain ⟨pre, x, post, hc, hpre, hx⟩ := exists_first_split _ _ h
    rw [placements_update_split id u w pre x post hc hpre hx]
    exact idColumn_update id u _ pre x post hc hx (hwf x (by simp [hc])) hu hkeep
  · have h' : ∀ s ∈ w.state.placements, strictEq (getProp s "id") id = false := by
      intro s hs
      cases hq : strictEq (getProp s "id") id with
      | false => rfl
      | true => exact absurd ⟨s, hs, hq⟩ h
    rw [placements_update_none id u w h']

/-- An update keeps the records of the students well formed. -/
theorem students_update_WF (id : JSValue) (u : Record) (w : World)
    (hwf : ∀ s ∈ w.state.students, Record.WF s) :
    ∀ s ∈ (DataManager.students.update id u w).state.students, Record.WF s := by
  by_cases h : ∃ x ∈ w.state.students, strictEq (getProp x "id") id = true
  · obtain ⟨pre, x, post, hc, hpre, hx⟩ := exists_first_split _ _ h
    rw [students_update_split id u w pre x post hc hpre hx]
    intro s hs
    have hs' : s ∈ pre ++ spread x u :: post := hs
    rcases List.mem_append.1 hs' with e | e
    · exact hwf s (by simp [hc, e])
    · rcases List.mem_cons.1 e with e | e
      · subst e
        exact WF_spread _ _
      · exact hwf s (by simp [hc, e])
  · have h' : ∀ s ∈ w.state.students, strictEq (getProp s "id") id = false := by
      intro s hs
      cases hq : strictEq (getProp s "id") id with
      | false => rfl
      | true => exact absurd ⟨s, hs, hq⟩ h
    rw [students_update_none id u w h']
    exact hwf

theorem placements_update_WF (id : JSValue) (u : Record) (w : World)
    (hwf : ∀ p ∈ w.state.placements, Record.WF p) :
    ∀ p ∈ (DataManager.placements.update id u w).state.placements, Record.WF p := by
  by_cases h : ∃ x ∈ w.state.placements, strictEq (getProp x "id") id = true
  · obtain ⟨pre, x, post, hc, hpre, hx⟩ := exists_first_split _ _ h
    rw [placements_update_split id u w pre x post hc hpre hx]
    intro s hs
    have hs' : s ∈ pre ++ spread x u :: post := hs
    rcases List.mem_append.1 hs' with e | e
    · exact hwf s (by simp [hc, e])
    · rcases List.mem_cons.1 e with e | e
      · subst e
        exact WF_spread _ _
      · exact hwf s (by simp [hc, e])
  · have h' : ∀ s ∈ w.state.placements, strictEq (getProp s "id") id = false := by
      intro s hs
      cases hq : strictEq (getProp s "id") id with
      | false => rfl
      | true => exact absurd ⟨s, hs, hq⟩ h
    rw [placements_update_none id u w h']
    exact hwf

/-- An update of one collection leaves the other collection as it is. -/
theorem students_update_placements (id : JSValue) (u : Record) (w : World) :
    (DataManager.students.update id u w).state.placements = w.state.placements := by
  simp only [DataManager.students.update]
  split <;> rfl

theorem placements_update_students (id : JSValue) (u : Record) (w : World) :
    (DataManager.placements.update id u w).state.students = w.state.students := by
  simp only [DataManager.placements.update]
  split <;> rfl

/-- One operation: the id columns after it are those told by `Op.studentIds`
and `Op.placementIds`, and the records stay well formed. -/
theorem Op.run_idColumn (op : Op) (w : World) (hw : World.WF w) (hop : Op.WF op)
    (hk : Op.KeepsId op) :
    idColumn (op.run w).state.students = op.studentIds (idColumn w.state.students) ∧
    idColumn (op.run w).state.placements = op.placementIds (idColumn w.state.placements) ∧
    World.WF (op.run w) := by
  obtain ⟨hws, hwp⟩ := hw
  cases op with
  | addStudent r t d c =>
    have hr : Record.WF r := hop
    refine ⟨?_, rfl, ?_, hwp⟩
    · show idColumn (w.state.students ++ [_]) = _
      rw [idColumn_append]
      simp [idColumn, Op.studentIds, getProp_setProp_same,
        getProp_setProp_other _ "createdAt" "id" _ (by decide)]
    · intro s hs
      have hs' : s ∈ w.state.students ++ [setProp (setProp r "id" (.str (Utils.generateId t d)))
          "createdAt" (.str (toISOString c))] := hs
      rcases List.mem_append.1 hs' with e | e
      · exact hws s e
      · rw [List.mem_singleton.1 e]
        exact WF_setProp _ _ _ (WF_setProp _ _ _ hr)
  | updateStudent i u =>
    have hu : Record.WF u := hop
    have hk' : hasProp u "id" = false ∨ strictEq (getProp u "id") i = true := hk
    refine ⟨students_update_idColumn i u w hws hu hk', ?_, students_update_WF i u w hws, ?_⟩
    · show idColumn (DataManager.students.update i u w).state.placements = _
      rw [students_update_placements]
      rfl
    · show ∀ p ∈ (DataManager.students.update i u w).state.placements, Record.WF p
      rw [students_update_placements]
      exact hwp
  | deleteStudent i =>
    refine ⟨idColumn_filter i _, rfl, ?_, hwp⟩
    intro s hs
    have hs' : s ∈ w.state.students.filter (fun s => !strictEq (getProp s "id") i) := hs
    exact hws s (List.mem_filter.1 hs').1
  | importStudents f env =>
    cases f with
    | unreadable => exact ⟨rfl, rfl, hws, hwp⟩
    | malformed => exact ⟨rfl, rfl, hws, hwp⟩
    | sheet rows =>
      refine ⟨idColumn_append _ _, rfl, ?_, hwp⟩
      intro s hs
      have hs' : s ∈ w.state.students ++ importRows env rows 0 := hs
      rcases List.mem_append.1 hs' with e | e
      · exact hws s e
      · exact WF_importRows env rows 0 s e
  | addPlacement r t d c =>
    have hr : Record.WF r := hop
    refine ⟨rfl, ?_, hws, ?_⟩
    · show idColumn (w.state.placements ++ [_]) = _
      rw [idColumn_append]
      simp [idColumn, Op.placementIds, getProp_setProp_same,
        getProp_setProp_other _ "createdAt" "id" _ (by decide)]
    · intro s hs
      have hs' : s ∈ w.state.placements ++ [setProp (setProp r "id" (.str (Utils.generateId t d)))
          "createdAt" (.str (toISOString c))] := hs
      rcases List.mem_append.1 hs' with e | e
      · exact hwp s e
      · rw [List.mem_singleton.1 e]
        exact WF_setProp _ _ _ (WF_setProp _ _ _ hr)
  | updatePlacement i u =>
    have hu : Record.WF u := hop
    have hk' : hasProp u "id" = false ∨ strictEq (getProp u "id") i = true := hk
    refine ⟨?_, placements_update_idColumn i u w hwp hu hk', ?_, placements_update_WF i u w hwp⟩
    · show idColumn (DataManager.placements.update i u w).state.students = _
      rw [placements_update_students]
      rfl
    · show ∀ s ∈ (DataManager.placements.update i u w).state.students, Record.WF s
      rw [placements_update_students]
      exact hws
  | deletePlacement i =>
    refine ⟨rfl, idColumn_filter i _, hws, ?_⟩
    intro s hs
    have hs' : s ∈ w.state.placements.filter (fun s => !strictEq (getProp s "id") i) := hs
    exact hwp s (List.mem_filter.1 hs').1

/-- A sequence of operations: the id columns after it are those told by
`Op.studentIds` and `Op.placementIds`, step by step. -/
theorem runOps_idColumn (ops : List Op) (w : World) (hw : World.WF w)
    (hops : ∀ op ∈ ops, Op.WF op ∧ Op.KeepsId op) :
    idColumn (runOps ops w).state.students =
      ops.foldl (fun ids op => op.studentIds ids) (idColumn w.state.students) ∧
    idColumn (runOps ops w).state.placements =
      ops.foldl (fun ids op => op.placementIds ids) (idColumn w.state.placements) := by
  induction ops generalizing w with
  | nil => exact ⟨rfl, rfl⟩
  | cons op ops ih =>
    obtain ⟨h1, h2, h3⟩ := Op.run_idColumn op w hw (hops op (List.mem_cons_self _ _)).1
      (hops op (List.mem_cons_self _ _)).2
    have := ih (op.run w) h3 (fun o ho => hops o (List.mem_cons_of_mem _ ho))
    simp only [runOps, List.foldl_cons]
    rw [← h1, ← h2]
    exact this

/-- C2, as the code has it: an `update` whose patch has no `id` field (or has
there the id it is addressed to) leaves the id of every record, the modified
one included, as it was; and along every sequence of add, update, delete
and import operations with such patches the id column of a collection only
grows at its end (add, import) and loses entries (delete): no id of an
existing record is changed. -/
theorem id_never_mutated (w : World) (hw : World.WF w) :
    (∀ (i : JSValue) (u : Record), Record.WF u →
      (hasProp u "id" = false ∨ strictEq (getProp u "id") i = true) →
      idColumn (DataManager.students.update i u w).state.students =
        idColumn w.state.students ∧
      idColumn (DataManager.placements.update i u w).state.placements =
        idColumn w.state.placements) ∧
    (∀ ops : List Op, (∀ op ∈ ops, Op.WF op ∧ Op.KeepsId op) →
      idColumn (runOps ops w).state.students =
        ops.foldl (fun ids op => op.studentIds ids) (idColumn w.state.students) ∧
      idColumn (runOps ops w).state.placements =
        ops.foldl (fun ids op => op.placementIds ids) (idColumn w.state.placements)) :=
  ⟨fun i u hu hk => ⟨students_update_idColumn i u w hw.1 hu hk,
      placements_update_idColumn i u w hw.2 hu hk⟩,
   fun ops hops => runOps_idColumn ops w hw hops⟩

/-- C2, on the seeded store: a student is added, student `"2"` is updated,
student `"1"` is deleted and a placement is added. -/
theorem id_never_mutated_witness :
    World.WF seeded ∧
    (∀ op ∈ [Op.addStudent [("firstName", .str "Yaw")] 1700000000000 [4, 15] 1700000000001,
        Op.updateStudent (.str "2") [("class", .str "Form 3C")],
        Op.deleteStudent (.str "1"),
        Op.addPlacement [("studentId", .str "3")] 1700000000500 [7] 1700000000500],
      Op.WF op ∧ Op.KeepsId op) ∧
    idColumn (runOps
      [Op.addStudent [("firstName", .str "Yaw")] 1700000000000 [4, 15] 1700000000001,
        Op.updateStudent (.str "2") [("class", .str "Form 3C")],
        Op.deleteStudent (.str "1"),
        Op.addPlacement [("studentId", .str "3")] 1700000000500 [7] 1700000000500]
      seeded).state.students =
      [Op.addStudent [("firstName", .str "Yaw")] 1700000000000 [4, 15] 1700000000001,
        Op.updateStudent (.str "2") [("class", .str "Form 3C")],
        Op.deleteStudent (.str "1"),
        Op.addPlacement [("studentId", .str "3")] 1700000000500 [7] 1700000000500].foldl
        (fun ids op => op.studentIds ids) (idColumn seeded.state.students) :=
  ⟨by decide, by decide,
   ((id_never_mutated seeded (by decide)).2 _ (by decide)).1⟩

/-- C2 as stated fails: on the seeded store `update("1", patch)` with a patch
that has an `id` field leaves the record it modifies with the id of the
patch. -/
theorem update_changes_id_counterexample :
    idColumn seeded.state.students = [.str "1", .str "2", .str "3"] ∧
    idColumn (DataManager.students.update (.str "1") [("id", .str "7")] seeded).state.students =
      [.str "7", .str "2", .str "3"] := by
  decide

/-! ## Generated ids -/

theorem digitVal_digitChar : ∀ d < 36, digitVal (digitChar d) = d := by
  decide

theorem ofRadix_append_singleton (b : Nat) (ds : List Char) (c : Char) :
    ofRadix b (ds ++ [c]) = ofRadix b ds * b + digitVal c := by
  simp [ofRadix, List.foldl_append]

/-- The numeral `toRadixAux` writes in front of `acc` stands for `n`. -/
theorem toRadixAux_spec (b : Nat) (hb : 2 ≤ b) (hb' : b ≤ 36) (fuel n : Nat) (acc : List Char)
    (h : n < fuel) :
    ∃ ds, toRadixAux b fuel n acc = ds ++ acc ∧ ofRadix b ds = n := by
  induction fuel generalizing n acc with
  | zero => omega
  | succ fuel ih =>
    by_cases hn : n < b
    · refine ⟨[digitChar n], by simp [toRadixAux, hn], ?_⟩
      simp [ofRadix, digitVal_digitChar n (by omega)]
    · have hdiv : n / b < fuel := by
        have : n / b < n := Nat.div_lt_self (by omega) (by omega)
        omega
      obtain ⟨ds, hds, hval⟩ := ih (n / b) (digitChar (n % b) :: acc) hdiv
      refine ⟨ds ++ [digitChar (n % b)], by simp [toRadixAux, hn, hds], ?_⟩
      rw [ofRadix_append_singleton, hval,
        digitVal_digitChar (n % b) (by have := Nat.mod_lt n (show 0 < b by omega); omega)]
      exact Nat.div_add_mod' n b

/-- Reading the numeral of `n` gives `n` back. -/
theorem ofRadix_toRadix (b : Nat) (hb : 2 ≤ b) (hb' : b ≤ 36) (n : Nat) :
    ofRadix b (toRadix b n) = n := by
  obtain ⟨ds, hds, hval⟩ := toRadixAux_spec b hb hb' (n + 1) n [] (by omega)
  unfold toRadix
  rw [hds, List.append_nil, hval]

/-- Two ids generated at clock readings whose radix-36 numerals have the same
length are equal only for equal clock readings. -/
theorem generateId_inj_clock (t t' : Nat) (d d' : List Nat)
    (hlen : (toRadix 36 t).length = (toRadix 36 t').length)
    (h : Utils.generateId t d = Utils.generateId t' d') : t = t' := by
  unfold Utils.generateId at h
  have h' := congrArg String.data h
  simp only at h'
  have := (List.append_inj h' hlen).1
  have e := congrArg (ofRadix 36) this
  rwa [ofRadix_toRadix 36 (by omega) (by omega), ofRadix_toRadix 36 (by omega) (by omega)] at e

theorem strictEq_str (a b : String) : strictEq (.str a) (.str b) = true ↔ a = b := by
  simp [strictEq]

/-- An id that is `notGeneratedAt` the clock reading `now` differs from every
id generated at `now`. -/
theorem ne_generateId_of_notGeneratedAt (now : Nat) (draw : List Nat) (v : JSValue)
    (h : notGeneratedAt now v) :
    v ≠ .str (Utils.generateId now draw) ∧
      strictEq v (.str (Utils.generateId now draw)) = false := by
  have hne : v ≠ .str (Utils.generateId now draw) := by
    rcases h with h | ⟨t, d, hv, hne, hlen⟩
    · intro e
      subst e
      simp only [shorterThanClock, Utils.generateId, String.length, List.length_append,
        decide_eq_true_eq] at h
      omega
    · rw [hv]
      intro e
      exact hne (generateId_inj_clock t now d draw hlen (JSValue.str.inj e))
  refine ⟨hne, ?_⟩
  cases hq : strictEq v (.str (Utils.generateId now draw)) with
  | false => rfl
  | true => exact absurd (eq_of_strictEq _ _ hq) hne

/-- C7, as the code has it: `add(record)` puts a record with the id
`generateId(clock, draw)` last; that id differs from the id of every record
already present whose id is not a string or is shorter than the radix-36
numeral of the clock reading (the sample ids `"1"`, `"2"`, `"3"`), or was
generated at another clock reading whose numeral has the same length (see
`toRadix36_length_eight`). -/
theorem add_assigns_fresh_id (r : Record) (idNow : Nat) (idDraw : List Nat)
    (createdNow : Nat) (w : World) :
    ((∀ s ∈ w.state.students, notGeneratedAt idNow (getProp s "id")) →
      ∃ new : Record,
        (DataManager.students.add r idNow idDraw createdNow w).state.students =
          w.state.students ++ [new] ∧
        getProp new "id" = .str (Utils.generateId idNow idDraw) ∧
        ∀ s ∈ w.state.students, getProp s "id" ≠ getProp new "id" ∧
          strictEq (getProp s "id") (getProp new "id") = false) ∧
    ((∀ p ∈ w.state.placements, notGeneratedAt idNow (getProp p "id")) →
      ∃ new : Record,
        (DataManager.placements.add r idNow idDraw createdNow w).state.placements =
          w.state.placements ++ [new] ∧
        getProp new "id" = .str (Utils.generateId idNow idDraw) ∧
        ∀ p ∈ w.state.placements, getProp p "id" ≠ getProp new "id" ∧
          strictEq (getProp p "id") (getProp new "id") = false) := by
  have hnew : getProp (setProp (setProp r "id" (.str (Utils.generateId idNow idDraw)))
        "createdAt" (.str (toISOString createdNow))) "id"
      = .str (Utils.generateId idNow idDraw) := by
    rw [getProp_setProp_other _ _ _ _ (by decide), getProp_setProp_same]
  constructor
  · intro h
    refine ⟨_, rfl, hnew, ?_⟩
    intro s hs
    rw [hnew]
    exact ne_generateId_of_notGeneratedAt idNow idDraw _ (h s hs)
  · intro h
    refine ⟨_, rfl, hnew, ?_⟩
    intro s hs
    rw [hnew]
    exact ne_generateId_of_notGeneratedAt idNow idDraw _ (h s hs)

/-- The length of the numeral `toRadixAux` writes: `k + 1` digits for a number
from `b ^ k` to `b ^ (k + 1) - 1`. -/
theorem toRadixAux_length (b : Nat) (hb : 2 ≤ b) (fuel n k : Nat) (acc : List Char)
    (h : n < fuel) (hlo : k = 0 ∨ b ^ k ≤ n) (hhi : n < b ^ (k + 1)) :
    (toRadixAux b fuel n acc).length = k + 1 + acc.length := by
  induction fuel generalizing n k acc with
  | zero => omega
  | succ fuel ih =>
    by_cases hn : n < b
    · have hk : k = 0 := by
        rcases hlo with h0 | h0
        · exact h0
        · by_contra hk
          have : b ^ 1 ≤ b ^ k := Nat.pow_le_pow_right (by omega) (by omega)
          simp only [pow_one] at this
          omega
      subst hk
      simp only [toRadixAux, if_pos hn, List.length_cons]
      omega
    · have hk : 1 ≤ k := by
        by_contra hk
        have hk0 : k = 0 := by omega
        subst hk0
        simp only [zero_add, pow_one] at hhi
        exact hn hhi
      obtain ⟨j, rfl⟩ : ∃ j, k = j + 1 := ⟨k - 1, by omega⟩
      have hdiv : n / b < fuel := by
        have : n / b < n := Nat.div_lt_self (by omega) (by omega)
        omega
      have hlo' : j = 0 ∨ b ^ j ≤ n / b := by
        right
        rcases hlo with h0 | h0
        · omega
        · rw [Nat.le_div_iff_mul_le (by omega)]
          rw [pow_succ] at h0
          exact h0
      have hhi' : n / b < b ^ (j + 1) := by
        rw [Nat.div_lt_iff_lt_mul (by omega)]
        rw [pow_succ] at hhi
        exact hhi
      simp only [toRadixAux, if_neg hn]
      rw [ih (n / b) j _ hdiv hlo' hhi']
      simp only [List.length_cons]
      omega

/-- A clock reading from 36^7 to 36^8 - 1 (the years 1972 to 2059) has a
radix-36 numeral of eight digits. -/
theorem toRadix36_length_eight (t : Nat) (hlo : 36 ^ 7 ≤ t) (hhi : t < 36 ^ 8) :
    (toRadix 36 t).length = 8 := by
  unfold toRadix
  rw [toRadixAux_length 36 (by omega) (t + 1) t 7 [] (by omega) (Or.inr hlo) hhi]
  rfl

/-- C7, after one student was added to the seeded store at clock reading
1700000000000: a second one is added one millisecond later, with the same
draw. -/
theorem add_assigns_fresh_id_witness :
    (∀ s ∈ (DataManager.students.add [("firstName", .str "Yaw")] 1700000000000 [4, 15]
        1700000000000 seeded).state.students,
      notGeneratedAt 1700000000001 (getProp s "id")) ∧
    ∃ new : Record,
      (DataManager.students.add [("firstName", .str "Efua")] 1700000000001 [4, 15]
        1700000000001 (DataManager.students.add [("firstName", .str "Yaw")] 1700000000000
          [4, 15] 1700000000000 seeded)).state.students =
        (DataManager.students.add [("firstName", .str "Yaw")] 1700000000000 [4, 15]
          1700000000000 seeded).state.students ++ [new] ∧
      getProp new "id" = .str (Utils.generateId 1700000000001 [4, 15]) ∧
      ∀ s ∈ (DataManager.students.add [("firstName", .str "Yaw")] 1700000000000 [4, 15]
          1700000000000 seeded).state.students,
        getProp s "id" ≠ getProp new "id" ∧
          strictEq (getProp s "id") (getProp new "id") = false :=
  have h : ∀ s ∈ (DataManager.students.add [("firstName", .str "Yaw")] 1700000000000 [4, 15]
        1700000000000 seeded).state.students,
      notGeneratedAt 1700000000001 (getProp s "id") := by
    intro s hs
    have hs' : s ∈ sampleStudents ++
        [[("firstName", .str "Yaw"), ("id", .str (Utils.generateId 1700000000000 [4, 15])),
          ("createdAt", .str (toISOString 1700000000000))]] := hs
    rcases List.mem_append.1 hs' with e | e
    · have hall : ∀ x ∈ sampleStudents,
          shorterThanClock 1700000000001 (getProp x "id") = true := by decide
      exact Or.inl (hall s e)
    · rw [List.mem_singleton.1 e]
      exact Or.inr ⟨1700000000000, [4, 15], rfl, by decide, by decide⟩
  ⟨h, (add_assigns_fresh_id [("firstName", .str "Efua")] 1700000000001 [4, 15] 1700000000001
    (DataManager.students.add [("firstName", .str "Yaw")] 1700000000000 [4, 15]
      1700000000000 seeded)).1 h⟩

/-- C7 as stated fails: a second `add` at the same clock reading with the same
draw gives the new record the id of the record already present. -/
theorem add_id_collision_counterexample :
    idColumn (DataManager.students.add [("firstName", .str "Yaw")] 1700000000000 [4, 15]
      1700000000000 firstStart).state.students = [.str "loyw3v284f"] ∧
    idColumn (DataManager.students.add [("firstName", .str "Efua")] 1700000000000 [4, 15]
      1700000000000 (DataManager.students.add [("firstName", .str "Yaw")] 1700000000000 [4, 15]
        1700000000000 firstStart)).state.students = [.str "loyw3v284f", .str "loyw3v284f"] ∧
    (∃ s ∈ (DataManager.students.add [("firstName", .str "Yaw")] 1700000000000 [4, 15]
        1700000000000 firstStart).state.students,
      strictEq (getProp s "id") (.str (Utils.generateId 1700000000000 [4, 15])) = true) := by
  decide

/-! ## Persistence in step with memory -/

/-- C9: persistence stays in step with memory.  If the `students` slot holds
the serialization of the students in memory before an operation (an add,
update or delete on either collection, or a student import), it does so after
the operation, for the collection as it then is; likewise the `placements`
slot. -/
theorem slots_stay_in_sync (op : Op) (w : World) :
    (studentsInSync w → studentsInSync (op.run w)) ∧
    (placementsInSync w → placementsInSync (op.run w)) := by
  unfold studentsInSync placementsInSync
  cases op with
  | addStudent r t d c =>
    refine ⟨fun _ => getItem_setItem_same _ _ _, fun h => ?_⟩
    show Storage.getItem (Storage.setItem w.localStorage "students" _) "placements" = _
    rw [getItem_setItem_other _ _ _ _ (by decide)]
    exact h
  | updateStudent i u =>
    constructor
    · intro h
      by_cases hex : ∃ x ∈ w.state.students, strictEq (getProp x "id") i = true
      · obtain ⟨pre, x, post, hc, hpre, hx⟩ := exists_first_split _ _ hex
        show (DataManager.students.update i u w).localStorage.getItem "students" =
          some (slotText (collectionValue (DataManager.students.update i u w).state.students))
        rw [students_update_split i u w pre x post hc hpre hx]
        exact getItem_setItem_same _ _ _
      · have h' : ∀ s ∈ w.state.students, strictEq (getProp s "id") i = false := by
          intro s hs
          cases hq : strictEq (getProp s "id") i with
          | false => rfl
          | true => exact absurd ⟨s, hs, hq⟩ hex
        show (DataManager.students.update i u w).localStorage.getItem "students" =
          some (slotText (collectionValue (DataManager.students.update i u w).state.students))
        rw [students_update_none i u w h']
        exact h
    · intro h
      show (DataManager.students.update i u w).localStorage.getItem "placements" =
        some (slotText (collectionValue (DataManager.students.update i u w).state.placements))
      rw [students_update_placements]
      simp only [DataManager.students.update]
      split
      · show Storage.getItem (Storage.setItem w.localStorage "students" _) "placements" = _
        rw [getItem_setItem_other _ _ _ _ (by decide)]
        exact h
      · exact h
  | deleteStudent i =>
    refine ⟨fun _ => getItem_setItem_same _ _ _, fun h => ?_⟩
    show Storage.getItem (Storage.setItem w.localStorage "students" _) "placements" = _
    rw [getItem_setItem_other _ _ _ _ (by decide)]
    exact h
  | importStudents f env =>
    cases f with
    | unreadable => exact ⟨fun h => h, fun h => h⟩
    | malformed => exact ⟨fun h => h, fun h => h⟩
    | sheet rows =>
      refine ⟨fun _ => getItem_setItem_same _ _ _, fun h => ?_⟩
      show Storage.getItem (Storage.setItem w.localStorage "students" _) "placements" = _
      rw [getItem_setItem_other _ _ _ _ (by decide)]
      exact h
  | addPlacement r t d c =>
    refine ⟨fun h => ?_, fun _ => getItem_setItem_same _ _ _⟩
    show Storage.getItem (Storage.setItem w.localStorage "placements" _) "students" = _
    rw [getItem_setItem_other _ _ _ _ (by decide)]
    exact h
  | updatePlacement i u =>
    constructor
    · intro h
      show (DataManager.placements.update i u w).localStorage.getItem "students" =
        some (slotText (collectionValue (DataManager.placements.update i u w).state.students))
      rw [placements_update_students]
      simp only [DataManager.placements.update]
      split
      · show Storage.getItem (Storage.setItem w.localStorage "placements" _) "students" = _
        rw [getItem_setItem_other _ _ _ _ (by decide)]
        exact h
      · exact h
    · intro h
      by_cases hex : ∃ x ∈ w.state.placements, strictEq (getProp x "id") i = true
      · obtain ⟨pre, x, post, hc, hpre, hx⟩ := exists_first_split _ _ hex
        show (DataManager.placements.update i u w).localStorage.getItem "placements" =
          some (slotText (collectionValue (DataManager.placements.update i u w).state.placements))
        rw [placements_update_split i u w pre x post hc hpre hx]
        exact getItem_setItem_same _ _ _
      · have h' : ∀ s ∈ w.state.placements, strictEq (getProp s "id") i = false := by
          intro s hs
          cases hq : strictEq (getProp s "id") i with
          | false => rfl
          | true => exact absurd ⟨s, hs, hq⟩ hex
        show (DataManager.placements.update i u w).localStorage.getItem "placements" =
          some (slotText (collectionValue (DataManager.placements.update i u w).state.placements))
        rw [placements_update_none i u w h']
        exact h
  | deletePlacement i =>
    refine ⟨fun h => ?_, fun _ => getItem_setItem_same _ _ _⟩
    show Storage.getItem (Storage.setItem w.localStorage "placements" _) "students" = _
    rw [getItem_setItem_other _ _ _ _ (by decide)]
    exact h

/-- C9, on the seeded store, whose two slots are in step with memory: an
update of student `"2"`. -/
theorem slots_stay_in_sync_witness :
    (studentsInSync seeded ∧
      studentsInSync ((Op.updateStudent (.str "2") [("class", .str "Form 3C")]).run seeded)) ∧
    (placementsInSync seeded ∧
      placementsInSync ((Op.updateStudent (.str "2") [("class", .str "Form 3C")]).run seeded)) :=
  ⟨⟨by decide,
    (slots_stay_in_sync (Op.updateStudent (.str "2") [("class", .str "Form 3C")]) seeded).1
      (by decide)⟩,
   ⟨by decide,
    (slots_stay_in_sync (Op.updateStudent (.str "2") [("class", .str "Form 3C")]) seeded).2
      (by decide)⟩⟩

/-! ## `JSON.parse` after `JSON.stringify` -/

theorem hexVal_digitChar : ∀ d < 16, hexVal (digitChar d) = some d := by decide

theorem hexVal_zero : hexVal '0' = some 0 := by decide

theorem parseStringBody_unicode (n : Nat) (hn : n < 32) (cs acc : List Char) :
    parseStringBody
        (backslash :: 'u' :: '0' :: '0' :: digitChar (n / 16) :: digitChar (n % 16) :: cs)
        .normal acc =
      parseStringBody cs .normal (acc ++ [Char.ofNat n]) := by
  have h1 : hexVal (digitChar (n / 16)) = some (n / 16) := hexVal_digitChar _ (by omega)
  have h2 : hexVal (digitChar (n % 16)) = some (n % 16) := hexVal_digitChar _ (by omega)
  have hv : (0 * 16 + 0) * 16 + n / 16 = n / 16 := by omega
  have hn' : n / 16 * 16 + n % 16 = n := Nat.div_add_mod' n 16
  rw [parseStringBody, if_neg (by decide), if_pos rfl]
  rw [parseStringBody, if_neg (by decide), if_neg (by decide), if_neg (by decide),
    if_neg (by decide), if_neg (by decide), if_neg (by decide), if_neg (by decide),
    if_neg (by decide), if_pos rfl]
  rw [parseStringBody, hexVal_zero]
  simp only [Nat.zero_lt_succ, if_true, Nat.lt_succ_self]
  rw [parseStringBody, hexVal_zero]
  simp only [show (0 + 1 < 3) = True from by simp, if_true]
  rw [parseStringBody, h1]
  simp only [show (0 + 1 + 1 < 3) = True from by simp, if_true]
  rw [parseStringBody, h2]
  simp only [show ¬ (0 + 1 + 1 + 1 < 3) from by omega, if_false, hv, hn']
  rw [if_neg (by omega), if_neg (by omega)]

theorem parseStringBody_quoteChar (c : Char) (cs acc : List Char) :
    parseStringBody (quoteChar c ++ cs) .normal acc =
      parseStringBody cs .normal (acc ++ [c]) := by
  unfold quoteChar
  split
  · next h =>
    subst h
    show parseStringBody (backslash :: dquote :: cs) .normal acc = _
    rw [parseStringBody, if_neg (by decide), if_pos rfl, parseStringBody, if_pos rfl]
  · split
    · next h =>
      subst h
      show parseStringBody (backslash :: backslash :: cs) .normal acc = _
      rw [parseStringBody, if_neg (by decide), if_pos rfl, parseStringBody,
        if_neg (by decide), if_pos rfl]
    · split
      · next h =>
        subst h
        show parseStringBody (backslash :: 'b' :: cs) .normal acc = _
        rw [parseStringBody, if_neg (by decide), if_pos rfl, parseStringBody,
          if_neg (by decide), if_neg (by decide), if_neg (by decide), if_pos rfl]
      · split
        · next h =>
          subst h
          show parseStringBody (backslash :: 'f' :: cs) .normal acc = _
          rw [parseStringBody, if_neg (by decide), if_pos rfl, parseStringBody,
            if_neg (by decide), if_neg (by decide), if_neg (by decide), if_neg (by decide),
            if_pos rfl]
        · split
          · next h =>
            subst h
            show parseStringBody (backslash :: 'n' :: cs) .normal acc = _
            rw [parseStringBody, if_neg (by decide), if_pos rfl, parseStringBody,
              if_neg (by decide), if_neg (by decide), if_neg (by decide), if_neg (by decide),
              if_neg (by decide), if_pos rfl]
          · split
            · next h =>
              subst h
              show parseStringBody (backslash :: 'r' :: cs) .normal acc = _
              rw [parseStringBody, if_neg (by decide), if_pos rfl, parseStringBody,
                if_neg (by decide), if_neg (by decide), if_neg (by decide), if_neg (by decide),
                if_neg (by decide), if_neg (by decide), if_pos rfl]
            · split
              · next h =>
                subst h
                show parseStringBody (backslash :: 't' :: cs) .normal acc = _
                rw [parseStringBody, if_neg (by decide), if_pos rfl, parseStringBody,
                  if_neg (by decide), if_neg (by decide), if_neg (by decide),
                  if_neg (by decide), if_neg (by decide), if_neg (by decide),
                  if_neg (by decide), if_pos rfl]
              · split
                · next h1 h2 h3 h4 h5 h6 h7 h8 =>
                  show parseStringBody (backslash :: 'u' :: '0' :: '0' ::
                    digitChar (c.toNat / 16) :: digitChar (c.toNat % 16) :: cs) .normal acc = _
                  rw [parseStringBody_unicode _ h8, Char.ofNat_toNat]
                · next h1 h2 h3 h4 h5 h6 h7 h8 =>
                  show parseStringBody (c :: cs) .normal acc = _
                  rw [parseStringBody, if_neg h1, if_neg h2, if_neg h8]

theorem parseStringBody_quoteBody (s cs acc : List Char) :
    parseStringBody (quoteBody s ++ dquote :: cs) .normal acc = some (String.mk (acc ++ s), cs) := by
  induction s generalizing acc with
  | nil =>
    show parseStringBody (dquote :: cs) .normal acc = _
    rw [parseStringBody, if_pos rfl, List.append_nil]
  | cons c s ih =>
    show parseStringBody ((quoteChar c ++ quoteBody s) ++ dquote :: cs) .normal acc = _
    rw [List.append_assoc, parseStringBody_quoteChar, ih]
    simp


theorem isDigit_digitChar : ∀ d < 10, isDigit (digitChar d) = true := by decide

theorem digitChar_eq_zero : ∀ d < 10, digitChar d = '0' → d = 0 := by decide

/-- The decimal numeral `toRadixAux` writes: digits only, and a leading zero
only for zero itself. -/
theorem toRadixAux_digits (fuel n : Nat) (acc : List Char) (h : n < fuel) :
    ∃ d ds, toRadixAux 10 fuel n acc = d :: (ds ++ acc) ∧ isDigit d = true ∧
      (∀ c ∈ ds, isDigit c = true) ∧ (d = '0' → n = 0 ∧ ds = []) := by
  induction fuel generalizing n acc with
  | zero => omega
  | succ fuel ih =>
    by_cases hn : n < 10
    · refine ⟨digitChar n, [], by simp [toRadixAux, hn], isDigit_digitChar n hn, by simp, ?_⟩
      intro h0
      exact ⟨digitChar_eq_zero n hn h0, rfl⟩
    · have hdiv : n / 10 < fuel := by omega
      obtain ⟨d, ds, hds, hd, hall, hz⟩ := ih (n / 10) (digitChar (n % 10) :: acc) hdiv
      refine ⟨d, ds ++ [digitChar (n % 10)], by simp [toRadixAux, hn, hds], hd, ?_, ?_⟩
      · intro c hc
        rcases List.mem_append.1 hc with e | e
        · exact hall c e
        · rw [List.mem_singleton.1 e]
          exact isDigit_digitChar _ (by omega)
      · intro h0
        have := (hz h0).1
        omega

theorem toRadix_digits (n : Nat) :
    ∃ d ds, toRadix 10 n = d :: ds ∧ isDigit d = true ∧
      (∀ c ∈ ds, isDigit c = true) ∧ (d = '0' → ds = []) := by
  obtain ⟨d, ds, hds, hd, hall, hz⟩ := toRadixAux_digits (n + 1) n [] (by omega)
  exact ⟨d, ds, by simpa [toRadix] using hds, hd, hall, fun h => (hz h).2⟩

theorem isDigit_of_isDelimiter (c : Char) (h : isDelimiter c = true) :
    isDigit c = false ∧ isWs c = false ∧ c ≠ '.' ∧ c ≠ 'e' ∧ c ≠ 'E' := by
  simp only [isDelimiter, Bool.or_eq_true, decide_eq_true_eq] at h
  rcases h with (h | h) | h <;> subst h <;> decide

theorem spanDigits_append (ds rest : List Char) (hall : ∀ c ∈ ds, isDigit c = true)
    (hrest : Delimited rest) : spanDigits (ds ++ rest) = (ds, rest) := by
  induction ds with
  | nil =>
    cases rest with
    | nil => rfl
    | cons c cs =>
      have hc : isDelimiter c = true := hrest c (by simp)
      simp [spanDigits, (isDigit_of_isDelimiter c hc).1]
  | cons d ds ih =>
    have hd : isDigit d = true := hall d (List.mem_cons_self _ _)
    have := ih (fun c hc => hall c (List.mem_cons_of_mem _ hc))
    simp [spanDigits, hd, this]

/-- Reading the decimal numeral of `n` in front of a delimited text. -/
theorem parseNat_toRadix (n : Nat) (rest : List Char) (hrest : Delimited rest) :
    parseNat (toRadix 10 n ++ rest) = some (n, rest) := by
  obtain ⟨d, ds, hds, hd, hall, hz⟩ := toRadix_digits n
  have hval : ofRadix 10 (d :: ds) = n := by
    rw [← hds]
    exact ofRadix_toRadix 10 (by omega) (by omega) n
  have hspan : spanDigits (toRadix 10 n ++ rest) = (d :: ds, rest) := by
    rw [hds]
    apply spanDigits_append _ _ _ hrest
    intro c hc
    rcases List.mem_cons.1 hc with e | e
    · rw [e]; exact hd
    · exact hall c e
  unfold parseNat
  rw [hspan]
  have hz' : ¬ (d = '0' ∧ ds ≠ []) := fun hh => hh.2 (hz hh.1)
  simp only [hz', if_false]
  cases rest with
  | nil => simp [hval]
  | cons c cs =>
    have hc := isDigit_of_isDelimiter c (hrest c (by simp))
    simp [hval, hc.2.2.1, hc.2.2.2.1, hc.2.2.2.2]


theorem skipWs_cons (c : Char) (cs : List Char) (h : isWs c = false) :
    skipWs (c :: cs) = c :: cs := by
  simp [skipWs, h]

theorem isDigit_ne (c : Char) (h : isDigit c = true) :
    c ≠ 'n' ∧ c ≠ 't' ∧ c ≠ 'f' ∧ c ≠ dquote ∧ c ≠ '-' ∧ isWs c = false ∧ c ≠ ']' ∧
      c ≠ rbrace := by
  refine ⟨?_, ?_, ?_, ?_, ?_, ?_, ?_, ?_⟩
  · rintro rfl; revert h; decide
  · rintro rfl; revert h; decide
  · rintro rfl; revert h; decide
  · rintro rfl; revert h; decide
  · rintro rfl; revert h; decide
  · cases hw : isWs c with
    | false => rfl
    | true =>
      simp only [isWs, Bool.or_eq_true, decide_eq_true_eq] at hw
      rcases hw with ((hw | hw) | hw) | hw <;> subst hw <;> revert h <;> decide
  · rintro rfl; revert h; decide
  · rintro rfl; revert h; decide

theorem parseValue_null (fuel : Nat) (rest : List Char) :
    parseValue (fuel + 1) ('n' :: 'u' :: 'l' :: 'l' :: rest) = some (.null, rest) := by
  rw [parseValue, if_pos rfl]
  rfl

theorem parseValue_true (fuel : Nat) (rest : List Char) :
    parseValue (fuel + 1) ('t' :: 'r' :: 'u' :: 'e' :: rest) = some (.bool true, rest) := by
  rw [parseValue, if_neg (by decide), if_pos rfl]
  rfl

theorem parseValue_false (fuel : Nat) (rest : List Char) :
    parseValue (fuel + 1) ('f' :: 'a' :: 'l' :: 's' :: 'e' :: rest) =
      some (.bool false, rest) := by
  rw [parseValue, if_neg (by decide), if_neg (by decide), if_pos rfl]
  rfl

theorem parseValue_string (fuel : Nat) (s : String) (rest : List Char) :
    parseValue (fuel + 1) (quoteJSONString s ++ rest) = some (.str s, rest) := by
  show parseValue (fuel + 1) (dquote :: ((quoteBody s.data ++ [dquote]) ++ rest)) = _
  rw [parseValue, if_neg (by decide), if_neg (by decide), if_neg (by decide), if_pos rfl,
    List.append_assoc]
  show (match parseStringBody (quoteBody s.data ++ dquote :: rest) .normal [] with
    | some (s, rest) => some (JSValue.str s, rest)
    | none => none) = _
  rw [parseStringBody_quoteBody]
  rfl

theorem parseValue_num (fuel : Nat) (n : Int) (rest : List Char) (hrest : Delimited rest) :
    parseValue (fuel + 1) (intToChars n ++ rest) = some (.num n, rest) := by
  unfold intToChars
  split
  · next hn =>
    show parseValue (fuel + 1) ('-' :: (toRadix 10 n.natAbs ++ rest)) = _
    rw [parseValue, if_neg (by decide), if_neg (by decide), if_neg (by decide),
      if_neg (by decide), if_pos rfl, parseNat_toRadix _ _ hrest]
    simp only [Option.some.injEq, Prod.mk.injEq, JSValue.num.injEq, and_true]
    omega
  · next hn =>
    obtain ⟨d, ds, hds, hd, _, _⟩ := toRadix_digits n.natAbs
    have hp := parseNat_toRadix n.natAbs rest hrest
    rw [hds] at hp ⊢
    have hne := isDigit_ne d hd
    show parseValue (fuel + 1) (d :: (ds ++ rest)) = _
    rw [parseValue, if_neg hne.1, if_neg hne.2.1, if_neg hne.2.2.1, if_neg hne.2.2.2.1,
      if_neg hne.2.2.2.2.1, if_pos hd]
    show (match parseNat (d :: ds ++ rest) with
      | some (n, rest) => some (JSValue.num (n : Int), rest)
      | none => none) = _
    rw [hp]
    simp only [Option.some.injEq, Prod.mk.injEq, JSValue.num.injEq, and_true]
    omega


/-- The JSON text of a value starts with a character that is neither white
space nor a closing bracket or brace. -/
theorem serialize_head (v : JSValue) (t : List Char) (h : serialize v = some t) :
    ∃ c t', t = c :: t' ∧ isWs c = false ∧ c ≠ ']' ∧ c ≠ rbrace := by
  cases v with
  | undefined => simp [serialize] at h
  | null =>
    simp only [serialize, Option.some.injEq] at h
    exact ⟨'n', _, h.symm, by decide, by decide, by decide⟩
  | bool b =>
    cases b with
    | true =>
      simp only [serialize, Option.some.injEq] at h
      exact ⟨'t', _, h.symm, by decide, by decide, by decide⟩
    | false =>
      simp only [serialize, Option.some.injEq] at h
      exact ⟨'f', _, h.symm, by decide, by decide, by decide⟩
  | num n =>
    simp only [serialize, Option.some.injEq] at h
    subst h
    unfold intToChars
    split
    · exact ⟨'-', _, rfl, by decide, by decide, by decide⟩
    · obtain ⟨d, ds, hds, hd, _, _⟩ := toRadix_digits n.natAbs
      have hne := isDigit_ne d hd
      exact ⟨d, ds, hds, hne.2.2.2.2.2.1, hne.2.2.2.2.2.2.1, hne.2.2.2.2.2.2.2⟩
  | str s =>
    simp only [serialize, Option.some.injEq] at h
    exact ⟨dquote, _, h.symm, by decide, by decide, by decide⟩
  | arr xs =>
    simp only [serialize, Option.some.injEq] at h
    exact ⟨'[', _, h.symm, by decide, by decide, by decide⟩
  | obj ps =>
    simp only [serialize, Option.some.injEq] at h
    exact ⟨lbrace, _, h.symm, by decide, by decide, by decide⟩

/-- A value that is `jsonSafe` has a JSON text. -/
theorem serialize_of_jsonSafe (v : JSValue) (h : v.jsonSafe = true) :
    ∃ t, serialize v = some t := by
  cases v with
  | undefined => simp [JSValue.jsonSafe] at h
  | null => exact ⟨_, rfl⟩
  | bool b => cases b <;> exact ⟨_, rfl⟩
  | num n => exact ⟨_, rfl⟩
  | str s => exact ⟨_, rfl⟩
  | arr xs => exact ⟨_, rfl⟩
  | obj ps => exact ⟨_, rfl⟩

theorem serializeItems_cons (x : JSValue) (xs : List JSValue) (t : List Char)
    (h : serialize x = some t) : serializeItems (x :: xs) = t :: serializeItems xs := by
  rw [serializeItems, h]

theorem serializeProps_cons (k : String) (v : JSValue) (ps : List (String × JSValue))
    (t : List Char) (h : serialize v = some t) :
    serializeProps ((k, v) :: ps) = (quoteJSONString k ++ ':' :: t) :: serializeProps ps := by
  rw [serializeProps, h]

theorem serializeItems_ne_nil (x : JSValue) (xs : List JSValue) :
    ∃ t ts, serializeItems (x :: xs) = t :: ts := by
  rw [serializeItems]
  exact ⟨_, _, rfl⟩

theorem joinComma_cons_cons (x y : List Char) (r : List (List Char)) (tail : List Char) :
    joinComma (x :: y :: r) ++ tail = x ++ ',' :: (joinComma (y :: r) ++ tail) := by
  simp [joinComma]

theorem joinComma_length_cons_cons (x y : List Char) (r : List (List Char)) :
    (joinComma (x :: y :: r)).length = x.length + 1 + (joinComma (y :: r)).length := by
  simp [joinComma]
  omega

/-- A property write with a key the object does not have adds the property
last. -/
theorem setProp_of_not_mem (r : Record) (k : String) (v : JSValue) (h : k ∉ keys r) :
    setProp r k v = r ++ [(k, v)] := by
  induction r with
  | nil => rfl
  | cons p r ih =>
    obtain ⟨l, x⟩ := p
    have hl : l ≠ k := fun e => h (by simp [keys, e])
    have hr : k ∉ keys r := fun e => h (by
      have e' : k ∈ List.map Prod.fst r := e
      simp [keys, e'])
    simp [setProp, hl, ih hr]

/-- One step of `parseItems`: the last element. -/
theorem parseItems_last (fuel : Nat) (x : JSValue) (t rest : List Char) (acc : List JSValue)
    (h : parseValue fuel (t ++ ']' :: rest) = some (x, ']' :: rest)) :
    parseItems (fuel + 1) (t ++ ']' :: rest) acc = some (acc ++ [x], rest) := by
  rw [parseItems, h]
  simp only []
  rw [skipWs_cons _ _ (by decide)]
  simp

/-- One step of `parseItems`: an element that is followed by another. -/
theorem parseItems_more (fuel : Nat) (x : JSValue) (t more : List Char) (acc : List JSValue)
    (h : parseValue fuel (t ++ ',' :: more) = some (x, ',' :: more)) :
    parseItems (fuel + 1) (t ++ ',' :: more) acc = parseItems fuel (skipWs more) (acc ++ [x]) := by
  rw [parseItems, h]
  simp only []
  rw [skipWs_cons _ _ (by decide)]
  simp

/-- The start of one step of `parseMembers`: the key, the colon and the
value. -/
theorem parseMembers_member (fuel : Nat) (k : String) (v : JSValue) (t more : List Char)
    (acc : Record) (hv : parseValue fuel (t ++ more) = some (v, more))
    (ht : ∃ c t', t = c :: t' ∧ isWs c = false) :
    parseMembers (fuel + 1) ((quoteJSONString k ++ ':' :: t) ++ more) acc =
      match skipWs more with
      | [] => none
      | e :: es =>
        if e = ',' then parseMembers fuel (skipWs es) (setProp acc k v)
        else if e = rbrace then some (setProp acc k v, es)
        else none := by
  obtain ⟨c, t', htc, hc⟩ := ht
  show parseMembers (fuel + 1)
    (dquote :: (((quoteBody k.data ++ [dquote]) ++ ':' :: t) ++ more)) acc = _
  have e1 : ((quoteBody k.data ++ [dquote]) ++ ':' :: t) ++ more =
      quoteBody k.data ++ dquote :: (':' :: (t ++ more)) := by simp
  rw [parseMembers, if_pos rfl, e1, parseStringBody_quoteBody]
  simp only [List.nil_append]
  rw [skipWs_cons _ _ (by decide)]
  have e2 : skipWs (t ++ more) = t ++ more := by
    rw [htc]
    exact skipWs_cons _ _ hc
  simp only [if_true, e2, hv]


theorem parseValue_empty_array (fuel : Nat) (rest : List Char) :
    parseValue (fuel + 1) ('[' :: ']' :: rest) = some (.arr [], rest) := by
  rw [parseValue, if_neg (by decide), if_neg (by decide), if_neg (by decide),
    if_neg (by decide), if_neg (by decide), if_neg (by decide), if_pos rfl,
    skipWs_cons _ _ (by decide)]
  simp

theorem parseValue_empty_object (fuel : Nat) (rest : List Char) :
    parseValue (fuel + 1) (lbrace :: rbrace :: rest) = some (.obj [], rest) := by
  rw [parseValue, if_neg (by decide), if_neg (by decide), if_neg (by decide),
    if_neg (by decide), if_neg (by decide), if_neg (by decide), if_neg (by decide),
    if_pos rfl, skipWs_cons _ _ (by decide)]
  simp

theorem parseValue_array (fuel : Nat) (c : Char) (cs : List Char) (xs : List JSValue)
    (rest : List Char) (hw : isWs c = false) (hc : c ≠ ']')
    (h : parseItems fuel (c :: cs) [] = some (xs, rest)) :
    parseValue (fuel + 1) ('[' :: c :: cs) = some (.arr xs, rest) := by
  rw [parseValue, if_neg (by decide), if_neg (by decide), if_neg (by decide),
    if_neg (by decide), if_neg (by decide), if_neg (by decide), if_pos rfl,
    skipWs_cons _ _ hw]
  simp only [if_neg hc, h]

theorem parseValue_object (fuel : Nat) (c : Char) (cs : List Char) (ps : Record)
    (rest : List Char) (hw : isWs c = false) (hc : c ≠ rbrace)
    (h : parseMembers fuel (c :: cs) [] = some (ps, rest)) :
    parseValue (fuel + 1) (lbrace :: c :: cs) = some (.obj ps, rest) := by
  rw [parseValue, if_neg (by decide), if_neg (by decide), if_neg (by decide),
    if_neg (by decide), if_neg (by decide), if_neg (by decide), if_neg (by decide),
    if_pos rfl, skipWs_cons _ _ hw]
  simp only [if_neg hc, h]

theorem Delimited_cons (c : Char) (cs : List Char) (h : isDelimiter c = true) :
    Delimited (c :: cs) := by
  intro d hd
  simp only [List.head?_cons, Option.mem_def, Option.some.injEq] at hd
  rw [← hd]
  exact h

theorem joinComma_head (c : Char) (t : List Char) (ts : List (List Char)) (tail : List Char) :
    ∃ cs, joinComma ((c :: t) :: ts) ++ tail = c :: cs := by
  cases ts with
  | nil => exact ⟨t ++ tail, rfl⟩
  | cons y ys => exact ⟨t ++ ',' :: (joinComma (y :: ys) ++ tail), by simp [joinComma]⟩

theorem quoteJSONString_cons (k : String) (t : List Char) :
    quoteJSONString k ++ ':' :: t = dquote :: (quoteBody k.data ++ [dquote] ++ ':' :: t) := by
  simp [quoteJSONString]

mutual
/-- Reading the JSON text of a `jsonSafe` value, in front of a delimited text,
gives the value back. -/
theorem parseValue_serialize : ∀ (v : JSValue) (t : List Char) (fuel : Nat) (rest : List Char),
    v.jsonSafe = true → serialize v = some t → t.length ≤ fuel → Delimited rest →
    parseValue fuel (t ++ rest) = some (v, rest)
  | .undefined, _, _, _, hs, _, _, _ => by simp [JSValue.jsonSafe] at hs
  | .null, t, fuel, rest, _, ht, hf, _ => by
    simp only [serialize, Option.some.injEq] at ht
    subst ht
    obtain ⟨f, rfl⟩ : ∃ f, fuel = f + 1 := ⟨fuel - 1, by simp at hf; omega⟩
    exact parseValue_null f rest
  | .bool true, t, fuel, rest, _, ht, hf, _ => by
    simp only [serialize, Option.some.injEq] at ht
    subst ht
    obtain ⟨f, rfl⟩ : ∃ f, fuel = f + 1 := ⟨fuel - 1, by simp at hf; omega⟩
    exact parseValue_true f rest
  | .bool false, t, fuel, rest, _, ht, hf, _ => by
    simp only [serialize, Option.some.injEq] at ht
    subst ht
    obtain ⟨f, rfl⟩ : ∃ f, fuel = f + 1 := ⟨fuel - 1, by simp at hf; omega⟩
    exact parseValue_false f rest
  | .num n, t, fuel, rest, _, ht, hf, hr => by
    obtain ⟨c, t', htc, _⟩ := serialize_head _ _ ht
    simp only [serialize, Option.some.injEq] at ht
    subst ht
    obtain ⟨f, rfl⟩ : ∃ f, fuel = f + 1 := ⟨fuel - 1, by rw [htc] at hf; simp at hf; omega⟩
    exact parseValue_num f n rest hr
  | .str s, t, fuel, rest, _, ht, hf, _ => by
    simp only [serialize, Option.some.injEq] at ht
    subst ht
    obtain ⟨f, rfl⟩ : ∃ f, fuel = f + 1 :=
      ⟨fuel - 1, by simp [quoteJSONString] at hf; omega⟩
    exact parseValue_string f s rest
  | .arr xs, t, fuel, rest, hs, ht, hf, _ => by
    simp only [serialize, Option.some.injEq] at ht
    subst ht
    obtain ⟨f, rfl⟩ : ∃ f, fuel = f + 1 := ⟨fuel - 1, by simp at hf; omega⟩
    have ih := parseItems_serialize xs f [] rest
    cases xs with
    | nil => exact parseValue_empty_array f rest
    | cons x xs' =>
      have hsafe : itemsSafe (x :: xs') = true := hs
      have hlen : (joinComma (serializeItems (x :: xs'))).length + 1 ≤ f := by
        simp only [List.length_cons, List.length_append, List.length_nil] at hf
        omega
      have hp := ih (by simp) hsafe hlen
      have hx : x.jsonSafe = true := by
        simp only [itemsSafe, Bool.and_eq_true] at hsafe
        exact hsafe.1
      obtain ⟨tx, htx⟩ := serialize_of_jsonSafe x hx
      obtain ⟨c, t', htc, hw, hc, _⟩ := serialize_head x tx htx
      have hstart : ∃ cs, joinComma (serializeItems (x :: xs')) ++ ']' :: rest = c :: cs := by
        rw [serializeItems_cons x xs' tx htx, htc]
        exact joinComma_head _ _ _ _
      obtain ⟨cs, hcs⟩ := hstart
      show parseValue (f + 1)
        ('[' :: ((joinComma (serializeItems (x :: xs')) ++ [']']) ++ rest)) = _
      have e : (joinComma (serializeItems (x :: xs')) ++ [']']) ++ rest = c :: cs := by
        rw [← hcs]
        simp
      rw [e]
      rw [hcs] at hp
      simpa using parseValue_array f c cs (x :: xs') rest hw hc hp
  | .obj ps, t, fuel, rest, hs, ht, hf, _ => by
    simp only [serialize, Option.some.injEq] at ht
    subst ht
    obtain ⟨f, rfl⟩ : ∃ f, fuel = f + 1 := ⟨fuel - 1, by simp at hf; omega⟩
    have ih := parseMembers_serialize ps f [] rest
    cases ps with
    | nil => exact parseValue_empty_object f rest
    | cons p ps' =>
      obtain ⟨k, v⟩ := p
      have hs' : propsSafe ((k, v) :: ps') = true ∧ (List.map Prod.fst ((k, v) :: ps')).Nodup := by
        simpa [JSValue.jsonSafe] using hs
      have hlen : (joinComma (serializeProps ((k, v) :: ps'))).length + 1 ≤ f := by
        simp only [List.length_cons, List.length_append, List.length_nil] at hf
        omega
      have hp := ih (by simp) hs'.1 (by simpa [keys] using hs'.2) hlen
      have hv : v.jsonSafe = true := by
        have := hs'.1
        simp only [propsSafe, Bool.and_eq_true] at this
        exact this.1
      obtain ⟨tv, htv⟩ := serialize_of_jsonSafe v hv
      have hstart : ∃ cs, joinComma (serializeProps ((k, v) :: ps')) ++ rbrace :: rest =
          dquote :: cs := by
        rw [serializeProps_cons k v ps' tv htv, quoteJSONString_cons]
        exact joinComma_head _ _ _ _
      obtain ⟨cs, hcs⟩ := hstart
      show parseValue (f + 1)
        (lbrace :: ((joinComma (serializeProps ((k, v) :: ps')) ++ [rbrace]) ++ rest)) = _
      have e : (joinComma (serializeProps ((k, v) :: ps')) ++ [rbrace]) ++ rest = dquote :: cs := by
        rw [← hcs]
        simp
      rw [e]
      rw [hcs] at hp
      simpa using parseValue_object f dquote cs ((k, v) :: ps') rest (by decide) (by decide) hp
/-- Reading the elements of a serialized array. -/
theorem parseItems_serialize : ∀ (xs : List JSValue) (fuel : Nat) (acc : List JSValue)
    (rest : List Char), xs ≠ [] → itemsSafe xs = true →
    (joinComma (serializeItems xs)).length + 1 ≤ fuel →
    parseItems fuel (joinComma (serializeItems xs) ++ ']' :: rest) acc = some (acc ++ xs, rest)
  | [], _, _, _, hne, _, _ => absurd rfl hne
  | x :: xs', fuel, acc, rest, _, hs, hf => by
    obtain ⟨f, rfl⟩ : ∃ f, fuel = f + 1 := ⟨fuel - 1, by omega⟩
    have hs' : x.jsonSafe = true ∧ itemsSafe xs' = true := by
      simpa [itemsSafe] using hs
    obtain ⟨tx, htx⟩ := serialize_of_jsonSafe x hs'.1
    obtain ⟨c, t', htc, _⟩ := serialize_head x tx htx
    have htx1 : 1 ≤ tx.length := by rw [htc]; simp
    have ihv := parseValue_serialize x tx f
    have ihs := parseItems_serialize xs' f (acc ++ [x]) rest
    rw [serializeItems_cons x xs' tx htx] at hf ⊢
    cases xs' with
    | nil =>
      have hf' : tx.length ≤ f := by
        simp only [serializeItems, joinComma] at hf
        omega
      have hv := ihv (']' :: rest) hs'.1 htx hf' (Delimited_cons _ _ (by decide))
      show parseItems (f + 1) (tx ++ ']' :: rest) acc = _
      exact parseItems_last f x tx rest acc hv
    | cons y ys =>
      obtain ⟨ty, tys, hty⟩ := serializeItems_ne_nil y ys
      rw [hty] at hf ⊢
      rw [joinComma_length_cons_cons] at hf
      have hf' : tx.length ≤ f := by omega
      have hv := ihv (',' :: (joinComma (ty :: tys) ++ ']' :: rest)) hs'.1 htx hf'
        (Delimited_cons _ _ (by decide))
      rw [joinComma_cons_cons, parseItems_more f x tx _ acc hv]
      have hy : y.jsonSafe = true := by
        have := hs'.2
        simp only [itemsSafe, Bool.and_eq_true] at this
        exact this.1
      obtain ⟨ty', hty'⟩ := serialize_of_jsonSafe y hy
      obtain ⟨d, u, hd, hw, _⟩ := serialize_head y ty' hty'
      have hty2 : ty = ty' := by
        rw [serializeItems_cons y ys ty' hty'] at hty
        exact (List.cons.inj hty).1.symm
      have hsk : skipWs (joinComma (ty :: tys) ++ ']' :: rest) =
          joinComma (ty :: tys) ++ ']' :: rest := by
        rw [hty2, hd]
        cases tys with
        | nil => exact skipWs_cons _ _ hw
        | cons z zs =>
          rw [joinComma_cons_cons]
          exact skipWs_cons _ _ hw
      rw [hsk, ← hty]
      have := ihs (by simp) hs'.2 (by rw [hty]; omega)
      rw [this]
      simp
/-- Reading the members of a serialized object. -/
theorem parseMembers_serialize : ∀ (ps : List (String × JSValue)) (fuel : Nat) (acc : Record)
    (rest : List Char), ps ≠ [] → propsSafe ps = true → (keys acc ++ keys ps).Nodup →
    (joinComma (serializeProps ps)).length + 1 ≤ fuel →
    parseMembers fuel (joinComma (serializeProps ps) ++ rbrace :: rest) acc =
      some (acc ++ ps, rest)
  | [], _, _, _, hne, _, _, _ => absurd rfl hne
  | (k, v) :: ps', fuel, acc, rest, _, hs, hnd, hf => by
    obtain ⟨f, rfl⟩ : ∃ f, fuel = f + 1 := ⟨fuel - 1, by omega⟩
    have hs' : v.jsonSafe = true ∧ propsSafe ps' = true := by
      simpa [propsSafe] using hs
    obtain ⟨tv, htv⟩ := serialize_of_jsonSafe v hs'.1
    obtain ⟨c, t', htc, hwc, _⟩ := serialize_head v tv htv
    have ihv := parseValue_serialize v tv f
    have ihs := parseMembers_serialize ps' f (acc ++ [(k, v)]) rest
    have hk : k ∉ keys acc := by
      intro hmem
      have := List.disjoint_of_nodup_append hnd hmem
      exact this (by simp [keys])
    have hset : setProp acc k v = acc ++ [(k, v)] := setProp_of_not_mem acc k v hk
    have hnd' : (keys (acc ++ [(k, v)]) ++ keys ps').Nodup := by
      simpa [keys, List.append_assoc] using hnd
    rw [serializeProps_cons k v ps' tv htv] at hf ⊢
    have hmlen : tv.length + 3 ≤ (quoteJSONString k ++ ':' :: tv).length := by
      simp only [quoteJSONString, List.length_cons, List.length_append, List.length_nil]
      omega
    cases hps : serializeProps ps' with
    | nil =>
      rw [hps] at hf
      have hf' : tv.length ≤ f := by
        simp only [joinComma] at hf
        omega
      have hv := ihv (rbrace :: rest) hs'.1 htv hf' (Delimited_cons _ _ (by decide))
      show parseMembers (f + 1) ((quoteJSONString k ++ ':' :: tv) ++ rbrace :: rest) acc = _
      rw [parseMembers_member f k v tv _ acc hv ⟨c, t', htc, hwc⟩, skipWs_cons _ _ (by decide)]
      have hps' : ps' = [] := by
        cases ps' with
        | nil => rfl
        | cons q qs =>
          obtain ⟨l, y⟩ := q
          have hy : y.jsonSafe = true := by
            have := hs'.2
            simp only [propsSafe, Bool.and_eq_true] at this
            exact this.1
          obtain ⟨ty, hty⟩ := serialize_of_jsonSafe y hy
          rw [serializeProps_cons l y qs ty hty] at hps
          cases hps
      simp only [if_true, hset, hps']
      rw [if_neg (by decide)]
    | cons m ms =>
      rw [hps] at hf
      rw [joinComma_length_cons_cons] at hf
      have hf' : tv.length ≤ f := by omega
      have hv := ihv (',' :: (joinComma (m :: ms) ++ rbrace :: rest)) hs'.1 htv hf'
        (Delimited_cons _ _ (by decide))
      rw [joinComma_cons_cons]
      show parseMembers (f + 1)
        ((quoteJSONString k ++ ':' :: tv) ++ ',' :: (joinComma (m :: ms) ++ rbrace :: rest)) acc = _
      rw [parseMembers_member f k v tv _ acc hv ⟨c, t', htc, hwc⟩, skipWs_cons _ _ (by decide)]
      have hne : ps' ≠ [] := by
        rintro rfl
        simp [serializeProps] at hps
      have hm : ∃ cs, joinComma (m :: ms) ++ rbrace :: rest = dquote :: cs := by
        cases ps' with
        | nil => exact absurd rfl hne
        | cons q qs =>
          obtain ⟨l, y⟩ := q
          have hy : y.jsonSafe = true := by
            have := hs'.2
            simp only [propsSafe, Bool.and_eq_true] at this
            exact this.1
          obtain ⟨ty, hty⟩ := serialize_of_jsonSafe y hy
          rw [serializeProps_cons l y qs ty hty] at hps
          obtain ⟨rfl, rfl⟩ := List.cons.inj hps
          rw [quoteJSONString_cons]
          exact joinComma_head _ _ _ _
      obtain ⟨cs, hcs⟩ := hm
      have hsk : skipWs (joinComma (m :: ms) ++ rbrace :: rest) =
          joinComma (m :: ms) ++ rbrace :: rest := by
        rw [hcs]
        exact skipWs_cons _ _ (by decide)
      simp only [if_true, hsk, hset]
      have := ihs hne hs'.2 hnd' (by rw [hps]; omega)
      rw [hps] at this
      rw [this]
      simp
end



/-- `JSON.parse(JSON.stringify(v))` is `v`, for a `jsonSafe` value `v`. -/
theorem parse_stringify (v : JSValue) (hs : v.jsonSafe = true) :
    JSON.parse (slotText v) = some v := by
  obtain ⟨t, ht⟩ := serialize_of_jsonSafe v hs
  obtain ⟨c, t', htc, hw, _⟩ := serialize_head v t ht
  have hp := parseValue_serialize v t (t.length + 1) [] hs ht (by omega)
    (by intro d hd; simp at hd)
  rw [List.append_nil] at hp
  have hsk : skipWs t = t := by
    rw [htc]
    exact skipWs_cons _ _ hw
  simp only [slotText, JSON.stringify, ht, Option.map_some', JSON.parse, hsk, hp]
  rfl

theorem itemsSafe_map_obj (c : List Record)
    (h : ∀ s ∈ c, (JSValue.obj s).jsonSafe = true) : itemsSafe (c.map .obj) = true := by
  induction c with
  | nil => rfl
  | cons s c ih =>
    simp only [List.map_cons, itemsSafe, Bool.and_eq_true]
    exact ⟨h s (List.mem_cons_self _ _), ih (fun x hx => h x (List.mem_cons_of_mem _ hx))⟩

/-- Loading a slot into which a collection of `jsonSafe` records was saved
gives the collection. -/
theorem loadSlot_setItem (st : Storage) (key : String) (c : List Record)
    (h : ∀ s ∈ c, (JSValue.obj s).jsonSafe = true) :
    loadSlot (st.setItem key (slotText (collectionValue c))) key = some (collectionValue c) := by
  unfold loadSlot
  rw [getItem_setItem_same]
  simp only []
  have hsafe : (collectionValue c).jsonSafe = true := itemsSafe_map_obj c h
  rw [parse_stringify _ hsafe]
  rfl

/-- C10, as the code has it: for a collection whose records hold only values
that JSON has (no `undefined` at any depth), saving it to its slot and then
loading the slot as at start-up yields the collection saved: the same
records, in the same order, for students and for placements. -/
theorem save_then_load (w : World) :
    ((∀ s ∈ w.state.students, (JSValue.obj s).jsonSafe = true) →
      loadSlot (DataManager.students.save w).localStorage "students" =
        some (collectionValue w.state.students)) ∧
    ((∀ p ∈ w.state.placements, (JSValue.obj p).jsonSafe = true) →
      loadSlot (DataManager.placements.save w).localStorage "placements" =
        some (collectionValue w.state.placements)) :=
  ⟨fun h => loadSlot_setItem _ _ _ h, fun h => loadSlot_setItem _ _ _ h⟩

/-- C10, on the seeded store: its students and its placements are read back
as they were saved. -/
theorem save_then_load_witness :
    ((∀ s ∈ seeded.state.students, (JSValue.obj s).jsonSafe = true) ∧
      loadSlot (DataManager.students.save seeded).localStorage "students" =
        some (collectionValue seeded.state.students)) ∧
    ((∀ p ∈ seeded.state.placements, (JSValue.obj p).jsonSafe = true) ∧
      loadSlot (DataManager.placements.save seeded).localStorage "placements" =
        some (collectionValue seeded.state.placements)) :=
  ⟨⟨by decide, (save_then_load seeded).1 (by decide)⟩,
   ⟨by decide, (save_then_load seeded).2 (by decide)⟩⟩

/-- C10 as stated fails: a student imported from a row that has only a
`Student ID` and a `First Name` holds `undefined` in its other row fields;
what is loaded from the slot after saving is a record without those fields,
not the record that was saved. -/
theorem save_then_load_counterexample :
    (StudentsPage.processImportFile
        (.sheet [[("Student ID", .str "SHS100"), ("First Name", .str "Esi")]])
        (fun _ => ⟨1700000000000, [4, 15], 1700000000000, [7], 1700000000000⟩)
        firstStart).state.students =
      [[("id", .str "loyw3v284f"), ("studentId", .str "SHS100"), ("firstName", .str "Esi"),
        ("lastName", .undefined), ("class", .undefined), ("gender", .undefined),
        ("dateOfBirth", .undefined), ("parentPhone", .undefined), ("status", .str "Active"),
        ("createdAt", .str "2023-11-14T22:13:20.000Z")]] ∧
    loadSlot (DataManager.students.save (StudentsPage.processImportFile
        (.sheet [[("Student ID", .str "SHS100"), ("First Name", .str "Esi")]])
        (fun _ => ⟨1700000000000, [4, 15], 1700000000000, [7], 1700000000000⟩)
        firstStart)).localStorage "students" =
      some (.arr [.obj [("id", .str "loyw3v284f"), ("studentId", .str "SHS100"),
        ("firstName", .str "Esi"), ("status", .str "Active"),
        ("createdAt", .str "2023-11-14T22:13:20.000Z")]]) ∧
    loadSlot (DataManager.students.save (StudentsPage.processImportFile
        (.sheet [[("Student ID", .str "SHS100"), ("First Name", .str "Esi")]])
        (fun _ => ⟨1700000000000, [4, 15], 1700000000000, [7], 1700000000000⟩)
        firstStart)).localStorage "students" ≠
      some (collectionValue (StudentsPage.processImportFile
        (.sheet [[("Student ID", .str "SHS100"), ("First Name", .str "Esi")]])
        (fun _ => ⟨1700000000000, [4, 15], 1700000000000, [7], 1700000000000⟩)
        firstStart).state.students) := by
  decide

/-! ## Start-up -/

theorem asRecords_map_obj (c : List Record) : asRecords (c.map .obj) = some c := by
  induction c with
  | nil => rfl
  | cons r c ih => simp [asRecords, ih]

theorem asCollection_collectionValue (c : List Record) :
    asCollection (collectionValue c) = some c :=
  asRecords_map_obj c

/-- A missing slot is loaded as the empty array. -/
theorem loadSlot_missing (st : Storage) (key : String) (h : st.getItem key = none) :
    loadSlot st key = some (collectionValue []) := by
  unfold loadSlot
  rw [h]
  have : JSON.parse "null" = some .null := by decide
  simp only [this]
  rfl

/-- A slot whose text is the JSON text of an array is loaded as that array. -/
theorem loadSlot_array (st : Storage) (key text : String) (xs : List JSValue)
    (h : st.getItem key = some text) (hp : JSON.parse text = some (.arr xs)) :
    loadSlot st key = some (.arr xs) := by
  unfold loadSlot
  rw [h]
  simp only [hp]
  rfl

/-- A slot that holds the serialization of a collection of `jsonSafe` records
is loaded as that collection. -/
theorem loadSlot_saved (st : Storage) (key : String) (c : List Record)
    (hc : ∀ r ∈ c, (JSValue.obj r).jsonSafe = true)
    (h : st.getItem key = some (slotText (collectionValue c))) :
    loadSlot st key = some (collectionValue c) := by
  have hsafe : (collectionValue c).jsonSafe = true := itemsSafe_map_obj c hc
  exact loadSlot_array st key _ _ h (parse_stringify _ hsafe)

theorem loadCollection_of_loadSlot (st : Storage) (key : String) (c : List Record)
    (h : loadSlot st key = some (collectionValue c)) : loadCollection st key = some c := by
  unfold loadCollection
  rw [h]
  exact asCollection_collectionValue c

/-- C11: at start-up a collection whose slot is missing is loaded as the empty
collection, and a slot that is present and holds the JSON text of an array
(in particular the serialization of a collection of records that JSON can
hold) is loaded as that array; `AppState` gets, for each of `students`,
`teachers`, `attendance`, `grades`, `placements` and `schools`, the collection
so loaded. -/
theorem startup_loads_collections (st : Storage) :
    (∀ key, st.getItem key = none → loadSlot st key = some (collectionValue [])) ∧
    (∀ key text xs, st.getItem key = some text → JSON.parse text = some (.arr xs) →
      loadSlot st key = some (.arr xs)) ∧
    (∀ key c, (∀ r ∈ c, (JSValue.obj r).jsonSafe = true) →
      st.getItem key = some (slotText (collectionValue c)) →
      loadSlot st key = some (collectionValue c)) ∧
    (∀ students teachers attendance grades placements schools : List Record,
      loadSlot st "students" = some (collectionValue students) →
      loadSlot st "teachers" = some (collectionValue teachers) →
      loadSlot st "attendance" = some (collectionValue attendance) →
      loadSlot st "grades" = some (collectionValue grades) →
      loadSlot st "placements" = some (collectionValue placements) →
      loadSlot st "schools" = some (collectionValue schools) →
      ∃ a, AppState.init st = some a ∧ a.students = students ∧ a.teachers = teachers ∧
        a.attendance = attendance ∧ a.grades = grades ∧ a.placements = placements ∧
        a.schools = schools) := by
  refine ⟨loadSlot_missing st, loadSlot_array st, loadSlot_saved st, ?_⟩
  intro students teachers attendance grades placements schools h1 h2 h3 h4 h5 h6
  unfold AppState.init
  rw [loadCollection_of_loadSlot st _ _ h1, loadCollection_of_loadSlot st _ _ h2,
    loadCollection_of_loadSlot st _ _ h3, loadCollection_of_loadSlot st _ _ h4,
    loadCollection_of_loadSlot st _ _ h5, loadCollection_of_loadSlot st _ _ h6]
  exact ⟨_, rfl, rfl, rfl, rfl, rfl, rfl, rfl⟩

/-- C11, on the `localStorage` the seeded store leaves: the slots `students`,
`placements` and `schools` are present, `teachers` is missing. -/
theorem startup_loads_collections_witness :
    (seeded.localStorage.getItem "teachers" = none ∧
      loadSlot seeded.localStorage "teachers" = some (collectionValue [])) ∧
    ((∀ r ∈ sampleStudents, (JSValue.obj r).jsonSafe = true) ∧
      seeded.localStorage.getItem "students" = some (slotText (collectionValue sampleStudents)) ∧
      loadSlot seeded.localStorage "students" = some (collectionValue sampleStudents)) :=
  ⟨⟨by decide, (startup_loads_collections seeded.localStorage).1 "teachers" (by decide)⟩,
   ⟨by decide, by decide,
    (startup_loads_collections seeded.localStorage).2.2.1 "students" sampleStudents
      (by decide) (by decide)⟩⟩

/-! ## Placements: listing and export -/

/-- `find` answers nothing when no element satisfies the test. -/
theorem find?_none_of_all (p : Record → Bool) (c : List Record)
    (h : ∀ x ∈ c, p x = false) : c.find? p = none := by
  induction c with
  | nil => rfl
  | cons x xs ih =>
    have hx : p x = false := h x (List.mem_cons_self _ _)
    simp [List.find?_cons, hx, ih (fun y hy => h y (List.mem_cons_of_mem _ hy))]

/-- `find` answers the first element that satisfies the test. -/
theorem find?_split (p : Record → Bool) (pre : List Record) (x : Record) (post : List Record)
    (hpre : ∀ y ∈ pre, p y = false) (hx : p x = true) :
    (pre ++ x :: post).find? p = some x := by
  induction pre with
  | nil => simp [List.find?_cons, hx]
  | cons y ys ih =>
    have hy : p y = false := hpre y (List.mem_cons_self _ _)
    simp [List.find?_cons, hy, ih (fun z hz => hpre z (List.mem_cons_of_mem _ hz))]

/-- C12: the placement listing and the two placement exports have one row for
every placement, in order (they are total: no state makes them fail); the row
of a placement shows the first student whose id equals `placement.studentId`
and the first school whose id equals `placement.schoolId`, and shows `N/A`
for the student (the school) when no student (no school) has that id. -/
theorem placement_rows_resolve (pf : Platform) (s : AppState) (placement : Record) :
    ((PlacementsPage.populatePlacementsTable pf s).length = s.placements.length ∧
      (PlacementsPage.exportPlacements pf s).length = s.placements.length ∧
      (ReportsPage.exportReport pf s).length = s.placements.length) ∧
    ((∀ st ∈ s.students,
        strictEq (getProp st "id") (getProp placement "studentId") = false) →
      (PlacementsPage.placementRow pf s placement).student = "N/A" ∧
      getProp (PlacementsPage.exportRow pf s placement) "Student Name" = .str "N/A" ∧
      getProp (PlacementsPage.exportRow pf s placement) "Student ID" = .str "N/A" ∧
      getProp (ReportsPage.exportRow pf s placement) "Student Name" = .str "N/A" ∧
      getProp (ReportsPage.exportRow pf s placement) "Student ID" = .str "N/A") ∧
    (∀ pre st post, s.students = pre ++ st :: post →
      (∀ y ∈ pre, strictEq (getProp y "id") (getProp placement "studentId") = false) →
      strictEq (getProp st "id") (getProp placement "studentId") = true →
      (PlacementsPage.placementRow pf s placement).student =
        toText (getProp st "firstName") ++ " " ++ toText (getProp st "lastName") ∧
      getProp (PlacementsPage.exportRow pf s placement) "Student Name" =
        .str (toText (getProp st "firstName") ++ " " ++ toText (getProp st "lastName")) ∧
      getProp (PlacementsPage.exportRow pf s placement) "Student ID" =
        getProp st "studentId" ∧
      getProp (ReportsPage.exportRow pf s placement) "Student Name" =
        .str (toText (getProp st "firstName") ++ " " ++ toText (getProp st "lastName")) ∧
      getProp (ReportsPage.exportRow pf s placement) "Student ID" =
        getProp st "studentId") ∧
    ((∀ sc ∈ s.schools,
        strictEq (getProp sc "id") (getProp placement "schoolId") = false) →
      (PlacementsPage.placementRow pf s placement).school = "N/A" ∧
      getProp (PlacementsPage.exportRow pf s placement) "School" = .str "N/A" ∧
      getProp (ReportsPage.exportRow pf s placement) "School" = .str "N/A") ∧
    (∀ pre sc post, s.schools = pre ++ sc :: post →
      (∀ y ∈ pre, strictEq (getProp y "id") (getProp placement "schoolId") = false) →
      strictEq (getProp sc "id") (getProp placement "schoolId") = true →
      (PlacementsPage.placementRow pf s placement).school = toText (getProp sc "name") ∧
      getProp (PlacementsPage.exportRow pf s placement) "School" = getProp sc "name" ∧
      getProp (ReportsPage.exportRow pf s placement) "School" = getProp sc "name") := by
  refine ⟨⟨by simp [PlacementsPage.populatePlacementsTable],
      by simp [PlacementsPage.exportPlacements], by simp [ReportsPage.exportReport]⟩,
    ?_, ?_, ?_, ?_⟩
  · intro h
    have hf : findStudent s placement = none := find?_none_of_all _ _ h
    simp [PlacementsPage.placementRow, PlacementsPage.exportRow, ReportsPage.exportRow, hf,
      studentName, getProp]
  · intro pre st post hc hpre hst
    have hf : findStudent s placement = some st := by
      unfold findStudent
      rw [hc]
      exact find?_split _ pre st post hpre hst
    simp [PlacementsPage.placementRow, PlacementsPage.exportRow, ReportsPage.exportRow, hf,
      studentName, getProp]
  · intro h
    have hf : findSchool s placement = none := find?_none_of_all _ _ h
    simp [PlacementsPage.placementRow, PlacementsPage.exportRow, ReportsPage.exportRow, hf,
      getProp]
  · intro pre sc post hc hpre hsc
    have hf : findSchool s placement = some sc := by
      unfold findSchool
      rw [hc]
      exact find?_split _ pre sc post hpre hsc
    simp [PlacementsPage.placementRow, PlacementsPage.exportRow, ReportsPage.exportRow, hf,
      getProp]

/-- C12, on the seeded store: a placement that names student `"9"`, whom the
store does not have, and school `"2"`, the second school. -/
theorem placement_rows_resolve_witness :
    ((∀ st ∈ seeded.state.students,
        strictEq (getProp st "id")
          (getProp [("studentId", JSValue.str "9"), ("schoolId", JSValue.str "2")]
            "studentId") = false) ∧
      (PlacementsPage.placementRow examplePlatform seeded.state
        [("studentId", .str "9"), ("schoolId", .str "2")]).student = "N/A") ∧
    (PlacementsPage.placementRow examplePlatform seeded.state
      [("studentId", .str "9"), ("schoolId", .str "2")]).school = "KNUST" :=
  ⟨⟨by decide,
    ((placement_rows_resolve examplePlatform seeded.state
      [("studentId", .str "9"), ("schoolId", .str "2")]).2.1 (by decide)).1⟩,
   ((placement_rows_resolve examplePlatform seeded.state
      [("studentId", .str "9"), ("schoolId", .str "2")]).2.2.2.2
      [sampleSchools.getD 0 []] (sampleSchools.getD 1 []) [sampleSchools.getD 2 []]
      (by decide) (by decide) (by decide)).1⟩

/-- C13: after `DataManager.students.delete(i)` every placement whose
`studentId` is `i` is still in the placements, and its row in the listing and
in the exports shows `N/A` for the student. -/
theorem deleted_student_shows_na (pf : Platform) (i : JSValue) (w : World) (p : Record)
    (hp : p ∈ w.state.placements) (hi : strictEq (getProp p "studentId") i = true) :
    (DataManager.students.delete i w).state.placements = w.state.placements ∧
    p ∈ (DataManager.students.delete i w).state.placements ∧
    (PlacementsPage.populatePlacementsTable pf (DataManager.students.delete i w).state).length =
      w.state.placements.length ∧
    (PlacementsPage.placementRow pf (DataManager.students.delete i w).state p).student = "N/A" ∧
    getProp (PlacementsPage.exportRow pf (DataManager.students.delete i w).state p)
      "Student Name" = .str "N/A" := by
  have hpl : (DataManager.students.delete i w).state.placements = w.state.placements := rfl
  have hst : (DataManager.students.delete i w).state.students =
      w.state.students.filter (fun s => !strictEq (getProp s "id") i) := rfl
  have hnone : findStudent (DataManager.students.delete i w).state p = none := by
    unfold findStudent
    apply find?_none_of_all
    intro st hmem
    rw [hst] at hmem
    have h2 := (List.mem_filter.1 hmem).2
    rw [eq_of_strictEq _ _ hi]
    simpa using h2
  refine ⟨hpl, by rw [hpl]; exact hp, by simp [PlacementsPage.populatePlacementsTable, hpl], ?_, ?_⟩
  · simp [PlacementsPage.placementRow, hnone, studentName]
  · simp [PlacementsPage.exportRow, hnone, studentName, getProp]

/-- C13, on the seeded store: student `"1"` (SHS001, Kwame) is deleted; the
first sample placement names that student. -/
theorem deleted_student_shows_na_witness :
    (samplePlacements.getD 0 [] ∈ seeded.state.placements ∧
      strictEq (getProp (samplePlacements.getD 0 []) "studentId") (.str "1") = true) ∧
    (PlacementsPage.placementRow examplePlatform
      (DataManager.students.delete (.str "1") seeded).state
      (samplePlacements.getD 0 [])).student = "N/A" :=
  ⟨⟨by decide, by decide⟩,
   (deleted_student_shows_na examplePlatform (.str "1") seeded (samplePlacements.getD 0 [])
      (by decide) (by decide)).2.2.2.1⟩

/-- C14: each mutation touches only its own collection.  Add, update and
delete on the students leave every other part of `AppState` and the slots
`placements` and `schools` as they were; add, update and delete on the
placements leave every other part of `AppState` and the slots `students` and
`schools` as they were. -/
theorem mutation_touches_own_collection (r : Record) (idNow : Nat) (idDraw : List Nat)
    (createdNow : Nat) (i : JSValue) (u : Record) (w : World) :
    (({ (DataManager.students.add r idNow idDraw createdNow w).state with
          students := w.state.students } = w.state ∧
        (DataManager.students.add r idNow idDraw createdNow w).localStorage.getItem
          "placements" = w.localStorage.getItem "placements" ∧
        (DataManager.students.add r idNow idDraw createdNow w).localStorage.getItem
          "schools" = w.localStorage.getItem "schools") ∧
      ({ (DataManager.students.update i u w).state with
          students := w.state.students } = w.state ∧
        (DataManager.students.update i u w).localStorage.getItem "placements" =
          w.localStorage.getItem "placements" ∧
        (DataManager.students.update i u w).localStorage.getItem "schools" =
          w.localStorage.getItem "schools") ∧
      ({ (DataManager.students.delete i w).state with
          students := w.state.students } = w.state ∧
        (DataManager.students.delete i w).localStorage.getItem "placements" =
          w.localStorage.getItem "placements" ∧
        (DataManager.students.delete i w).localStorage.getItem "schools" =
          w.localStorage.getItem "schools")) ∧
    (({ (DataManager.placements.add r idNow idDraw createdNow w).state with
          placements := w.state.placements } = w.state ∧
        (DataManager.placements.add r idNow idDraw createdNow w).localStorage.getItem
          "students" = w.localStorage.getItem "students" ∧
        (DataManager.placements.add r idNow idDraw createdNow w).localStorage.getItem
          "schools" = w.localStorage.getItem "schools") ∧
      ({ (DataManager.placements.update i u w).state with
          placements := w.state.placements } = w.state ∧
        (DataManager.placements.update i u w).localStorage.getItem "students" =
          w.localStorage.getItem "students" ∧
        (DataManager.placements.update i u w).localStorage.getItem "schools" =
          w.localStorage.getItem "schools") ∧
      ({ (DataManager.placements.delete i w).state with
          placements := w.state.placements } = w.state ∧
        (DataManager.placements.delete i w).localStorage.getItem "students" =
          w.localStorage.getItem "students" ∧
        (DataManager.placements.delete i w).localStorage.getItem "schools" =
          w.localStorage.getItem "schools")) := by
  have hs : ∀ c : List Record, ∀ key, key ≠ "students" →
      Storage.getItem (Storage.setItem w.localStorage "students" (slotText (collectionValue c)))
        key = w.localStorage.getItem key :=
    fun c key hk => getItem_setItem_other _ _ _ _ (Ne.symm hk)
  have hp : ∀ c : List Record, ∀ key, key ≠ "placements" →
      Storage.getItem (Storage.setItem w.localStorage "placements" (slotText (collectionValue c)))
        key = w.localStorage.getItem key :=
    fun c key hk => getItem_setItem_other _ _ _ _ (Ne.symm hk)
  refine ⟨⟨⟨rfl, hs _ _ (by decide), hs _ _ (by decide)⟩, ?_,
      ⟨rfl, hs _ _ (by decide), hs _ _ (by decide)⟩⟩,
    ⟨⟨rfl, hp _ _ (by decide), hp _ _ (by decide)⟩, ?_,
      ⟨rfl, hp _ _ (by decide), hp _ _ (by decide)⟩⟩⟩
  · simp only [DataManager.students.update]
    split
    · exact ⟨rfl, hs _ _ (by decide), hs _ _ (by decide)⟩
    · exact ⟨rfl, rfl, rfl⟩
  · simp only [DataManager.placements.update]
    split
    · exact ⟨rfl, hp _ _ (by decide), hp _ _ (by decide)⟩
    · exact ⟨rfl, rfl, rfl⟩

/-! ## Search -/

theorem startsWith_iff (hay needle : List Char) :
    startsWith hay needle = true ↔ needle <+: hay := by
  induction hay generalizing needle with
  | nil =>
    cases needle with
    | nil => simp [startsWith]
    | cons n ns => simp [startsWith]
  | cons h hay ih =>
    cases needle with
    | nil => simp [startsWith]
    | cons n ns =>
      simp only [startsWith, Bool.and_eq_true, decide_eq_true_eq, ih, List.cons_prefix_cons]
      constructor
      · rintro ⟨e, hp⟩
        exact ⟨e.symm, hp⟩
      · rintro ⟨e, hp⟩
        exact ⟨e.symm, hp⟩

/-- `hay.includes(needle)` holds exactly when `needle` is a contiguous part of
`hay`. -/
theorem includes_iff (hay needle : List Char) :
    includes hay needle = true ↔ needle <:+: hay := by
  induction hay with
  | nil =>
    simp only [includes, startsWith_iff, List.prefix_nil, List.infix_nil]
  | cons h hay ih =>
    simp only [includes, Bool.or_eq_true, startsWith_iff, ih, List.infix_cons_iff]

/-- A filter whose test never throws is the filter by that test. -/
theorem filterThrowing_eq_filter (p : Record → Option Bool) (b : Record → Bool)
    (c : List Record) (h : ∀ x ∈ c, p x = some (b x)) :
    filterThrowing p c = some (c.filter b) := by
  induction c with
  | nil => rfl
  | cons x xs ih =>
    rw [filterThrowing, h x (List.mem_cons_self _ _),
      ih (fun y hy => h y (List.mem_cons_of_mem _ hy))]
    cases hb : b x <;> simp [List.filter_cons, hb]

/-- A filter whose test throws for an element before which it never throws,
throws. -/
theorem filterThrowing_none (p : Record → Option Bool) (pre : List Record) (x : Record)
    (post : List Record) (hpre : ∀ y ∈ pre, p y ≠ none) (hx : p x = none) :
    filterThrowing p (pre ++ x :: post) = none := by
  induction pre with
  | nil => simp [filterThrowing, hx]
  | cons y ys ih =>
    have hy := hpre y (List.mem_cons_self _ _)
    have ih' := ih (fun z hz => hpre z (List.mem_cons_of_mem _ hz))
    show filterThrowing p (y :: (ys ++ x :: post)) = none
    rw [filterThrowing, ih']
    cases hpy : p y with
    | none => rfl
    | some b => rfl

theorem lowerIncludes_of_isText (pf : Platform) (v : JSValue) (needle : String)
    (h : isText v) : lowerIncludes pf v needle = some (textIncludes pf v needle) := by
  obtain ⟨t, rfl⟩ := h
  rfl

theorem textIncludes_iff (pf : Platform) (v : JSValue) (query : String) :
    textIncludes pf v (pf.toLowerCase query) = true ↔ containsIgnoringCase pf v query := by
  unfold containsIgnoringCase
  cases v with
  | str t =>
    simp only [textIncludes, includes_iff, JSValue.str.injEq, exists_eq_left']
  | _ => simp [textIncludes]

theorem orThen_some (a b : Bool) : orThen (some a) (some b) = some (a || b) := by
  cases a <;> rfl

/-- The elements of a filtered list. -/
theorem filter_characterised (b : Record → Bool) (P : Record → Prop) (c : List Record)
    (h : ∀ x, b x = true ↔ P x) :
    List.Sublist (c.filter b) c ∧ (∀ x, x ∈ c.filter b ↔ x ∈ c ∧ P x) ∧
      (∀ x, P x → (c.filter b).count x = c.count x) := by
  refine ⟨List.filter_sublist _, ?_, ?_⟩
  · intro x
    rw [List.mem_filter, h]
  · intro x hx
    exact List.count_filter ((h x).2 hx)

/-- C15: for students whose `studentId`, `firstName`, `lastName` and `class`
are strings, `searchStudents(query)` does not throw and selects exactly the
students for which one of these four fields contains the query, both taken
in lower case, in the order of the collection (each as often as it is in
the collection). -/
theorem searchStudents_selects (pf : Platform) (query : String) (s : AppState)
    (h : ∀ st ∈ s.students, isText (getProp st "studentId") ∧ isText (getProp st "firstName") ∧
      isText (getProp st "lastName") ∧ isText (getProp st "class")) :
    ∃ result, StudentsPage.searchStudents pf query s = some result ∧
      List.Sublist result s.students ∧
      (∀ st, st ∈ result ↔ st ∈ s.students ∧ studentMatches pf query st) ∧
      (∀ st, studentMatches pf query st → result.count st = s.students.count st) := by
  have hp : ∀ st ∈ s.students,
      orThen (lowerIncludes pf (getProp st "studentId") (pf.toLowerCase query))
        (orThen (lowerIncludes pf (getProp st "firstName") (pf.toLowerCase query))
          (orThen (lowerIncludes pf (getProp st "lastName") (pf.toLowerCase query))
            (lowerIncludes pf (getProp st "class") (pf.toLowerCase query)))) =
      some (textIncludes pf (getProp st "studentId") (pf.toLowerCase query) ||
        (textIncludes pf (getProp st "firstName") (pf.toLowerCase query) ||
          (textIncludes pf (getProp st "lastName") (pf.toLowerCase query) ||
            textIncludes pf (getProp st "class") (pf.toLowerCase query)))) := by
    intro st hst
    obtain ⟨h1, h2, h3, h4⟩ := h st hst
    rw [lowerIncludes_of_isText pf _ _ h1, lowerIncludes_of_isText pf _ _ h2,
      lowerIncludes_of_isText pf _ _ h3, lowerIncludes_of_isText pf _ _ h4,
      orThen_some, orThen_some, orThen_some]
  refine ⟨_, filterThrowing_eq_filter _ _ _ hp, ?_⟩
  apply filter_characterised
  intro st
  simp only [Bool.or_eq_true, textIncludes_iff, studentMatches]

/-- C15, on the seeded store, whose students have strings in the four
fields: the query `FORM 2`. -/
theorem searchStudents_selects_witness :
    (∀ st ∈ seeded.state.students, isText (getProp st "studentId") ∧
      isText (getProp st "firstName") ∧ isText (getProp st "lastName") ∧
      isText (getProp st "class")) ∧
    ∃ result, StudentsPage.searchStudents examplePlatform "FORM 2" seeded.state = some result ∧
      List.Sublist result seeded.state.students ∧
      (∀ st, st ∈ result ↔
        st ∈ seeded.state.students ∧ studentMatches examplePlatform "FORM 2" st) ∧
      (∀ st, studentMatches examplePlatform "FORM 2" st →
        result.count st = seeded.state.students.count st) :=
  have h : ∀ st ∈ seeded.state.students, isText (getProp st "studentId") ∧
      isText (getProp st "firstName") ∧ isText (getProp st "lastName") ∧
      isText (getProp st "class") := by
    intro st hst
    have hst' : st ∈ sampleStudents := hst
    simp only [sampleStudents, List.mem_cons, List.mem_singleton, List.not_mem_nil,
      or_false] at hst'
    rcases hst' with rfl | rfl | rfl <;>
      exact ⟨⟨_, rfl⟩, ⟨_, rfl⟩, ⟨_, rfl⟩, ⟨_, rfl⟩⟩
  ⟨h, searchStudents_selects examplePlatform "FORM 2" seeded.state h⟩

theorem andFound_eq (found : Option Record) (test : Record → Option Bool)
    (b : Record → Bool) (h : ∀ r, found = some r → test r = some (b r)) :
    andFound found test = some (foundAnd found b) := by
  cases found with
  | none => rfl
  | some r => exact h r rfl

/-- C16, as the code has it: when the fields the search reads for a placement
are strings (its `program`, and `studentId`, `firstName`, `lastName` of the
student and `name` of the school found for it), `searchPlacements(query)`
does not throw and selects exactly the placements for which the query is
contained, both in lower case, in one of these fields, in the order of the
collection; a placement for which no student is found, or no school, is
selected when one of its remaining fields contains the query. -/
theorem searchPlacements_selects (pf : Platform) (query : String) (s : AppState)
    (h : ∀ p ∈ s.placements, placementSearchable s p) :
    ∃ result, PlacementsPage.searchPlacements pf query s = some result ∧
      List.Sublist result s.placements ∧
      (∀ p, p ∈ result ↔ p ∈ s.placements ∧ placementMatchesQuery pf query s p) ∧
      (∀ p, placementMatchesQuery pf query s p → result.count p = s.placements.count p) ∧
      (∀ p ∈ s.placements, findStudent s p = none →
        containsIgnoringCase pf (getProp p "program") query → p ∈ result) ∧
      (∀ p ∈ s.placements, findSchool s p = none →
        containsIgnoringCase pf (getProp p "program") query → p ∈ result) := by
  have hp : ∀ p ∈ s.placements, PlacementsPage.placementMatches pf query s p =
      some (foundAnd (findStudent s p) (fun st =>
          textIncludes pf (getProp st "studentId") (pf.toLowerCase query) ||
            (textIncludes pf (getProp st "firstName") (pf.toLowerCase query) ||
              textIncludes pf (getProp st "lastName") (pf.toLowerCase query))) ||
        (foundAnd (findSchool s p) (fun sc =>
            textIncludes pf (getProp sc "name") (pf.toLowerCase query)) ||
          textIncludes pf (getProp p "program") (pf.toLowerCase query))) := by
    intro p hpm
    obtain ⟨h1, h2, h3⟩ := h p hpm
    unfold PlacementsPage.placementMatches
    simp only []
    rw [andFound_eq (findStudent s p) _
        (fun st => textIncludes pf (getProp st "studentId") (pf.toLowerCase query) ||
          (textIncludes pf (getProp st "firstName") (pf.toLowerCase query) ||
            textIncludes pf (getProp st "lastName") (pf.toLowerCase query)))
        (fun st hst => by
          obtain ⟨a, b, c⟩ := h2 st hst
          rw [lowerIncludes_of_isText pf _ _ a, lowerIncludes_of_isText pf _ _ b,
            lowerIncludes_of_isText pf _ _ c, orThen_some, orThen_some]),
      andFound_eq (findSchool s p) _
        (fun sc => textIncludes pf (getProp sc "name") (pf.toLowerCase query))
        (fun sc hsc => lowerIncludes_of_isText pf _ _ (h3 sc hsc)),
      lowerIncludes_of_isText pf _ _ h1, orThen_some, orThen_some]
  have hiff : ∀ p, (foundAnd (findStudent s p) (fun st =>
          textIncludes pf (getProp st "studentId") (pf.toLowerCase query) ||
            (textIncludes pf (getProp st "firstName") (pf.toLowerCase query) ||
              textIncludes pf (getProp st "lastName") (pf.toLowerCase query))) ||
        (foundAnd (findSchool s p) (fun sc =>
            textIncludes pf (getProp sc "name") (pf.toLowerCase query)) ||
          textIncludes pf (getProp p "program") (pf.toLowerCase query))) = true ↔
      placementMatchesQuery pf query s p := by
    intro p
    unfold placementMatchesQuery
    cases findStudent s p <;> cases findSchool s p <;>
      simp [foundAnd, textIncludes_iff]
  obtain ⟨hsub, hmem, hcount⟩ := filter_characterised _ _ s.placements hiff
  refine ⟨_, filterThrowing_eq_filter _ _ _ hp, hsub, hmem, hcount, ?_, ?_⟩
  · intro p hpm _ hc
    exact (hmem p).2 ⟨hpm, Or.inr (Or.inr hc)⟩
  · intro p hpm _ hc
    exact (hmem p).2 ⟨hpm, Or.inr (Or.inr hc)⟩

/-- C16, on the seeded store, where every placement finds its student and its
school and all the fields read are strings: the query `w`. -/
theorem searchPlacements_selects_witness :
    (∀ p ∈ seeded.state.placements, placementSearchable seeded.state p) ∧
    ∃ result, PlacementsPage.searchPlacements examplePlatform "w" seeded.state = some result ∧
      List.Sublist result seeded.state.placements ∧
      (∀ p, p ∈ result ↔
        p ∈ seeded.state.placements ∧ placementMatchesQuery examplePlatform "w" seeded.state p) ∧
      (∀ p, placementMatchesQuery examplePlatform "w" seeded.state p →
        result.count p = seeded.state.placements.count p) ∧
      (∀ p ∈ seeded.state.placements, findStudent seeded.state p = none →
        containsIgnoringCase examplePlatform (getProp p "program") "w" → p ∈ result) ∧
      (∀ p ∈ seeded.state.placements, findSchool seeded.state p = none →
        containsIgnoringCase examplePlatform (getProp p "program") "w" → p ∈ result) :=
  have h : ∀ p ∈ seeded.state.placements, placementSearchable seeded.state p := by
    intro p hp
    have hp' : p ∈ samplePlacements := hp
    simp only [samplePlacements, List.mem_cons, List.mem_singleton, List.not_mem_nil,
      or_false] at hp'
    rcases hp' with rfl | rfl
    · refine ⟨⟨_, rfl⟩, ?_, ?_⟩
      · intro st hst
        have e : findStudent seeded.state (samplePlacements.getD 0 []) =
            some (sampleStudents.getD 0 []) := by decide
        obtain rfl := Option.some.inj (e.symm.trans hst)
        exact ⟨⟨_, rfl⟩, ⟨_, rfl⟩, ⟨_, rfl⟩⟩
      · intro sc hsc
        have e : findSchool seeded.state (samplePlacements.getD 0 []) =
            some (sampleSchools.getD 0 []) := by decide
        obtain rfl := Option.some.inj (e.symm.trans hsc)
        exact ⟨_, rfl⟩
    · refine ⟨⟨_, rfl⟩, ?_, ?_⟩
      · intro st hst
        have e : findStudent seeded.state (samplePlacements.getD 1 []) =
            some (sampleStudents.getD 1 []) := by decide
        obtain rfl := Option.some.inj (e.symm.trans hst)
        exact ⟨⟨_, rfl⟩, ⟨_, rfl⟩, ⟨_, rfl⟩⟩
      · intro sc hsc
        have e : findSchool seeded.state (samplePlacements.getD 1 []) =
            some (sampleSchools.getD 1 []) := by decide
        obtain rfl := Option.some.inj (e.symm.trans hsc)
        exact ⟨_, rfl⟩
  ⟨h, searchPlacements_selects examplePlatform "w" seeded.state h⟩

/-- C16 as stated fails: `searchPlacements` throws when a field it reads is
not a string.  A student imported from a row without a `Last Name` has
`lastName` `undefined`, and with a placement of that student the search for
`x` throws; so does the search when a placement without a `program`, whose
student and school are not found, was added. -/
theorem searchPlacements_throws_counterexample :
    PlacementsPage.searchPlacements examplePlatform "x"
      (DataManager.placements.add
        [("studentId", .str "loyw3v284f"), ("schoolId", .str "1"), ("program", .str "ICT")]
        1700000005000 [7] 1700000005000
        (StudentsPage.processImportFile
          (.sheet [[("Student ID", .str "SHS100"), ("First Name", .str "Esi")]])
          (fun _ => ⟨1700000000000, [4, 15], 1700000000000, [7], 1700000000000⟩)
          { seeded with state := { seeded.state with students := [], placements := [] } })).state
      = none ∧
    PlacementsPage.searchPlacements examplePlatform "x"
      (DataManager.placements.add [("studentId", .str "9"), ("schoolId", .str "9")]
        1700000005000 [7] 1700000005000 seeded).state = none := by
  decide

/-- C17, as the code has it: the search of the student placement dialog
(`searchStudentPlacement`) asks for at least two characters, and looks
nothing up, exactly when the text of its field, in lower case and trimmed, has
fewer than two UTF-16 code units. -/
theorem lookup_asks_for_two_characters (pf : Platform) (input : String) (s : AppState) :
    (utf16Length (trim (pf.toLowerCase input).data) < 2 →
      PlacementsPage.searchStudentPlacement pf input s = some .tooShort) ∧
    (2 ≤ utf16Length (trim (pf.toLowerCase input).data) →
      PlacementsPage.searchStudentPlacement pf input s ≠ some .tooShort) := by
  constructor
  · intro h
    unfold PlacementsPage.searchStudentPlacement
    simp only [h, if_true]
  · intro h
    unfold PlacementsPage.searchStudentPlacement
    have h' : ¬ utf16Length (trim (pf.toLowerCase input).data) < 2 := by omega
    simp only [h', if_false]
    split <;> simp

/-- C17, on the seeded store: the texts ` K ` and `am` in the field of the
dialog. -/
theorem lookup_asks_for_two_characters_witness :
    (utf16Length (trim (examplePlatform.toLowerCase " K ").data) < 2 ∧
      PlacementsPage.searchStudentPlacement examplePlatform " K " seeded.state =
        some .tooShort) ∧
    (2 ≤ utf16Length (trim (examplePlatform.toLowerCase "am").data) ∧
      PlacementsPage.searchStudentPlacement examplePlatform "am" seeded.state ≠
        some .tooShort) :=
  ⟨⟨by decide,
    (lookup_asks_for_two_characters examplePlatform " K " seeded.state).1 (by decide)⟩,
   ⟨by decide,
    (lookup_asks_for_two_characters examplePlatform "am" seeded.state).2 (by decide)⟩⟩

/-- C17 as stated fails for the search box of the placements table, whose
input goes to `searchPlacements`: with the one-character query `w` on the
seeded store the placements are filtered, and only the first one is left. -/
theorem search_box_filters_counterexample :
    utf16Length "w".data = 1 ∧
    PlacementsPage.searchPlacements examplePlatform "w" seeded.state =
      some [samplePlacements.getD 0 []] ∧
    seeded.state.placements.length = 2 := by
  decide

/-! ## Student import -/

/-- The numeral `toRadixAux` writes does not depend on the fuel, and stands in
front of the accumulator. -/
theorem toRadixAux_eq (b : Nat) (hb : 2 ≤ b) (n : Nat) :
    ∀ (f f' : Nat) (acc : List Char), n < f → n < f' →
      toRadixAux b f n acc = toRadixAux b f' n [] ++ acc := by
  induction n using Nat.strong_induction_on with
  | _ n ih =>
    intro f f' acc hf hf'
    obtain ⟨g, rfl⟩ : ∃ g, f = g + 1 := ⟨f - 1, by omega⟩
    obtain ⟨g', rfl⟩ : ∃ g', f' = g' + 1 := ⟨f' - 1, by omega⟩
    by_cases hn : n < b
    · simp [toRadixAux, hn]
    · have hdiv : n / b < n := Nat.div_lt_self (by omega) (by omega)
      simp only [toRadixAux, if_neg hn]
      rw [ih (n / b) hdiv g g' _ (by omega) (by omega),
        ih (n / b) hdiv g' g' [digitChar (n % b)] (by omega) (by omega)]
      simp

/-- The numeral of a number that has more than one digit: the numeral of the
number without its last digit, and the last digit. -/
theorem toRadix_step (b : Nat) (hb : 2 ≤ b) (n : Nat) (hn : b ≤ n) :
    toRadix b n = toRadix b (n / b) ++ [digitChar (n % b)] := by
  have hdiv : n / b < n := Nat.div_lt_self (by omega) (by omega)
  unfold toRadix
  rw [toRadixAux, if_neg (by omega),
    toRadixAux_eq b hb (n / b) n (n / b + 1) _ (by omega) (by omega)]

/-- The first six characters of an id generated at a clock reading from 36^7
to 36^8 - 1: the radix-36 numeral of the clock reading divided by 1296,
whatever the draw. -/
theorem take_six_generateId (t : Nat) (draw : List Nat) (hlo : 36 ^ 7 ≤ t) (hhi : t < 36 ^ 8) :
    (Utils.generateId t draw).data.take 6 = toRadix 36 (t / 1296) := by
  have h1 : toRadix 36 t = toRadix 36 (t / 36) ++ [digitChar (t % 36)] :=
    toRadix_step 36 (by omega) t (by omega)
  have h2 : toRadix 36 (t / 36) = toRadix 36 (t / 36 / 36) ++ [digitChar (t / 36 % 36)] :=
    toRadix_step 36 (by omega) (t / 36) (by omega)
  have h3 : t / 36 / 36 = t / 1296 := by
    rw [Nat.div_div_eq_div_mul]
  have hlen : (toRadix 36 (t / 1296)).length = 6 := by
    unfold toRadix
    rw [toRadixAux_length 36 (by omega) (t / 1296 + 1) (t / 1296) 5 [] (by omega)
      (Or.inr (by omega)) (by omega)]
    rfl
  show (toRadix 36 t ++ (drawToString36 draw).drop 2).take 6 = _
  rw [h1, h2, h3, List.append_assoc, List.append_assoc, List.take_append_of_le_length (by omega),
    List.take_of_length_le (by omega)]

/-- Two rows without a `Student ID` that are converted at clock readings in
the same window of 1296 milliseconds get the same `studentId`, whatever the
draws. -/
theorem fallback_studentId_collides (e e' : RowEnv) (row row' : Record)
    (hrow : truthy (getProp row "Student ID") = false)
    (hrow' : truthy (getProp row' "Student ID") = false)
    (hlo : 36 ^ 7 ≤ e.fallbackNow) (hhi : e.fallbackNow < 36 ^ 8)
    (hlo' : 36 ^ 7 ≤ e'.fallbackNow) (hhi' : e'.fallbackNow < 36 ^ 8)
    (hwin : e.fallbackNow / 1296 = e'.fallbackNow / 1296) :
    getProp (importRow e row) "studentId" = getProp (importRow e' row') "studentId" := by
  simp only [importRow, getProp, jsOr, hrow, hrow', if_true, if_false,
    Bool.false_eq_true, String.reduceEq]
  simp [take_six_generateId _ _ hlo hhi, take_six_generateId _ _ hlo' hhi', hwin]

/-- C18, where the code fails it: two rows without a `Student ID`, converted
one millisecond apart and with different draws, give two students (no row is
dropped) whose `studentId` begins with `SHS` and is the same for both. -/
theorem import_fallback_ids_coincide :
    (StudentsPage.processImportFile
      (.sheet [[("First Name", .str "Esi")], [("First Name", .str "Yaw")]])
      (fun k => ⟨1700000000000 + k, [1, k], 1700000000000 + k, [2, k], 1700000000000 + k⟩)
      firstStart).state.students.map (fun st => getProp st "studentId") =
      [.str "SHSloyw3v", .str "SHSloyw3v"] ∧
    (StudentsPage.processImportFile
      (.sheet [[("First Name", .str "Esi")], [("First Name", .str "Yaw")]])
      (fun k => ⟨1700000000000 + k, [1, k], 1700000000000 + k, [2, k], 1700000000000 + k⟩)
      firstStart).state.students.map (fun st => getProp st "id") =
      [.str "loyw3v2810", .str "loyw3v2911"] := by
  decide

/-- C19: an import whose file cannot be read or converted leaves the students
in memory and `localStorage` as they were; a file that cannot be read leaves
no trace at all, one that cannot be converted is reported by a
notification. -/
theorem failed_import_changes_nothing (env : Nat → RowEnv) (w : World) :
    StudentsPage.processImportFile .unreadable env w = w ∧
    (StudentsPage.processImportFile .malformed env w).state = w.state ∧
    (StudentsPage.processImportFile .malformed env w).localStorage = w.localStorage ∧
    (StudentsPage.processImportFile .malformed env w).toasts =
      w.toasts ++ [⟨"Error importing file", "error"⟩] :=
  ⟨rfl, rfl, rfl, rfl⟩

theorem importRows_length (env : Nat → RowEnv) (rows : List Record) (j : Nat) :
    (importRows env rows j).length = rows.length := by
  induction rows generalizing j with
  | nil => rfl
  | cons row rows ih => simp [importRows, ih]

/-- The `k`-th student of an import is made from the `k`-th row. -/
theorem importRows_getElem? (env : Nat → RowEnv) (rows : List Record) (j k : Nat)
    (row : Record) (h : rows[k]? = some row) :
    (importRows env rows j)[k]? = some (importRow (env (j + k)) row) := by
  induction rows generalizing j k with
  | nil => simp at h
  | cons r rows ih =>
    cases k with
    | zero =>
      simp only [List.getElem?_cons_zero, Option.some.injEq] at h
      subst h
      simp [importRows]
    | succ k =>
      simp only [List.getElem?_cons_succ] at h
      simp only [importRows, List.getElem?_cons_succ]
      rw [ih (j + 1) k h]
      congr 3
      omega

/-- C20, as the code has it: the import of a sheet of `n` rows yields the
students there were, unchanged, followed by `n` new students in the order of
the rows; the `k`-th of them has `firstName`, `lastName`, `class`, `gender`,
`dateOfBirth` and `parentPhone` from the columns `First Name`, `Last Name`,
`Class`, `Gender`, `Date of Birth` and `Parent Phone` of the `k`-th row, the
status `Active`, and as `studentId` the `Student ID` of the row when that is
a truthy value, `SHS` and the first six characters of a generated id
otherwise. -/
theorem import_appends_students (rows : List Record) (env : Nat → RowEnv) (w : World) :
    ∃ new : List Record,
      (StudentsPage.processImportFile (.sheet rows) env w).state.students =
        w.state.students ++ new ∧
      new.length = rows.length ∧
      ∀ k row, rows[k]? = some row → ∃ student, new[k]? = some student ∧
        getProp student "firstName" = getProp row "First Name" ∧
        getProp student "lastName" = getProp row "Last Name" ∧
        getProp student "class" = getProp row "Class" ∧
        getProp student "gender" = getProp row "Gender" ∧
        getProp student "dateOfBirth" = getProp row "Date of Birth" ∧
        getProp student "parentPhone" = getProp row "Parent Phone" ∧
        getProp student "status" = .str "Active" ∧
        (truthy (getProp row "Student ID") = true →
          getProp student "studentId" = getProp row "Student ID") ∧
        (truthy (getProp row "Student ID") = false →
          getProp student "studentId" = .str ("SHS" ++ String.mk
            ((Utils.generateId (env k).fallbackNow (env k).fallbackDraw).data.take 6))) := by
  refine ⟨importRows env rows 0, rfl, importRows_length env rows 0, ?_⟩
  intro k row hk
  refine ⟨importRow (env k) row, ?_, rfl, rfl, rfl, rfl, rfl, rfl, rfl, ?_, ?_⟩
  · have := importRows_getElem? env rows 0 k row hk
    simpa using this
  · intro ht
    simp [importRow, getProp, jsOr, ht]
  · intro ht
    simp [importRow, getProp, jsOr, ht]

/-- C20, on the seeded store: a sheet of one row with a `Student ID`. -/
theorem import_appends_students_witness :
    ([[("Student ID", JSValue.str "SHS100"), ("First Name", JSValue.str "Esi")]][0]? =
        some [("Student ID", JSValue.str "SHS100"), ("First Name", JSValue.str "Esi")] ∧
      truthy (getProp [("Student ID", JSValue.str "SHS100"), ("First Name", JSValue.str "Esi")]
        "Student ID") = true) ∧
    ∃ new : List Record,
      (StudentsPage.processImportFile
        (.sheet [[("Student ID", .str "SHS100"), ("First Name", .str "Esi")]])
        (fun _ => ⟨1700000000000, [4, 15], 1700000000000, [7], 1700000000000⟩)
        seeded).state.students = seeded.state.students ++ new ∧
      new.length = 1 ∧
      ∃ student, new[0]? = some student ∧
        getProp student "firstName" =
          getProp [("Student ID", JSValue.str "SHS100"), ("First Name", JSValue.str "Esi")]
            "First Name" ∧
        getProp student "studentId" =
          getProp [("Student ID", JSValue.str "SHS100"), ("First Name", JSValue.str "Esi")]
            "Student ID" :=
  ⟨⟨rfl, by decide⟩,
   (import_appends_students [[("Student ID", .str "SHS100"), ("First Name", .str "Esi")]]
      (fun _ => ⟨1700000000000, [4, 15], 1700000000000, [7], 1700000000000⟩) seeded).imp
      (fun _ h => ⟨h.1, h.2.1,
        (h.2.2 0 [("Student ID", .str "SHS100"), ("First Name", .str "Esi")] rfl).imp
          (fun _ hs => ⟨hs.1, hs.2.1, hs.2.2.2.2.2.2.2.2.1 (by decide)⟩)⟩)⟩

/-- C20 as stated fails: a row whose `Student ID` is the number 0 has a
`Student ID`, and the student made from it has the fallback `studentId`, not
the `Student ID` of the row. -/
theorem import_zero_student_id_counterexample :
    hasProp [("Student ID", JSValue.num 0), ("First Name", JSValue.str "Esi")] "Student ID"
      = true ∧
    (StudentsPage.processImportFile
      (.sheet [[("Student ID", .num 0), ("First Name", .str "Esi")]])
      (fun _ => ⟨1700000000000, [4, 15], 1700000000000, [7], 1700000000000⟩)
      firstStart).state.students.map (fun st => getProp st "studentId") =
      [.str "SHSloyw3v"] := by
  decide

/-! ## Reports: frequency tables -/

theorem Tally.own_set (t : Tally) (k key : String) (c : Count) :
    Tally.own (Tally.set t k c) key = if k = key then some c else Tally.own t key := by
  induction t with
  | nil =>
    by_cases h : k = key <;> simp [Tally.set, Tally.own, h]
  | cons x xs ih =>
    obtain ⟨l, v⟩ := x
    by_cases hl : l = k
    · subst hl
      by_cases h : l = key <;> simp [Tally.set, Tally.own, h]
    · by_cases h : l = key
      · subst h
        simp [Tally.set, Tally.own, hl, Ne.symm hl]
      · simp only [Tally.set, if_neg hl, Tally.own, if_neg h, ih]

theorem Tally.set_set (t : Tally) (k : String) (a b : Count) :
    Tally.set (Tally.set t k a) k b = Tally.set t k b := by
  induction t with
  | nil => simp [Tally.set]
  | cons x xs ih =>
    obtain ⟨l, v⟩ := x
    by_cases hl : l = k
    · simp [Tally.set, hl]
    · simp [Tally.set, hl, ih]

theorem Tally.mem_set (t : Tally) (k : String) (c : Count) (e : String × Count)
    (h : e ∈ Tally.set t k c) : e = (k, c) ∨ e ∈ t := by
  induction t with
  | nil =>
    simp only [Tally.set, List.mem_singleton] at h
    exact Or.inl h
  | cons x xs ih =>
    obtain ⟨l, v⟩ := x
    by_cases hl : l = k
    · simp only [Tally.set, if_pos hl, List.mem_cons] at h
      rcases h with h | h
      · exact Or.inl (by rw [h, hl])
      · exact Or.inr (List.mem_cons_of_mem _ h)
    · simp only [Tally.set, if_neg hl, List.mem_cons] at h
      rcases h with h | h
      · exact Or.inr (by rw [h]; exact List.mem_cons_self _ _)
      · rcases ih h with h' | h'
        · exact Or.inl h'
        · exact Or.inr (List.mem_cons_of_mem _ h')

/-- One round of counting either leaves the table as it is (for the key
`__proto__`) or sets the key to a number that is not 0. -/
theorem Tally.bump_cases (t : Tally) (k : String) :
    Tally.bump t k = t ∨ ∃ c, c ≠ Count.count 0 ∧ Tally.bump t k = Tally.set t k c := by
  by_cases hp : k = "__proto__"
  · left
    simp [Tally.bump, Tally.write, hp]
  · right
    by_cases hf : (Tally.read t k).falsy = true
    · have hb : Tally.bump t k = (t.set k (.count 0)).set k
          (Tally.read (t.set k (.count 0)) k).succ := by
        simp only [Tally.bump, Tally.write, if_neg hp, hf, if_true]
      have hr : Tally.read (t.set k (.count 0)) k = .number (.count 0) := by
        simp [Tally.read, Tally.own_set]
      rw [hb, hr, Tally.set_set]
      exact ⟨.count 1, by decide, rfl⟩
    · have hb : Tally.bump t k = t.set k (Tally.read t k).succ := by
        simp only [Tally.bump, Tally.write, if_neg hp, hf, if_false]
        rfl
      rw [hb]
      refine ⟨_, ?_, rfl⟩
      cases hr : Tally.read t k with
      | undefined => rw [hr] at hf; simp [Reading.falsy] at hf
      | inherited => simp [Reading.succ]
      | number c =>
        cases c with
        | nan => simp [Reading.succ]
        | count n => simp [Reading.succ]

/-- One round of counting for a key that `Object.prototype` does not have:
the count of the key goes up by one. -/
theorem Tally.bump_plain (t : Tally) (k : String) (hk : k ∉ inheritedKeys) :
    Tally.bump t k = Tally.set t k (.count (Tally.countOf t k + 1)) := by
  have hp : k ≠ "__proto__" := by
    intro h
    apply hk
    rw [h]
    decide
  simp only [Tally.bump, Tally.write, if_neg hp, Tally.read, Tally.countOf]
  cases ho : Tally.own t k with
  | none =>
    simp only [if_neg hk, Reading.falsy, if_true, Tally.own_set, Reading.succ, Tally.set_set]
  | some c =>
    cases c with
    | nan =>
      simp only [Reading.falsy, if_true, Tally.own_set, Reading.succ, Tally.set_set]
    | count n =>
      cases n with
      | zero =>
        simp only [Reading.falsy, beq_self_eq_true, if_true, Tally.own_set, Reading.succ,
          Tally.set_set]
      | succ n =>
        simp [Reading.falsy, ho, Reading.succ]

theorem Tally.own_bump_other (t : Tally) (k key : String) (h : k ≠ key) :
    Tally.own (Tally.bump t k) key = Tally.own t key := by
  rcases Tally.bump_cases t k with e | ⟨c, _, e⟩
  · rw [e]
  · rw [e, Tally.own_set, if_neg h]

theorem Tally.countOf_bump_other (t : Tally) (k key : String) (h : k ≠ key) :
    Tally.countOf (Tally.bump t k) key = Tally.countOf t key := by
  simp only [Tally.countOf, Tally.own_bump_other t k key h]

theorem Tally.own_bump_same (t : Tally) (k : String) (hk : k ∉ inheritedKeys) :
    Tally.own (Tally.bump t k) k = some (.count (Tally.countOf t k + 1)) := by
  rw [Tally.bump_plain t k hk, Tally.own_set, if_pos rfl]

theorem Tally.countOf_bump_same (t : Tally) (k : String) (hk : k ∉ inheritedKeys) :
    Tally.countOf (Tally.bump t k) k = Tally.countOf t k + 1 := by
  simp only [Tally.countOf, Tally.own_bump_same t k hk]

theorem Tally.no_zero_bump (t : Tally) (k : String) (h : ∀ e ∈ t, e.2 ≠ Count.count 0) :
    ∀ e ∈ Tally.bump t k, e.2 ≠ Count.count 0 := by
  rcases Tally.bump_cases t k with e | ⟨c, hc, e⟩
  · rw [e]
    exact h
  · rw [e]
    intro x hx
    rcases Tally.mem_set t k c x hx with hx | hx
    · rw [hx]
      exact hc
    · exact h x hx

theorem Tally.total_set (t : Tally) (k : String) (n : Nat)
    (h : Tally.total t = .count n) :
    Tally.total (Tally.set t k (.count (Tally.countOf t k + 1))) = .count (n + 1) := by
  induction t generalizing n with
  | nil =>
    simp only [Tally.total, List.foldr_nil, Count.count.injEq] at h
    subst h
    rfl
  | cons x xs ih =>
    obtain ⟨l, v⟩ := x
    have hsplit : Tally.total ((l, v) :: xs) = Count.add v (Tally.total xs) := rfl
    rw [hsplit] at h
    cases v with
    | nan => simp [Count.add] at h
    | count a =>
      cases hxs : Tally.total xs with
      | nan => rw [hxs] at h; simp [Count.add] at h
      | count b =>
        rw [hxs] at h
        simp only [Count.add, Count.count.injEq] at h
        by_cases hl : l = k
        · subst hl
          simp only [Tally.set, if_true, Tally.countOf, Tally.own]
          show Count.add (.count (a + 1)) (Tally.total xs) = _
          rw [hxs]
          simp only [Count.add, Count.count.injEq]
          omega
        · have hc : Tally.countOf ((l, Count.count a) :: xs) k = Tally.countOf xs k := by
            simp only [Tally.countOf, Tally.own, if_neg hl]
          simp only [Tally.set, if_neg hl, hc]
          show Count.add (.count a) (Tally.total (Tally.set xs k _)) = _
          rw [ih b hxs]
          simp only [Count.add, Count.count.injEq]
          omega

theorem Tally.total_bump (t : Tally) (k : String) (n : Nat) (hk : k ∉ inheritedKeys)
    (h : Tally.total t = .count n) : Tally.total (Tally.bump t k) = .count (n + 1) := by
  rw [Tally.bump_plain t k hk]
  exact Tally.total_set t k n h

/-- Counting the keys `f p` of the records `ps` one after the other, where a
record without a key is passed over. -/
theorem tally_fold (f : Record → Option String) (g : Tally → Record → Tally)
    (hsome : ∀ t p k, f p = some k → g t p = Tally.bump t k)
    (hnone : ∀ t p, f p = none → g t p = t) (ps : List Record) (t : Tally) :
    (∀ key, key ∉ inheritedKeys →
      Tally.own (ps.foldl g t) key =
        (if ps.countP (fun p => decide (f p = some key)) = 0 then Tally.own t key
         else some (.count (Tally.countOf t key +
           ps.countP (fun p => decide (f p = some key)))))) ∧
    ((∀ e ∈ t, e.2 ≠ Count.count 0) → ∀ e ∈ ps.foldl g t, e.2 ≠ Count.count 0) ∧
    (∀ n, (∀ p ∈ ps, ∀ k, f p = some k → k ∉ inheritedKeys) → Tally.total t = .count n →
      Tally.total (ps.foldl g t) = .count (n + ps.countP (fun p => (f p).isSome))) ∧
    ps.foldl g t = (ps.filter (fun p => (f p).isSome)).foldl g t := by
  induction ps generalizing t with
  | nil => simp
  | cons p ps ih =>
    cases hf : f p with
    | none =>
      have hg := hnone t p hf
      obtain ⟨h1, h2, h3, h4⟩ := ih t
      refine ⟨?_, ?_, ?_, ?_⟩
      · intro key hkey
        simp only [List.foldl_cons, hg, List.countP_cons, hf]
        simpa using h1 key hkey
      · simpa only [List.foldl_cons, hg] using h2
      · intro n hps hn
        simp only [List.foldl_cons, hg, List.countP_cons, hf]
        simpa using h3 n (fun q hq => hps q (List.mem_cons_of_mem _ hq)) hn
      · simp only [List.foldl_cons, hg, List.filter_cons, hf]
        simpa using h4
    | some k =>
      have hg := hsome t p k hf
      obtain ⟨h1, h2, h3, h4⟩ := ih (Tally.bump t k)
      refine ⟨?_, ?_, ?_, ?_⟩
      · intro key hkey
        simp only [List.foldl_cons, hg, List.countP_cons, hf]
        rw [h1 key hkey]
        by_cases hk : k = key
        · subst hk
          simp only [decide_True, if_true, Tally.own_bump_same t k hkey,
            Tally.countOf_bump_same t k hkey]
          by_cases h0 : ps.countP (fun p => decide (f p = some k)) = 0
          · simp [h0]
          · simp only [if_neg h0, Nat.add_eq_zero, one_ne_zero, and_false, if_false,
              Option.some.injEq, Count.count.injEq]
            omega
        · have hne : ¬ (some k = some key) := fun h => hk (Option.some.inj h)
          simp only [hne, decide_False, Bool.false_eq_true, if_false, Nat.add_zero,
            Tally.own_bump_other t k key hk, Tally.countOf_bump_other t k key hk]
      · intro h0
        simp only [List.foldl_cons, hg]
        exact h2 (Tally.no_zero_bump t k h0)
      · intro n hps hn
        simp only [List.foldl_cons, hg, List.countP_cons, hf]
        have hk : k ∉ inheritedKeys := hps p (List.mem_cons_self _ _) k hf
        rw [h3 (n + 1) (fun q hq => hps q (List.mem_cons_of_mem _ hq))
          (Tally.total_bump t k n hk hn)]
        simp only [Option.isSome_some, if_true, Count.count.injEq]
        omega
      · simp only [List.foldl_cons, hg, List.filter_cons, hf, Option.isSome_some, if_true]
        exact h4

/-- One round of counting for a name inherited from `Object.prototype`: the
first round stores `NaN`, the second one starts from 0. -/
theorem Tally.own_bump_inherited (t : Tally) (k : String) (n : Nat) (hk : k ∈ inheritedKeys)
    (hp : k ≠ "__proto__") (h : Tally.own t k = inheritedCount n) :
    Tally.own (Tally.bump t k) k = inheritedCount (n + 1) := by
  match n, h with
  | 0, h =>
    simp only [inheritedCount] at h
    have hr : Tally.read t k = .inherited := by simp [Tally.read, h, hk]
    simp only [Tally.bump, hr, Reading.falsy, Bool.false_eq_true, if_false, Tally.write,
      if_neg hp, Reading.succ, Tally.own_set, if_true, inheritedCount]
  | 1, h =>
    simp only [inheritedCount] at h
    have hr : Tally.read t k = .number .nan := by simp [Tally.read, h]
    have hr' : Tally.read (t.set k (.count 0)) k = .number (.count 0) := by
      simp [Tally.read, Tally.own_set]
    simp only [Tally.bump, hr, Reading.falsy, if_true, Tally.write, if_neg hp, hr',
      Reading.succ, Tally.own_set, inheritedCount]
  | n + 2, h =>
    simp only [inheritedCount] at h
    have hr : Tally.read t k = .number (.count (n + 1)) := by simp [Tally.read, h]
    simp [Tally.bump, hr, Reading.falsy, Tally.write, hp, Reading.succ, Tally.own_set,
      inheritedCount]

/-- The key `__proto__` never gets an entry. -/
theorem Tally.bump_proto (t : Tally) : Tally.bump t "__proto__" = t := by
  simp [Tally.bump, Tally.write]

/-- Counting the keys `f p` of the records `ps` into an empty table, for a name
inherited from `Object.prototype`: the table holds nothing for `__proto__`,
and otherwise `NaN` after one record with the name and one less than their
number from two records on. -/
theorem tally_fold_inherited (f : Record → Option String) (g : Tally → Record → Tally)
    (hsome : ∀ t p k, f p = some k → g t p = Tally.bump t k)
    (hnone : ∀ t p, f p = none → g t p = t) (ps : List Record) (key : String)
    (hk : key ∈ inheritedKeys) :
    Tally.own (ps.foldl g []) key =
      (if key = "__proto__" then none
       else inheritedCount (ps.countP (fun p => decide (f p = some key)))) := by
  induction ps using List.reverseRecOn with
  | nil => simp [Tally.own, inheritedCount]
  | append_singleton ps p ih =>
    rw [List.foldl_append, List.foldl_cons, List.foldl_nil, List.countP_append]
    cases hf : f p with
    | none =>
      rw [hnone _ p hf, ih]
      simp [List.countP_cons, hf]
    | some k =>
      rw [hsome _ p k hf]
      by_cases hkk : k = key
      · subst hkk
        by_cases hp : k = "__proto__"
        · subst hp
          rw [Tally.bump_proto, ih]
          simp
        · rw [if_neg hp] at ih ⊢
          rw [Tally.own_bump_inherited _ k _ hk hp ih]
          simp [List.countP_cons, hf]
      · rw [Tally.own_bump_other _ k key hkk, ih]
        have : ¬ (some k = some key) := fun h => hkk (Option.some.inj h)
        simp [List.countP_cons, hf, this]

/-! ## Reports: counts by school, by status and by program -/

theorem strictEq_iff_eq_str (v : JSValue) (t : String) :
    strictEq v (.str t) = true ↔ v = .str t := by
  cases v <;> simp [strictEq]

theorem filter_status_length (c : List Record) (status : String) :
    (c.filter (fun p => strictEq (getProp p "status") (.str status))).length =
      c.countP (fun p => decide (getProp p "status" = .str status)) := by
  rw [List.countP_eq_length_filter]
  congr 1
  apply List.filter_congr
  intro p _
  by_cases h : getProp p "status" = .str status
  · simp [h, strictEq]
  · have : strictEq (getProp p "status") (.str status) = false := by
      cases hs : strictEq (getProp p "status") (.str status) with
      | false => rfl
      | true => exact absurd ((strictEq_iff_eq_str _ _).1 hs) h
    simp [h, this]

/-- What `getPlacementsBySchool` counts: for every name that is not the name of
a property of `Object.prototype`, it holds the number of
placements whose school is found and has that name, and no entry when there is
no such placement; no entry is 0; a placement whose school is not found adds
nothing, so that the table is the one of the placements whose school is found;
and when no school found has a name of `Object.prototype`, the entries add up
to the number of placements whose school is found, which is at most the number
of placements. -/
theorem bySchool_counts_resolved_placements (s : AppState) :
    (∀ key, key ∉ inheritedKeys →
      Tally.own (ReportsPage.getPlacementsBySchool s) key =
        (if placementsOfSchool s key = 0 then none
         else some (.count (placementsOfSchool s key)))) ∧
    (∀ e ∈ ReportsPage.getPlacementsBySchool s, e.2 ≠ Count.count 0) ∧
    ReportsPage.getPlacementsBySchool s =
      ReportsPage.getPlacementsBySchool
        { s with placements := s.placements.filter (fun p => (findSchool s p).isSome) } ∧
    ((∀ p ∈ s.placements, foundAnd (findSchool s p)
        (fun sc => decide (toText (getProp sc "name") ∈ inheritedKeys)) = false) →
      Tally.total (ReportsPage.getPlacementsBySchool s) = .count (placementsResolved s)) ∧
    placementsResolved s ≤ s.placements.length := by
  obtain ⟨h1, h2, h3, h4⟩ := tally_fold
    (fun p => (findSchool s p).map (fun sc => toText (getProp sc "name")))
    (fun schoolData placement =>
      match findSchool s placement with
      | some school => Tally.bump schoolData (toText (getProp school "name"))
      | none => schoolData)
    (by
      intro t p k h
      cases hf : findSchool s p with
      | none => simp only [hf, Option.map_none'] at h; cases h
      | some sc =>
        simp only [hf, Option.map_some', Option.some.injEq] at h
        simp only [hf, h])
    (by
      intro t p h
      cases hf : findSchool s p with
      | none => simp only [hf]
      | some sc => simp only [hf, Option.map_some'] at h; cases h)
    s.placements []
  have hcount : ∀ key, s.placements.countP (fun p =>
      decide ((findSchool s p).map (fun sc => toText (getProp sc "name")) = some key)) =
      placementsOfSchool s key := by
    intro key
    unfold placementsOfSchool
    apply List.countP_congr
    intro p _
    cases findSchool s p <;> simp [foundAnd]
  have hres : s.placements.countP (fun p =>
      ((findSchool s p).map (fun sc => toText (getProp sc "name"))).isSome) =
      placementsResolved s := by
    unfold placementsResolved
    apply List.countP_congr
    intro p _
    simp
  refine ⟨?_, ?_, ?_, ?_, ?_⟩
  · intro key hkey
    have := h1 key hkey
    rw [hcount key] at this
    simpa [Tally.own, Tally.countOf] using this
  · exact h2 (by simp)
  · have hfil : s.placements.filter (fun p =>
        ((findSchool s p).map (fun sc => toText (getProp sc "name"))).isSome) =
        s.placements.filter (fun p => (findSchool s p).isSome) := by
      apply List.filter_congr
      intro p _
      simp
    rw [hfil] at h4
    exact h4
  · intro hk
    have := h3 0 (by
      intro p hp k hf
      cases hs : findSchool s p with
      | none => simp only [hs, Option.map_none'] at hf; cases hf
      | some sc =>
        simp only [hs, Option.map_some', Option.some.injEq] at hf
        rw [← hf]
        have := hk p hp
        simpa [hs, foundAnd] using this) rfl
    rw [hres, Nat.zero_add] at this
    exact this
  · exact List.countP_le_length _

/-- The table by school on the scenario of the specification: of three
placements two name the school `"1"` and one names a school that does not
exist; the table holds 2 for the University of Ghana and nothing else, and its
entries add up to 2. -/
theorem bySchool_counts_resolved_placements_witness :
    ReportsPage.getPlacementsBySchool
      { seeded.state with placements :=
          [[("id", .str "1"), ("schoolId", .str "1"), ("status", .str "placed")],
           [("id", .str "2"), ("schoolId", .str "1"), ("status", .str "pending")],
           [("id", .str "3"), ("schoolId", .str "9"), ("status", .str "placed")]] } =
      [("University of Ghana", .count 2)] ∧
    Tally.total (ReportsPage.getPlacementsBySchool
      { seeded.state with placements :=
          [[("id", .str "1"), ("schoolId", .str "1"), ("status", .str "placed")],
           [("id", .str "2"), ("schoolId", .str "1"), ("status", .str "pending")],
           [("id", .str "3"), ("schoolId", .str "9"), ("status", .str "placed")]] }) =
      .count 2 :=
  ⟨by decide,
   (bySchool_counts_resolved_placements
      { seeded.state with placements :=
          [[("id", .str "1"), ("schoolId", .str "1"), ("status", .str "placed")],
           [("id", .str "2"), ("schoolId", .str "1"), ("status", .str "pending")],
           [("id", .str "3"), ("schoolId", .str "9"), ("status", .str "placed")]] }).2.2.2.1
      (by decide)⟩

/-- For a school name inherited from `Object.prototype`,
`getPlacementsBySchool` does not hold the number of placements: it has no
entry for `__proto__`, and otherwise holds `NaN` when one placement resolves to
a school of that name and one less than their number from two on. -/
theorem bySchool_inherited_name (s : AppState) (key : String) (hk : key ∈ inheritedKeys) :
    Tally.own (ReportsPage.getPlacementsBySchool s) key =
      (if key = "__proto__" then none else inheritedCount (placementsOfSchool s key)) := by
  have h := tally_fold_inherited
    (fun p => (findSchool s p).map (fun sc => toText (getProp sc "name")))
    (fun schoolData placement =>
      match findSchool s placement with
      | some school => Tally.bump schoolData (toText (getProp school "name"))
      | none => schoolData)
    (by
      intro t p k h
      cases hf : findSchool s p with
      | none => simp only [hf, Option.map_none'] at h; cases h
      | some sc =>
        simp only [hf, Option.map_some', Option.some.injEq] at h
        simp only [hf, h])
    (by
      intro t p h
      cases hf : findSchool s p with
      | none => simp only [hf]
      | some sc => simp only [hf, Option.map_some'] at h; cases h)
    s.placements key hk
  have hcount : s.placements.countP (fun p =>
      decide ((findSchool s p).map (fun sc => toText (getProp sc "name")) = some key)) =
      placementsOfSchool s key := by
    unfold placementsOfSchool
    apply List.countP_congr
    intro p _
    cases findSchool s p <;> simp [foundAnd]
  rw [hcount] at h
  exact h

/-- C21, where the code fails it: with a school named `constructor`, one
placement at that school gives the entry `NaN`, and two give 1; the entries do
not add up to the number of placements whose school is found.  The read
`schoolData["constructor"]` finds the function inherited from
`Object.prototype`, so the entry is not set to 0 before `++`. -/
theorem bySchool_inherited_name_gives_nan :
    (placementsOfSchool
        { seeded.state with
            schools := [[("id", .str "1"), ("name", .str "constructor")]],
            placements := [[("id", .str "1"), ("schoolId", .str "1")]] } "constructor" = 1 ∧
      ReportsPage.getPlacementsBySchool
        { seeded.state with
            schools := [[("id", .str "1"), ("name", .str "constructor")]],
            placements := [[("id", .str "1"), ("schoolId", .str "1")]] } =
        [("constructor", .nan)] ∧
      Tally.total (ReportsPage.getPlacementsBySchool
        { seeded.state with
            schools := [[("id", .str "1"), ("name", .str "constructor")]],
            placements := [[("id", .str "1"), ("schoolId", .str "1")]] }) = .nan) ∧
    (placementsOfSchool
        { seeded.state with
            schools := [[("id", .str "1"), ("name", .str "constructor")]],
            placements := [[("id", .str "1"), ("schoolId", .str "1")],
              [("id", .str "2"), ("schoolId", .str "1")]] } "constructor" = 2 ∧
      ReportsPage.getPlacementsBySchool
        { seeded.state with
            schools := [[("id", .str "1"), ("name", .str "constructor")]],
            placements := [[("id", .str "1"), ("schoolId", .str "1")],
              [("id", .str "2"), ("schoolId", .str "1")]] } =
        [("constructor", .count 1)]) := by
  decide

theorem countP_three (c : List Record) (p q r : Record → Bool)
    (h : ∀ x ∈ c, (p x = true ∧ q x = false ∧ r x = false) ∨
      (p x = false ∧ q x = true ∧ r x = false) ∨ (p x = false ∧ q x = false ∧ r x = true)) :
    c.countP p + c.countP q + c.countP r = c.length := by
  induction c with
  | nil => rfl
  | cons x xs ih =>
    have := ih (fun y hy => h y (List.mem_cons_of_mem _ hy))
    rcases h x (List.mem_cons_self _ _) with ⟨a, b, d⟩ | ⟨a, b, d⟩ | ⟨a, b, d⟩ <;>
      simp [List.countP_cons, a, b, d] <;> omega

/-- C22: when every placement has one of the statuses `placed`, `pending`,
`rejected`, `getPlacementsByStatus` gives for each of them the number of
placements with that status, the three numbers add up to the number of
placements, and the schools play no part: a placement whose school is not
found is counted like any other. -/
theorem status_counts_cover_placements (s : AppState)
    (h : ∀ p ∈ s.placements, getProp p "status" = .str "placed" ∨
      getProp p "status" = .str "pending" ∨ getProp p "status" = .str "rejected") :
    ReportsPage.getPlacementsByStatus s =
      [("placed", .num (placementsOfStatus s "placed")),
       ("pending", .num (placementsOfStatus s "pending")),
       ("rejected", .num (placementsOfStatus s "rejected"))] ∧
    placementsOfStatus s "placed" + placementsOfStatus s "pending" +
      placementsOfStatus s "rejected" = s.placements.length ∧
    ∀ schools, ReportsPage.getPlacementsByStatus { s with schools := schools } =
      ReportsPage.getPlacementsByStatus s := by
  refine ⟨?_, ?_, fun _ => rfl⟩
  · simp only [ReportsPage.getPlacementsByStatus, placementsOfStatus, filter_status_length]
  · unfold placementsOfStatus
    apply countP_three
    intro p hp
    rcases h p hp with e | e | e <;> simp [e]

/-- C22, on the scenario of the specification: three placements with the
statuses `placed`, `pending`, `placed`, the last one with a school that does
not exist, give `placed: 2`, `pending: 1`, `rejected: 0`. -/
theorem status_counts_cover_placements_witness :
    ReportsPage.getPlacementsByStatus
      { seeded.state with placements :=
          [[("id", .str "1"), ("schoolId", .str "1"), ("status", .str "placed")],
           [("id", .str "2"), ("schoolId", .str "1"), ("status", .str "pending")],
           [("id", .str "3"), ("schoolId", .str "9"), ("status", .str "placed")]] } =
      [("placed", .num 2), ("pending", .num 1), ("rejected", .num 0)] :=
  (status_counts_cover_placements
    { seeded.state with placements :=
        [[("id", .str "1"), ("schoolId", .str "1"), ("status", .str "placed")],
         [("id", .str "2"), ("schoolId", .str "1"), ("status", .str "pending")],
         [("id", .str "3"), ("schoolId", .str "9"), ("status", .str "placed")]] }
    (by decide)).1

/-- What `getPlacementsByProgram` counts: for every program that is not the
name of a property of `Object.prototype`, it holds the number of
placements with that program, and no entry when there is none; no entry is 0;
the schools play no part, so a placement whose school is not found is counted
like any other; and when no program is a name of `Object.prototype`, the
entries add up to the number of placements. -/
theorem byProgram_counts_placements (s : AppState) :
    (∀ key, key ∉ inheritedKeys →
      Tally.own (ReportsPage.getPlacementsByProgram s) key =
        (if placementsOfProgram s key = 0 then none
         else some (.count (placementsOfProgram s key)))) ∧
    (∀ e ∈ ReportsPage.getPlacementsByProgram s, e.2 ≠ Count.count 0) ∧
    (∀ schools, ReportsPage.getPlacementsByProgram { s with schools := schools } =
      ReportsPage.getPlacementsByProgram s) ∧
    ((∀ p ∈ s.placements, toText (getProp p "program") ∉ inheritedKeys) →
      Tally.total (ReportsPage.getPlacementsByProgram s) = .count s.placements.length) := by
  obtain ⟨h1, h2, h3, _⟩ := tally_fold
    (fun p => some (toText (getProp p "program")))
    (fun programData placement =>
      Tally.bump programData (toText (getProp placement "program")))
    (by
      intro t p k h
      simp only [Option.some.injEq] at h
      simp only [h])
    (by
      intro t p h
      cases h)
    s.placements []
  refine ⟨?_, h2 (by simp), fun _ => rfl, ?_⟩
  · intro key hkey
    have := h1 key hkey
    simpa [Tally.own, Tally.countOf, placementsOfProgram] using this
  · intro hk
    have := h3 0 (by
      intro p hp k hf
      simp only [Option.some.injEq] at hf
      rw [← hf]
      exact hk p hp) rfl
    simpa using this

/-- The table by program of the seeded store: one placement for Computer
Science, one for Engineering, two in all. -/
theorem byProgram_counts_placements_witness :
    ReportsPage.getPlacementsByProgram seeded.state =
      [("Computer Science", .count 1), ("Engineering", .count 1)] ∧
    Tally.total (ReportsPage.getPlacementsByProgram seeded.state) = .count 2 :=
  ⟨by decide, (byProgram_counts_placements seeded.state).2.2.2 (by decide)⟩

/-- For a program inherited from `Object.prototype`, `getPlacementsByProgram`
does not hold the number of placements: it has no entry for `__proto__`, and
otherwise holds `NaN` for one placement with that program and one less than
their number from two on. -/
theorem byProgram_inherited_name (s : AppState) (key : String) (hk : key ∈ inheritedKeys) :
    Tally.own (ReportsPage.getPlacementsByProgram s) key =
      (if key = "__proto__" then none else inheritedCount (placementsOfProgram s key)) := by
  have h := tally_fold_inherited
    (fun p => some (toText (getProp p "program")))
    (fun programData placement =>
      Tally.bump programData (toText (getProp placement "program")))
    (by
      intro t p k h
      simp only [Option.some.injEq] at h
      simp only [h])
    (by
      intro t p h
      cases h)
    s.placements key hk
  simpa [placementsOfProgram] using h

/-- C23, where the code fails it: a placement with the program `toString` is
added to the seeded store, as the form for a new placement does; the table by
program then holds `NaN` for it, and 1 after a second placement with that
program is added. -/
theorem byProgram_inherited_name_gives_nan :
    (ReportsPage.getPlacementsByProgram
        (DataManager.placements.add
          [("studentId", .str "3"), ("schoolId", .str "3"), ("program", .str "toString"),
            ("placementDate", .str "2024-09-01"), ("status", .str "placed"),
            ("notes", .str "")]
          1700000000000 [1] 1700000000000 seeded).state =
        [("Computer Science", .count 1), ("Engineering", .count 1), ("toString", .nan)] ∧
      placementsOfProgram
        (DataManager.placements.add
          [("studentId", .str "3"), ("schoolId", .str "3"), ("program", .str "toString"),
            ("placementDate", .str "2024-09-01"), ("status", .str "placed"),
            ("notes", .str "")]
          1700000000000 [1] 1700000000000 seeded).state "toString" = 1) ∧
    (ReportsPage.getPlacementsByProgram
        (DataManager.placements.add
          [("studentId", .str "1"), ("schoolId", .str "3"), ("program", .str "toString"),
            ("placementDate", .str "2024-09-02"), ("status", .str "pending"),
            ("notes", .str "")]
          1700000000005 [2] 1700000000005
          (DataManager.placements.add
            [("studentId", .str "3"), ("schoolId", .str "3"), ("program", .str "toString"),
              ("placementDate", .str "2024-09-01"), ("status", .str "placed"),
              ("notes", .str "")]
            1700000000000 [1] 1700000000000 seeded)).state =
        [("Computer Science", .count 1), ("Engineering", .count 1), ("toString", .count 1)] ∧
      placementsOfProgram
        (DataManager.placements.add
          [("studentId", .str "1"), ("schoolId", .str "3"), ("program", .str "toString"),
            ("placementDate", .str "2024-09-02"), ("status", .str "pending"),
            ("notes", .str "")]
          1700000000005 [2] 1700000000005
          (DataManager.placements.add
            [("studentId", .str "3"), ("schoolId", .str "3"), ("program", .str "toString"),
              ("placementDate", .str "2024-09-01"), ("status", .str "placed"),
              ("notes", .str "")]
            1700000000000 [1] 1700000000000 seeded)).state "toString" = 2) := by
  decide

/-! ## Login and roles -/

theorem getItem_setItem (st : Storage) (k v key : String) :
    (st.setItem k v).getItem key = if k = key then some v else st.getItem key := by
  by_cases h : k = key
  · subst h
    rw [if_pos rfl]
    exact getItem_setItem_same st k v
  · rw [if_neg h]
    exact getItem_setItem_other st k key v h

/-- C24: the role does not gate the store.  When two states differ at most in
who is logged in (`currentUser` and `userRole`, in memory and in their slots),
every operation of the store (add, update and delete on the students and on the
placements, and the import) leaves two states that again differ at most there:
the collections in memory are the same, and so is every other slot. -/
theorem role_does_not_gate_store (op : Op) (w w' : World) (h : sameExceptUser w w') :
    sameExceptUser (op.run w) (op.run w') ∧
    (op.run w').state.students = (op.run w).state.students ∧
    (op.run w').state.placements = (op.run w).state.placements ∧
    (op.run w').localStorage.getItem "students" = (op.run w).localStorage.getItem "students" ∧
    (op.run w').localStorage.getItem "placements" =
      (op.run w).localStorage.getItem "placements" := by
  have main : sameExceptUser (op.run w) (op.run w') := by
    obtain ⟨⟨cu, ur, cp, th, st, te, att, gr, pl, sc⟩, ls, ts⟩ := w
    obtain ⟨⟨cu', ur', cp', th', st', te', att', gr', pl', sc'⟩, ls', ts'⟩ := w'
    obtain ⟨hs, hl⟩ := h
    simp only [AppState.mk.injEq, true_and] at hs
    obtain ⟨rfl, rfl, rfl, rfl, rfl, rfl, rfl, rfl⟩ := hs
    simp only at hl
    cases op with
    | addStudent r t d c =>
      refine ⟨rfl, ?_⟩
      intro key h1 h2
      simp only [Op.run, DataManager.students.add, DataManager.students.save, Utils.showToast,
        getItem_setItem, hl key h1 h2]
    | updateStudent i u =>
      simp only [Op.run, DataManager.students.update]
      split
      · refine ⟨rfl, ?_⟩
        intro key h1 h2
        simp only [DataManager.students.save, Utils.showToast, getItem_setItem, hl key h1 h2]
      · exact ⟨rfl, hl⟩
    | deleteStudent i =>
      refine ⟨rfl, ?_⟩
      intro key h1 h2
      simp only [Op.run, DataManager.students.delete, DataManager.students.save,
        Utils.showToast, getItem_setItem, hl key h1 h2]
    | importStudents f e =>
      cases f with
      | unreadable => exact ⟨rfl, hl⟩
      | malformed => exact ⟨rfl, hl⟩
      | sheet rows =>
        refine ⟨rfl, ?_⟩
        intro key h1 h2
        simp only [Op.run, StudentsPage.processImportFile, DataManager.students.save,
          Utils.showToast, getItem_setItem, hl key h1 h2]
    | addPlacement r t d c =>
      refine ⟨rfl, ?_⟩
      intro key h1 h2
      simp only [Op.run, DataManager.placements.add, DataManager.placements.save,
        Utils.showToast, getItem_setItem, hl key h1 h2]
    | updatePlacement i u =>
      simp only [Op.run, DataManager.placements.update]
      split
      · refine ⟨rfl, ?_⟩
        intro key h1 h2
        simp only [DataManager.placements.save, Utils.showToast, getItem_setItem,
          hl key h1 h2]
      · exact ⟨rfl, hl⟩
    | deletePlacement i =>
      refine ⟨rfl, ?_⟩
      intro key h1 h2
      simp only [Op.run, DataManager.placements.delete, DataManager.placements.save,
        Utils.showToast, getItem_setItem, hl key h1 h2]
  refine ⟨main, ?_, ?_, main.2 _ (by decide) (by decide), main.2 _ (by decide) (by decide)⟩
  · rw [main.1]
  · rw [main.1]

/-- C24, on the seeded store: a student is deleted once with nobody logged in
and once after the teacher has logged in; the students left, in memory and in
the slot, are the same. -/
theorem role_does_not_gate_store_witness :
    sameExceptUser seeded (Auth.login "teacher" (.str "teacher123") "teacher" seeded).2 ∧
    (DataManager.students.delete (.str "1")
      (Auth.login "teacher" (.str "teacher123") "teacher" seeded).2).state.students =
      (DataManager.students.delete (.str "1") seeded).state.students ∧
    (DataManager.students.delete (.str "1")
      (Auth.login "teacher" (.str "teacher123") "teacher" seeded).2).localStorage.getItem
        "students" =
      (DataManager.students.delete (.str "1") seeded).localStorage.getItem "students" :=
  have h : sameExceptUser seeded
      (Auth.login "teacher" (.str "teacher123") "teacher" seeded).2 :=
    ⟨rfl, fun key h1 h2 => by
      show Storage.getItem ((seeded.localStorage.setItem "currentUser" "teacher").setItem
        "userRole" "teacher") key = _
      rw [getItem_setItem, getItem_setItem, if_neg (Ne.symm h2), if_neg (Ne.symm h1)]⟩
  ⟨h, (role_does_not_gate_store (.deleteStudent (.str "1")) seeded _ h).2.1,
    (role_does_not_gate_store (.deleteStudent (.str "1")) seeded _ h).2.2.2.1⟩

theorem ownUser_eq_some (t : List (String × Record)) (ht : (t.map Prod.fst).Nodup)
    (k : String) (e : Record) : Auth.ownUser t k = some e ↔ (k, e) ∈ t := by
  induction t with
  | nil => simp [Auth.ownUser]
  | cons x xs ih =>
    obtain ⟨l, v⟩ := x
    simp only [List.map_cons, List.nodup_cons] at ht
    by_cases h : l = k
    · subst h
      simp only [Auth.ownUser, if_true, Option.some.injEq, List.mem_cons, Prod.mk.injEq,
        true_and]
      constructor
      · intro h
        exact Or.inl h.symm
      · rintro (h | h)
        · exact h.symm
        · exact absurd (List.mem_map_of_mem Prod.fst h) ht.1
    · simp only [Auth.ownUser, if_neg h, List.mem_cons, Prod.mk.injEq, ih ht.2]
      constructor
      · intro h'
        exact Or.inr h'
      · rintro (h' | h')
        · exact absurd h'.1.symm h
        · exact h'

theorem users_password_text : ∀ x ∈ Auth.users,
    strictEq (getProp x.2 "password") (getProp x.2 "password") = true := by
  decide

/-- The test of `Auth.login`: it holds exactly for an entry of the table with
the given password and role. -/
theorem login_result (u : String) (p : JSValue) (r : String) (w : World) :
    (Auth.login u p r w).1 = true ↔
      ∃ e, (u, e) ∈ Auth.users ∧ getProp e "password" = p ∧ getProp e "role" = .str r := by
  unfold Auth.login Auth.user
  cases hown : Auth.ownUser Auth.users u with
  | some e =>
    have hmem := (ownUser_eq_some Auth.users (by decide) u e).1 hown
    have ht := users_password_text (u, e) hmem
    simp only
    constructor
    · intro h
      split at h
      · rename_i hc
        simp only [Bool.and_eq_true] at hc
        exact ⟨e, hmem, eq_of_strictEq _ _ hc.1, (strictEq_iff_eq_str _ _).1 hc.2⟩
      · cases h
    · rintro ⟨e', hmem', hp, hr⟩
      have he : e' = e := by
        have := (ownUser_eq_some Auth.users (by decide) u e').2 hmem'
        rw [hown] at this
        exact (Option.some.inj this).symm
      subst he
      have h1 : strictEq (getProp e' "password") p = true := by
        rw [← hp]
        exact ht
      have h2 : strictEq (getProp e' "role") (.str r) = true := by
        rw [hr]
        simp [strictEq]
      simp [h1, h2]
  | none =>
    have hnot : ¬ ∃ e, (u, e) ∈ Auth.users ∧ getProp e "password" = p ∧
        getProp e "role" = .str r := by
      rintro ⟨e, hmem, _⟩
      have := (ownUser_eq_some Auth.users (by decide) u e).2 hmem
      rw [hown] at this
      cases this
    simp only [hnot, iff_false]
    by_cases hin : u ∈ inheritedKeys
    · simp [hin, getProp, strictEq]
    · simp [hin]

/-- C25: `Auth.login` returns true exactly when the username is an entry of
the credential table whose password is the given password and whose role is the
given role.  On success `currentUser` and `userRole` become the given username
and role, in memory and in their slots; on failure the state in memory and
`localStorage` are what they were. -/
theorem login_checks_credentials (u : String) (p : JSValue) (r : String) (w : World) :
    ((Auth.login u p r w).1 = true ↔
      ∃ e, (u, e) ∈ Auth.users ∧ getProp e "password" = p ∧ getProp e "role" = .str r) ∧
    (Auth.login u p r w).2.state =
      (if (Auth.login u p r w).1 = true then
        { w.state with currentUser := some u, userRole := some r }
      else w.state) ∧
    (Auth.login u p r w).2.localStorage =
      (if (Auth.login u p r w).1 = true then
        (w.localStorage.setItem "currentUser" u).setItem "userRole" r
      else w.localStorage) ∧
    ((w.localStorage.setItem "currentUser" u).setItem "userRole" r).getItem "currentUser" =
      some u ∧
    ((w.localStorage.setItem "currentUser" u).setItem "userRole" r).getItem "userRole" =
      some r := by
  refine ⟨login_result u p r w, ?_, ?_, ?_, ?_⟩
  · unfold Auth.login
    split
    · split <;> simp [Utils.showToast]
    · simp [Utils.showToast]
  · unfold Auth.login
    split
    · split <;> simp [Utils.showToast]
    · simp [Utils.showToast]
  · rw [getItem_setItem, getItem_setItem]
    simp
  · rw [getItem_setItem]
    simp

/-- The name `constructor` is no entry of the credential table, though
`Auth.users["constructor"]` is an object: the login fails, for every password
and role. -/
theorem login_inherited_name_fails (p : JSValue) (r : String) :
    (Auth.login "constructor" p r seeded).1 = false := by
  cases h : (Auth.login "constructor" p r seeded).1 with
  | false => rfl
  | true =>
    obtain ⟨e, hmem, _⟩ := (login_result "constructor" p r seeded).1 h
    revert hmem
    simp [Auth.users]

/-! ## Dates -/

/-- The day number of the civil date that `civilFromDays` puts together from
the era, the year of the era, the day of the year and the month counted from
March. -/
theorem civil_core (era doe yoe doy mp : Nat) (hyoe : yoe < 400)
    (hdoe : doe = 365 * yoe + yoe / 4 - yoe / 100 + doy) (hmp : mp = (5 * doy + 2) / 153)
    (hdoy : doy ≤ 365) (hz : 719468 ≤ era * 146097 + doe) :
    daysFromCivil (yoe + era * 400 + (if (if mp < 10 then mp + 3 else mp - 9) ≤ 2 then 1 else 0))
      (if mp < 10 then mp + 3 else mp - 9) (doy - (153 * mp + 2) / 5 + 1) =
      era * 146097 + doe - 719468 := by
  have hmp11 : mp ≤ 11 := by omega
  have hd : (153 * mp + 2) / 5 ≤ doy := by omega
  unfold daysFromCivil
  by_cases h10 : mp < 10
  · have hm : ¬ (mp + 3 ≤ 2) := by omega
    simp only [if_pos h10, if_neg hm, Nat.add_zero]
    have e1 : (yoe + era * 400) / 400 = era := by omega
    have e2 : (yoe + era * 400) % 400 = yoe := by omega
    have e3 : mp + 3 - 3 = mp := by omega
    rw [e1, e2, e3]
    omega
  · have hm : mp - 9 ≤ 2 := by omega
    simp only [if_neg h10, if_pos hm]
    have e0 : yoe + era * 400 + 1 - 1 = yoe + era * 400 := by omega
    have e1 : (yoe + era * 400) / 400 = era := by omega
    have e2 : (yoe + era * 400) % 400 = yoe := by omega
    have e3 : mp - 9 + 9 = mp := by omega
    rw [e0, e1, e2, e3]
    omega

/-- The year of the era that `civilFromDays` computes for a day of the era, and
the day of that year. -/
theorem yearOfEra_spec (doe : Nat) (h : doe < 146097) :
    (doe - doe / 1460 + doe / 36524 - doe / 146096) / 365 < 400 ∧
    365 * ((doe - doe / 1460 + doe / 36524 - doe / 146096) / 365)
      + ((doe - doe / 1460 + doe / 36524 - doe / 146096) / 365) / 4
      - ((doe - doe / 1460 + doe / 36524 - doe / 146096) / 365) / 100 ≤ doe ∧
    doe - (365 * ((doe - doe / 1460 + doe / 36524 - doe / 146096) / 365)
      + ((doe - doe / 1460 + doe / 36524 - doe / 146096) / 365) / 4
      - ((doe - doe / 1460 + doe / 36524 - doe / 146096) / 365) / 100) ≤ 365 := by
  have h1 : doe / 36524 = 0 ∨ doe / 36524 = 1 ∨ doe / 36524 = 2 ∨ doe / 36524 = 3 ∨
      doe / 36524 = 4 := by omega
  generalize hy : (doe - doe / 1460 + doe / 36524 - doe / 146096) / 365 = yoe
  rcases h1 with h1 | h1 | h1 | h1 | h1
  · have h3 : yoe / 100 = 0 ∨ yoe / 100 = 1 := by omega
    rcases h3 with h3 | h3 <;> omega
  · have h3 : yoe / 100 = 0 ∨ yoe / 100 = 1 ∨ yoe / 100 = 2 := by omega
    rcases h3 with h3 | h3 | h3 <;> omega
  · have h3 : yoe / 100 = 1 ∨ yoe / 100 = 2 ∨ yoe / 100 = 3 := by omega
    rcases h3 with h3 | h3 | h3 <;> omega
  · have h3 : yoe / 100 = 2 ∨ yoe / 100 = 3 := by omega
    rcases h3 with h3 | h3 <;> omega
  · have h3 : yoe / 100 = 3 := by omega
    omega

/-- The day number of the civil date of a day number is that day number. -/
theorem daysFromCivil_civilFromDays (z : Nat) :
    daysFromCivil (civilFromDays z).1 (civilFromDays z).2.1 (civilFromDays z).2.2 = z := by
  have hdm : 146097 * ((z + 719468) / 146097) + (z + 719468) % 146097 = z + 719468 :=
    Nat.div_add_mod _ _
  have hdoe : (z + 719468) % 146097 < 146097 := Nat.mod_lt _ (by decide)
  obtain ⟨hy, hlo, hhi⟩ := yearOfEra_spec ((z + 719468) % 146097) hdoe
  have h := civil_core ((z + 719468) / 146097) ((z + 719468) % 146097) _ _ _ hy
    (by omega) rfl hhi (by omega)
  have e : (z + 719468) / 146097 * 146097 + (z + 719468) % 146097 - 719468 = z := by omega
  rw [e] at h
  exact h

/-! ## Reading a date-time text -/

theorem ofRadix_cons_zero (b : Nat) (ds : List Char) : ofRadix b ('0' :: ds) = ofRadix b ds := by
  simp [ofRadix, digitVal]

theorem ofRadix_replicate_zero (b k : Nat) (ds : List Char) :
    ofRadix b (List.replicate k '0' ++ ds) = ofRadix b ds := by
  induction k with
  | zero => rfl
  | succ k ih =>
    rw [List.replicate_succ, List.cons_append, ofRadix_cons_zero, ih]

/-- A padded numeral stands for its number, and consists of digits. -/
theorem padZero_spec (w n : Nat) :
    ofRadix 10 (padZero w n) = n ∧ (∀ c ∈ padZero w n, isDigit c = true) ∧
      ∃ c cs, padZero w n = c :: cs ∧ isDigit c = true := by
  obtain ⟨d, ds, hds, hd, hall, _⟩ := toRadix_digits n
  refine ⟨?_, ?_, ?_⟩
  · unfold padZero
    rw [ofRadix_replicate_zero, ofRadix_toRadix 10 (by omega) (by omega)]
  · intro c hc
    unfold padZero at hc
    rcases List.mem_append.1 hc with h | h
    · rw [(List.mem_replicate.1 h).2]
      rfl
    · rw [hds] at h
      rcases List.mem_cons.1 h with h | h
      · rw [h]
        exact hd
      · exact hall c h
  · unfold padZero
    cases hk : w - (toRadix 10 n).length with
    | zero => exact ⟨d, ds, by simp [hds], hd⟩
    | succ k => exact ⟨'0', List.replicate k '0' ++ toRadix 10 n, by simp [List.replicate_succ], rfl⟩

theorem spanDigits_stop (ds : List Char) (c : Char) (rest : List Char)
    (hall : ∀ x ∈ ds, isDigit x = true) (hc : isDigit c = false) :
    spanDigits (ds ++ c :: rest) = (ds, c :: rest) := by
  induction ds with
  | nil => simp [spanDigits, hc]
  | cons d ds ih =>
    have hd : isDigit d = true := hall d (List.mem_cons_self _ _)
    have := ih (fun x hx => hall x (List.mem_cons_of_mem _ hx))
    simp [spanDigits, hd, this]

/-- Reading a padded numeral in front of its separator. -/
theorem readField_padZero (sep : Char) (w n : Nat) (rest : List Char)
    (hsep : isDigit sep = false) :
    readField sep (padZero w n ++ sep :: rest) = some (n, rest) := by
  obtain ⟨hval, hall, _⟩ := padZero_spec w n
  simp only [readField, spanDigits_stop _ sep rest hall hsep, if_true, hval]

theorem dropSign_padZero (w n : Nat) (rest : List Char) :
    dropSign (padZero w n ++ rest) = padZero w n ++ rest := by
  obtain ⟨_, _, c, cs, hc, hd⟩ := padZero_spec w n
  rw [hc]
  have hne : c ≠ '+' := by
    intro h
    rw [h] at hd
    revert hd
    decide
  simp [dropSign, hne]

/-- Reading the text `toISOString` writes for an instant gives the instant
back. -/
theorem isoInstant_toISOString (t : Nat) : isoInstant (toISOString t) = some t := by
  have hciv := daysFromCivil_civilFromDays (t / 86400000)
  have hdash : isDigit '-' = false := by decide
  have hT : isDigit 'T' = false := by decide
  have hcolon : isDigit ':' = false := by decide
  have hdot : isDigit '.' = false := by decide
  have hZ : isDigit 'Z' = false := by decide
  generalize hc : civilFromDays (t / 86400000) = c at hciv
  obtain ⟨y, m, d⟩ := c
  simp only at hciv
  have hfields : ∀ cs : List Char, readField '-' cs = some (y,
      padZero 2 m ++ '-' :: (padZero 2 d ++ 'T' :: (padZero 2 (t % 86400000 / 3600000) ++
        ':' :: (padZero 2 (t % 86400000 / 60000 % 60) ++
        ':' :: (padZero 2 (t % 86400000 / 1000 % 60) ++
        '.' :: (padZero 3 (t % 86400000 % 1000) ++ ['Z'])))))) →
      ((readField '-' cs).bind fun year =>
        (readField '-' year.2).bind fun month =>
        (readField 'T' month.2).bind fun day =>
        (readField ':' day.2).bind fun hours =>
        (readField ':' hours.2).bind fun minutes =>
        (readField '.' minutes.2).bind fun seconds =>
        (readField 'Z' seconds.2).bind fun millis =>
        if millis.2 = [] then
          some ((((daysFromCivil year.1 month.1 day.1 * 24 + hours.1) * 60 + minutes.1) * 60 +
            seconds.1) * 1000 + millis.1)
        else none) = some t := by
    intro cs h
    rw [h]
    simp only [Option.some_bind, readField_padZero _ _ _ _ hdash, readField_padZero _ _ _ _ hT,
      readField_padZero _ _ _ _ hcolon, readField_padZero _ _ _ _ hdot]
    have hz : readField 'Z' (padZero 3 (t % 86400000 % 1000) ++ ['Z']) =
        some (t % 86400000 % 1000, []) := readField_padZero 'Z' 3 _ [] hZ
    rw [hz]
    simp only [Option.some_bind, if_true, hciv, Option.some.injEq]
    omega
  unfold isoInstant
  apply hfields
  simp only [toISOString, hc]
  by_cases hy : y ≤ 9999
  · simp only [if_pos hy, List.append_assoc, List.cons_append]
    rw [dropSign_padZero]
    exact readField_padZero '-' 4 y _ hdash
  · simp only [if_neg hy, List.append_assoc, List.cons_append]
    simp only [dropSign, if_true]
    exact readField_padZero '-' 6 y _ hdash

/-- The record that `add` appends carries the clock reading of `new Date()` as
its `createdAt`. -/
theorem createdInstant_added (r : Record) (id : String) (now : Nat) :
    createdInstant (setProp (setProp r "id" (.str id)) "createdAt" (.str (toISOString now))) =
      some now := by
  unfold createdInstant
  rw [getProp_setProp_same]
  exact isoInstant_toISOString now

theorem runOps_append (ops ops' : List Op) (w : World) :
    runOps (ops ++ ops') w = runOps ops' (runOps ops w) := by
  induction ops generalizing w with
  | nil => rfl
  | cons op ops ih => exact ih (op.run w)

theorem runOps_students_add (adds : List AddCall) (w : World) :
    ∃ added, (runOps (adds.map AddCall.student) w).state.students =
        w.state.students ++ added ∧
      added.map createdInstant = adds.map (fun a => some a.createdNow) := by
  induction adds generalizing w with
  | nil => exact ⟨[], by simp [runOps], rfl⟩
  | cons a adds ih =>
    obtain ⟨added, h1, h2⟩ := ih ((AddCall.student a).run w)
    refine ⟨setProp (setProp a.record "id" (.str (Utils.generateId a.idNow a.idDraw)))
      "createdAt" (.str (toISOString a.createdNow)) :: added, ?_, ?_⟩
    · show (runOps (adds.map AddCall.student) ((AddCall.student a).run w)).state.students = _
      rw [h1]
      show (w.state.students ++ [_]) ++ added = _
      rw [List.append_assoc]
      rfl
    · rw [List.map_cons, List.map_cons, h2, createdInstant_added]

theorem runOps_placements_add (adds : List AddCall) (w : World) :
    ∃ added, (runOps (adds.map AddCall.placement) w).state.placements =
        w.state.placements ++ added ∧
      added.map createdInstant = adds.map (fun a => some a.createdNow) := by
  induction adds generalizing w with
  | nil => exact ⟨[], by simp [runOps], rfl⟩
  | cons a adds ih =>
    obtain ⟨added, h1, h2⟩ := ih ((AddCall.placement a).run w)
    refine ⟨setProp (setProp a.record "id" (.str (Utils.generateId a.idNow a.idDraw)))
      "createdAt" (.str (toISOString a.createdNow)) :: added, ?_, ?_⟩
    · show (runOps (adds.map AddCall.placement) ((AddCall.placement a).run w)).state.placements
        = _
      rw [h1]
      show (w.state.placements ++ [_]) ++ added = _
      rw [List.append_assoc]
      rfl
    · rw [List.map_cons, List.map_cons, h2, createdInstant_added]

theorem pairwise_createdNoLater (added : List Record) (adds : List AddCall)
    (h : added.map createdInstant = adds.map (fun a => some a.createdNow))
    (hclock : (adds.map AddCall.createdNow).Pairwise (· ≤ ·)) :
    added.Pairwise createdNoLater := by
  induction added generalizing adds with
  | nil => exact List.Pairwise.nil
  | cons r rs ih =>
    cases adds with
    | nil => simp at h
    | cons a as =>
      simp only [List.map_cons, List.cons.injEq] at h
      simp only [List.map_cons, List.pairwise_cons] at hclock
      refine List.Pairwise.cons ?_ (ih as h.2 hclock.2)
      intro b hb
      have hb' : createdInstant b ∈ rs.map createdInstant := List.mem_map_of_mem _ hb
      rw [h.2] at hb'
      obtain ⟨a', ha', hab⟩ := List.mem_map.1 hb'
      exact ⟨a.createdNow, a'.createdNow, h.1, hab.symm,
        hclock.1 _ (List.mem_map_of_mem _ ha')⟩

/-- C26: when a sequence of calls of `add` is made on the students, or on the
placements, while the clock does not go backwards, the records are appended in
the order of the calls, each with the clock reading of its call as `createdAt`,
so that the `createdAt` of an added record is never later than the one of a
record added after it. -/
theorem createdAt_nondecreasing (adds : List AddCall) (w : World)
    (hclock : (adds.map AddCall.createdNow).Pairwise (· ≤ ·)) :
    (∃ added, (runOps (adds.map AddCall.student) w).state.students =
        w.state.students ++ added ∧
      added.map createdInstant = adds.map (fun a => some a.createdNow) ∧
      added.Pairwise createdNoLater) ∧
    (∃ added, (runOps (adds.map AddCall.placement) w).state.placements =
        w.state.placements ++ added ∧
      added.map createdInstant = adds.map (fun a => some a.createdNow) ∧
      added.Pairwise createdNoLater) := by
  constructor
  · obtain ⟨added, h1, h2⟩ := runOps_students_add adds w
    exact ⟨added, h1, h2, pairwise_createdNoLater added adds h2 hclock⟩
  · obtain ⟨added, h1, h2⟩ := runOps_placements_add adds w
    exact ⟨added, h1, h2, pairwise_createdNoLater added adds h2 hclock⟩

/-- C26, on the seeded store: two students are added, the second one five
milliseconds after the first. -/
theorem createdAt_nondecreasing_witness :
    (([⟨[("firstName", .str "Esi")], 1700000000000, [1], 1700000000000⟩,
        ⟨[("firstName", .str "Yaw")], 1700000000005, [2], 1700000000005⟩] :
        List AddCall).map AddCall.createdNow).Pairwise (· ≤ ·) ∧
    ∃ added,
      (runOps (([⟨[("firstName", .str "Esi")], 1700000000000, [1], 1700000000000⟩,
        ⟨[("firstName", .str "Yaw")], 1700000000005, [2], 1700000000005⟩] :
        List AddCall).map AddCall.student) seeded).state.students =
        seeded.state.students ++ added ∧
      added.map createdInstant =
        ([⟨[("firstName", .str "Esi")], 1700000000000, [1], 1700000000000⟩,
          ⟨[("firstName", .str "Yaw")], 1700000000005, [2], 1700000000005⟩] :
          List AddCall).map (fun a => some a.createdNow) ∧
      added.Pairwise createdNoLater :=
  ⟨by decide,
   (createdAt_nondecreasing
      [⟨[("firstName", .str "Esi")], 1700000000000, [1], 1700000000000⟩,
       ⟨[("firstName", .str "Yaw")], 1700000000005, [2], 1700000000005⟩] seeded
      (by decide)).1⟩

/-! ## The store: what delete and update leave alone -/

/-- C27: after `delete(id)` no record of the collection has the id `id`, however
many had it, and the records with another id are the ones that were there
before, in the same order. -/
theorem delete_leaves_other_ids (id : JSValue) (w : World) :
    ((DataManager.students.delete id w).state.students.filter
        (fun s => strictEq (getProp s "id") id) = [] ∧
      (DataManager.students.delete id w).state.students.filter
        (fun s => !strictEq (getProp s "id") id) =
        w.state.students.filter (fun s => !strictEq (getProp s "id") id) ∧
      (DataManager.students.delete id w).state.students.length +
        w.state.students.countP (fun s => strictEq (getProp s "id") id) =
        w.state.students.length) ∧
    ((DataManager.placements.delete id w).state.placements.filter
        (fun p => strictEq (getProp p "id") id) = [] ∧
      (DataManager.placements.delete id w).state.placements.filter
        (fun p => !strictEq (getProp p "id") id) =
        w.state.placements.filter (fun p => !strictEq (getProp p "id") id) ∧
      (DataManager.placements.delete id w).state.placements.length +
        w.state.placements.countP (fun p => strictEq (getProp p "id") id) =
        w.state.placements.length) := by
  have key : ∀ c : List Record,
      (c.filter (fun s => !strictEq (getProp s "id") id)).filter
          (fun s => strictEq (getProp s "id") id) = [] ∧
        (c.filter (fun s => !strictEq (getProp s "id") id)).filter
          (fun s => !strictEq (getProp s "id") id) =
          c.filter (fun s => !strictEq (getProp s "id") id) ∧
        (c.filter (fun s => !strictEq (getProp s "id") id)).length +
          c.countP (fun s => strictEq (getProp s "id") id) = c.length := by
    intro c
    refine ⟨?_, ?_, ?_⟩
    · rw [List.filter_filter]
      apply List.filter_eq_nil_iff.2
      intro a _
      cases strictEq (getProp a "id") id <;> simp
    · rw [List.filter_filter]
      apply List.filter_congr
      intro a _
      cases strictEq (getProp a "id") id <;> simp
    · induction c with
      | nil => rfl
      | cons x xs ih =>
        cases hx : strictEq (getProp x "id") id <;>
          simp [List.filter_cons, List.countP_cons, hx] <;> omega
  exact ⟨key w.state.students, key w.state.placements⟩

theorem getElem?_replace_ne (pre post : List Record) (x y : Record) (k : Nat)
    (h : (pre ++ y :: post)[k]? ≠ (pre ++ x :: post)[k]?) : k = pre.length := by
  by_contra hk
  apply h
  rcases Nat.lt_or_gt_of_ne hk with hlt | hgt
  · rw [List.getElem?_append_left hlt, List.getElem?_append_left hlt]
  · rw [List.getElem?_append_right (by omega), List.getElem?_append_right (by omega)]
    obtain ⟨j, hj⟩ : ∃ j, k - pre.length = j + 1 := ⟨k - pre.length - 1, by omega⟩
    rw [hj]
    rfl

theorem update_frame_aux (col : List Record) (id : JSValue) (patch : Record) (d : List Record)
    (hnone : (∀ s ∈ col, strictEq (getProp s "id") id = false) → d = col)
    (hsplit : ∀ pre x post, col = pre ++ x :: post →
      (∀ y ∈ pre, strictEq (getProp y "id") id = false) →
      strictEq (getProp x "id") id = true → d = pre ++ spread x patch :: post) :
    d.length = col.length ∧
    ∀ k : Nat, d[k]? ≠ col[k]? →
      ∃ x, col[k]? = some x ∧ strictEq (getProp x "id") id = true ∧
        d[k]? = some (spread x patch) ∧
        ∀ j : Nat, j < k → ∀ y, col[j]? = some y → strictEq (getProp y "id") id = false := by
  by_cases hex : ∃ x ∈ col, strictEq (getProp x "id") id = true
  · obtain ⟨pre, x, post, hc, hpre, hx⟩ :=
      exists_first_split (fun s => strictEq (getProp s "id") id) col hex
    have hd := hsplit pre x post hc hpre hx
    refine ⟨by rw [hd, hc]; simp, ?_⟩
    intro k hk
    rw [hd, hc] at hk
    have hkl := getElem?_replace_ne pre post x (spread x patch) k hk
    subst hkl
    have hat : ∀ z : Record, (pre ++ z :: post)[pre.length]? = some z := by
      intro z
      rw [List.getElem?_append_right (Nat.le_refl _), Nat.sub_self]
      simp
    refine ⟨x, by rw [hc]; exact hat x, hx, by rw [hd]; exact hat _, ?_⟩
    intro j hj y hy
    rw [hc, List.getElem?_append_left hj] at hy
    exact hpre y (List.getElem?_mem hy)
  · have hall : ∀ s ∈ col, strictEq (getProp s "id") id = false := by
      intro s hs
      cases h : strictEq (getProp s "id") id with
      | false => rfl
      | true => exact absurd ⟨s, hs, h⟩ hex
    have hd := hnone hall
    subst hd
    exact ⟨rfl, fun k hk => absurd rfl hk⟩

/-- C28: `update(id, patch)` keeps the length of the collection and the place
of every record.  A place whose record it changes is the place of the first
record with the id `id`, and holds the merge of that record and the patch
afterwards; every other record, a later one with the same id too, is the
record that was there. -/
theorem update_changes_first_match_only (id : JSValue) (patch : Record) (w : World) :
    ((DataManager.students.update id patch w).state.students.length =
        w.state.students.length ∧
      ∀ k : Nat, (DataManager.students.update id patch w).state.students[k]? ≠
          w.state.students[k]? →
        ∃ x, w.state.students[k]? = some x ∧ strictEq (getProp x "id") id = true ∧
          (DataManager.students.update id patch w).state.students[k]? =
            some (spread x patch) ∧
          ∀ j : Nat, j < k → ∀ y, w.state.students[j]? = some y →
            strictEq (getProp y "id") id = false) ∧
    ((DataManager.placements.update id patch w).state.placements.length =
        w.state.placements.length ∧
      ∀ k : Nat, (DataManager.placements.update id patch w).state.placements[k]? ≠
          w.state.placements[k]? →
        ∃ x, w.state.placements[k]? = some x ∧ strictEq (getProp x "id") id = true ∧
          (DataManager.placements.update id patch w).state.placements[k]? =
            some (spread x patch) ∧
          ∀ j : Nat, j < k → ∀ y, w.state.placements[j]? = some y →
            strictEq (getProp y "id") id = false) := by
  constructor
  · apply update_frame_aux
    · intro h
      rw [students_update_none id patch w h]
    · intro pre x post hc hpre hx
      rw [students_update_split id patch w pre x post hc hpre hx]
      rfl
  · apply update_frame_aux
    · intro h
      rw [placements_update_none id patch w h]
    · intro pre x post hc hpre hx
      rw [placements_update_split id patch w pre x post hc hpre hx]
      rfl

/-- C28, with two students of id `"1"` in the collection: the update changes
the record at place 0, the first of them, and the second one, at place 1,
stays as it was. -/
theorem update_changes_first_match_only_witness :
    (DataManager.students.update (.str "1") [("class", .str "Form 2A")]
      { seeded with state := { seeded.state with students :=
          [[("id", .str "1"), ("firstName", .str "Kwame")],
           [("id", .str "1"), ("firstName", .str "Ama")]] } }).state.students[1]? =
      some [("id", .str "1"), ("firstName", .str "Ama")] := by
  by_contra h
  obtain ⟨x, _, _, _, hfirst⟩ :=
    (update_changes_first_match_only (.str "1") [("class", .str "Form 2A")]
      { seeded with state := { seeded.state with students :=
          [[("id", .str "1"), ("firstName", .str "Kwame")],
           [("id", .str "1"), ("firstName", .str "Ama")]] } }).1.2 1 h
  exact absurd (hfirst 0 (by decide) [("id", .str "1"), ("firstName", .str "Kwame")] rfl)
    (by decide)

/-! ## Rounding -/

/-- The integer `roundHalfEven a b` is within one half of `a / b`. -/
theorem roundHalfEven_near (a b : Nat) (hb : 0 < b) :
    2 * (roundHalfEven a b * b) ≤ 2 * a + b ∧ 2 * a ≤ 2 * (roundHalfEven a b * b) + b := by
  have hdm : b * (a / b) + a % b = a := Nat.div_add_mod a b
  have hlt : a % b < b := Nat.mod_lt a hb
  have hmul : (a / b + 1) * b = b * (a / b) + b := by ring
  have hmul' : a / b * b = b * (a / b) := by ring
  unfold roundHalfEven
  split
  · rw [hmul']
    omega
  · split
    · rw [hmul]
      omega
    · split
      · rw [hmul']
        omega
      · rw [hmul]
        omega

theorem halvings_spec (fuel n : Nat) (h : n ≤ fuel) (hn : 0 < n) :
    2 ^ halvings fuel n ≤ n ∧ n < 2 ^ (halvings fuel n + 1) := by
  induction fuel generalizing n with
  | zero => omega
  | succ fuel ih =>
    by_cases h2 : n < 2
    · simp only [halvings, if_pos h2]
      omega
    · simp only [halvings, if_neg h2]
      obtain ⟨h3, h4⟩ := ih (n / 2) (by omega) (by omega)
      rw [pow_succ, pow_succ]
      rw [pow_succ] at h4
      omega

theorem ilog2_self_le (n : Nat) (hn : 0 < n) : 2 ^ ilog2 n ≤ n :=
  (halvings_spec n n (Nat.le_refl n) hn).1

theorem lt_ilog2_self (n : Nat) (hn : 0 < n) : n < 2 ^ (ilog2 n + 1) :=
  (halvings_spec n n (Nat.le_refl n) hn).2

/-- The number `roundToDouble a b` differs from `a / b` by at most the
fraction `2^-53` of it. -/
theorem roundToDouble_near (a b : Nat) (ha : 0 < a) (hb : 0 < b) :
    0 < (roundToDouble a b).2 ∧
    (roundToDouble a b).1 * b * 2 ^ 53 ≤
      a * (roundToDouble a b).2 * 2 ^ 53 + a * (roundToDouble a b).2 ∧
    a * (roundToDouble a b).2 * 2 ^ 53 ≤
      (roundToDouble a b).1 * b * 2 ^ 53 + a * (roundToDouble a b).2 := by
  have ha0 : a ≠ 0 := by omega
  have hla : 2 ^ ilog2 a ≤ a := ilog2_self_le a ha
  have hlb : b < 2 ^ (ilog2 b + 1) := lt_ilog2_self b hb
  have hpa : 0 < 2 ^ ilog2 a := Nat.pow_pos (by decide)
  have hpb : 0 < 2 ^ (53 + ilog2 b) := Nat.pow_pos (by decide)
  have hB : 0 < b * 2 ^ ilog2 a := Nat.mul_pos hb hpa
  have hAB : b * 2 ^ ilog2 a * 2 ^ 52 ≤ a * 2 ^ (53 + ilog2 b) := by
    have e : a * 2 ^ (53 + ilog2 b) = 2 ^ (ilog2 b + 1) * a * 2 ^ 52 := by
      rw [show 53 + ilog2 b = (ilog2 b + 1) + 52 by omega, pow_add]
      ring
    rw [e]
    apply Nat.mul_le_mul_right
    exact Nat.mul_le_mul (Nat.le_of_lt hlb) hla
  generalize hA : a * 2 ^ (53 + ilog2 b) = A at hAB
  generalize hBB : b * 2 ^ ilog2 a = B at hAB hB
  unfold roundToDouble
  rw [if_neg ha0, hA, hBB]
  split
  · refine ⟨hpb, ?_⟩
    obtain ⟨h1, h2⟩ := roundHalfEven_near A B hB
    have e1 : roundHalfEven A B * 2 ^ ilog2 a * b = roundHalfEven A B * B := by
      rw [← hBB]
      ring
    simp only [e1, hA]
    generalize roundHalfEven A B * B = X at h1 h2
    norm_num at hAB ⊢
    omega
  · rename_i hge
    refine ⟨hpb, ?_⟩
    obtain ⟨h1, h2⟩ := roundHalfEven_near A (2 * B) (by omega)
    have e1 : roundHalfEven A (2 * B) * 2 * 2 ^ ilog2 a * b =
        roundHalfEven A (2 * B) * (2 * B) := by
      rw [← hBB]
      ring
    simp only [e1, hA]
    generalize roundHalfEven A (2 * B) * (2 * B) = X at h1 h2
    norm_num at hge ⊢
    omega

theorem roundToDouble_den_pos (a b : Nat) : 0 < (roundToDouble a b).2 := by
  unfold roundToDouble
  split
  · decide
  · split <;> exact Nat.pow_pos (by decide)

/-- The rounding to binary64 in the rationals: `roundToDouble a b` lies
between `(1 - 2^-53) (a / b)` and `(1 + 2^-53) (a / b)`. -/
theorem roundToDouble_rel (a b : Nat) (hb : 0 < b) :
    (((roundToDouble a b).1 : ℚ) / ((roundToDouble a b).2 : ℚ) ≤
        (1 + 1 / 2 ^ 53) * ((a : ℚ) / (b : ℚ))) ∧
    ((1 - 1 / 2 ^ 53) * ((a : ℚ) / (b : ℚ)) ≤
      ((roundToDouble a b).1 : ℚ) / ((roundToDouble a b).2 : ℚ)) := by
  by_cases ha : a = 0
  · subst ha
    simp [roundToDouble]
  · obtain ⟨hD, h1, h2⟩ := roundToDouble_near a b (by omega) hb
    generalize (roundToDouble a b).1 = N at h1 h2
    generalize (roundToDouble a b).2 = D at hD h1 h2
    have hDq : (0 : ℚ) < D := by exact_mod_cast hD
    have hbq : (0 : ℚ) < b := by exact_mod_cast hb
    have k1 : (N : ℚ) * b * 2 ^ 53 ≤ a * D * 2 ^ 53 + a * D := by exact_mod_cast h1
    have k2 : (a : ℚ) * D * 2 ^ 53 ≤ N * b * 2 ^ 53 + a * D := by exact_mod_cast h2
    constructor
    · rw [← sub_nonneg]
      have e : (1 + 1 / 2 ^ 53) * ((a : ℚ) / b) - N / D =
          (a * D * 2 ^ 53 + a * D - N * b * 2 ^ 53) / (b * D * 2 ^ 53) := by
        field_simp
        ring
      rw [e]
      apply div_nonneg
      · linarith
      · positivity
    · rw [← sub_nonneg]
      have e : (N : ℚ) / D - (1 - 1 / 2 ^ 53) * ((a : ℚ) / b) =
          (N * b * 2 ^ 53 + a * D - a * D * 2 ^ 53) / (b * D * 2 ^ 53) := by
        field_simp
        ring
      rw [e]
      apply div_nonneg
      · linarith
      · positivity

/-- The rate `Math.round((p / n) * 100)` of the dashboard and the reports, for
fewer than 2^32 records: an integer within one half of `100 p / n`. -/
theorem rate_near (p n : Nat) (hn : 0 < n) (hp : p < 2 ^ 32) :
    ∃ r, Math.round (Double.ofQuotient p n).timesHundred = .finite r 1 ∧
      2 * (r * n) ≤ 200 * p + n ∧ 200 * p ≤ 2 * (r * n) + n := by
  have hn0 : n ≠ 0 := by omega
  simp only [Double.ofQuotient, if_neg hn0, Double.timesHundred, Math.round]
  refine ⟨_, rfl, ?_⟩
  have hD1 := roundToDouble_den_pos p n
  obtain ⟨r1, r2⟩ := roundToDouble_rel p n hn
  generalize (roundToDouble p n).1 = N1 at r1 r2
  generalize (roundToDouble p n).2 = D1 at hD1 r1 r2
  have hD2 := roundToDouble_den_pos (N1 * 100) D1
  obtain ⟨s1, s2⟩ := roundToDouble_rel (N1 * 100) D1 hD1
  generalize (roundToDouble (N1 * 100) D1).1 = N2 at s1 s2
  generalize (roundToDouble (N1 * 100) D1).2 = D2 at hD2 s1 s2
  have hdm : 2 * D2 * ((2 * N2 + D2) / (2 * D2)) + (2 * N2 + D2) % (2 * D2) = 2 * N2 + D2 :=
    Nat.div_add_mod _ _
  have hmod : (2 * N2 + D2) % (2 * D2) < 2 * D2 := Nat.mod_lt _ (by omega)
  generalize (2 * N2 + D2) / (2 * D2) = r at hdm
  generalize (2 * N2 + D2) % (2 * D2) = m at hdm hmod
  have hD1q : (0 : ℚ) < D1 := by exact_mod_cast hD1
  have hD2q : (0 : ℚ) < D2 := by exact_mod_cast hD2
  have hnq : (0 : ℚ) < n := by exact_mod_cast hn
  have hp' : p < 4294967296 := by
    norm_num at hp
    exact hp
  have hpq : (p : ℚ) < 4294967296 := by exact_mod_cast hp'
  have hp0 : (0 : ℚ) ≤ p := by exact_mod_cast Nat.zero_le p
  have hdmq : 2 * (D2 : ℚ) * r + m = 2 * N2 + D2 := by exact_mod_cast hdm
  have hmq : (m : ℚ) < 2 * D2 := by exact_mod_cast hmod
  have hm0 : (0 : ℚ) ≤ m := by exact_mod_cast Nat.zero_le m
  have hcast : (((N1 * 100 : ℕ) : ℚ)) / (D1 : ℚ) = 100 * ((N1 : ℚ) / D1) := by
    push_cast
    ring
  rw [hcast] at s1 s2
  set x1 : ℚ := (N1 : ℚ) / D1 with hx1
  set x2 : ℚ := (N2 : ℚ) / D2 with hx2
  have hN2 : (N2 : ℚ) = x2 * D2 := by
    rw [hx2]
    field_simp
  -- the rounded integer is within one half of x2
  have hr_hi : (r : ℚ) ≤ x2 + 1 / 2 := by
    have : 2 * (D2 : ℚ) * r ≤ 2 * (x2 * D2) + D2 := by linarith
    have h2 : (D2 : ℚ) * (2 * r) ≤ D2 * (2 * x2 + 1) := by linarith
    have := le_of_mul_le_mul_left h2 hD2q
    linarith
  have hr_lo : x2 - 1 / 2 < (r : ℚ) := by
    have : 2 * (x2 * D2) + D2 < 2 * (D2 : ℚ) * r + 2 * D2 := by linarith
    have h2 : (D2 : ℚ) * (2 * x2 + 1) < D2 * (2 * r + 2) := by linarith
    have := lt_of_mul_lt_mul_left h2 (le_of_lt hD2q)
    linarith
  set q : ℚ := (p : ℚ) / n with hq
  have hqn : q * n = p := by
    rw [hq]
    field_simp
  have hq0 : 0 ≤ q := div_nonneg hp0 (le_of_lt hnq)
  have hx2_hi : x2 ≤ (1 + 1 / 2 ^ 53) * (100 * ((1 + 1 / 2 ^ 53) * q)) := by
    refine le_trans s1 ?_
    apply mul_le_mul_of_nonneg_left _ (by norm_num)
    linarith
  have hx2_lo : (1 - 1 / 2 ^ 53) * (100 * ((1 - 1 / 2 ^ 53) * q)) ≤ x2 := by
    refine le_trans ?_ s2
    apply mul_le_mul_of_nonneg_left _ (by norm_num)
    linarith
  have hu0 : (0 : ℚ) ≤ 1 / 2 ^ 53 := by norm_num
  have hsmall : 100 * (2 * ((1 : ℚ) / 2 ^ 53) + 1 / 2 ^ 53 * (1 / 2 ^ 53)) * 4294967296 <
      1 / 2 := by norm_num
  generalize (1 : ℚ) / 2 ^ 53 = u at r1 r2 s1 s2 hx2_hi hx2_lo hu0 hsmall
  have hc0 : 0 ≤ 100 * (2 * u + u * u) := by positivity
  have hcp : 100 * (2 * u + u * u) * (p : ℚ) ≤ 100 * (2 * u + u * u) * 4294967296 :=
    mul_le_mul_of_nonneg_left (le_of_lt hpq) hc0
  have huup : 0 ≤ u * u * (p : ℚ) := mul_nonneg (mul_nonneg hu0 hu0) hp0
  have hi : (r : ℚ) * n ≤ ((1 + u) * (100 * ((1 + u) * q)) + 1 / 2) * n :=
    mul_le_mul_of_nonneg_right (by linarith) (le_of_lt hnq)
  have lo : ((1 - u) * (100 * ((1 - u) * q)) - 1 / 2) * n < (r : ℚ) * n :=
    mul_lt_mul_of_pos_right (by linarith) hnq
  have ehi : ((1 + u) * (100 * ((1 + u) * q)) + 1 / 2) * (n : ℚ) =
      100 * (q * n) + 100 * (2 * u + u * u) * (q * n) + n / 2 := by ring
  have elo : ((1 - u) * (100 * ((1 - u) * q)) - 1 / 2) * (n : ℚ) =
      100 * (q * n) - 100 * (2 * u + u * u) * (q * n) + 200 * (u * u * (q * n)) - n / 2 := by
    ring
  rw [ehi, hqn] at hi
  rw [elo, hqn] at lo
  have fin1 : ((2 * (r * n) : ℕ) : ℚ) < ((200 * p + n + 1 : ℕ) : ℚ) := by
    push_cast
    linarith
  have fin2 : ((200 * p : ℕ) : ℚ) < ((2 * (r * n) + n + 1 : ℕ) : ℚ) := by
    push_cast
    linarith
  have f1 : 2 * (r * n) < 200 * p + n + 1 := by exact_mod_cast fin1
  have f2 : 200 * p < 2 * (r * n) + n + 1 := by exact_mod_cast fin2
  omega

/-! ## Reports and dashboard: the rates -/

/-- C29: `placedStudents` is the number of placements with the status
`placed`.  With at least one student, `placementRate` is an integer that
differs from 100 times that number divided by the number of students by at most
one half: a nearest integer.  With no student and no placed placement it is 0.
`generateReport` and `exportDetailedReport` build the same summary.  (The
collections are arrays, of fewer than 2^32 elements.) -/
theorem placement_rate_is_nearest (pf : Platform) (s : AppState)
    (hlen : s.placements.length < 2 ^ 32) :
    (ReportsPage.generateReport s).summary.placedStudents = placementsOfStatus s "placed" ∧
    (0 < s.students.length →
      ∃ r, (ReportsPage.generateReport s).summary.placementRate = .finite r 1 ∧
        2 * (r * s.students.length) ≤
          200 * placementsOfStatus s "placed" + s.students.length ∧
        200 * placementsOfStatus s "placed" ≤
          2 * (r * s.students.length) + s.students.length) ∧
    (s.students.length = 0 → placementsOfStatus s "placed" = 0 →
      (ReportsPage.generateReport s).summary.placementRate = .finite 0 1) ∧
    (ReportsPage.exportDetailedReport pf s).summary = (ReportsPage.generateReport s).summary := by
  have hp : (s.placements.filter
      (fun p => strictEq (getProp p "status") (.str "placed"))).length =
      placementsOfStatus s "placed" := filter_status_length _ _
  have hle : placementsOfStatus s "placed" < 2 ^ 32 :=
    Nat.lt_of_le_of_lt (List.countP_le_length _) hlen
  refine ⟨hp, ?_, ?_, rfl⟩
  · intro hn
    obtain ⟨r, hr, h1, h2⟩ := rate_near (placementsOfStatus s "placed") s.students.length hn hle
    refine ⟨r, ?_, h1, h2⟩
    simp only [ReportsPage.generateReport, ReportsPage.summary, hp, hr, Double.orZero]
    split
    · rename_i h0
      rw [h0]
    · rfl
  · intro hn h0
    simp only [ReportsPage.generateReport, ReportsPage.summary, hp, hn, h0]
    rfl

/-- C29, on the seeded store: one of the three students is placed, and the
rate is 33. -/
theorem placement_rate_is_nearest_witness :
    seeded.state.placements.length < 2 ^ 32 ∧
    (ReportsPage.generateReport seeded.state).summary.placedStudents = 1 ∧
    (ReportsPage.generateReport seeded.state).summary.placementRate = .finite 33 1 ∧
    ∃ r, (ReportsPage.generateReport seeded.state).summary.placementRate = .finite r 1 ∧
      2 * (r * 3) ≤ 200 * 1 + 3 ∧ 200 * 1 ≤ 2 * (r * 3) + 3 :=
  ⟨by decide,
   (placement_rate_is_nearest examplePlatform seeded.state (by decide)).1,
   by decide,
   (placement_rate_is_nearest examplePlatform seeded.state (by decide)).2.1 (by decide)⟩

/-- Where 100 times the quotient lies halfway between two integers, the rate
is the one or the other: 23 of 40 give 57 (from 57.5), 1 of 8 gives 13 (from
12.5).  The quotient 23 / 40 is rounded to binary64 before it is multiplied by
100, and the product is below 57.5. -/
theorem rate_at_a_tie :
    Math.round (Double.ofQuotient 23 40).timesHundred = .finite 57 1 ∧
    Math.round (Double.ofQuotient 1 8).timesHundred = .finite 13 1 := by
  decide

theorem present_sum (c : List Record) (acc : Nat) :
    c.foldl (fun sum record => sum + (if truthy (getProp record "present") then 1 else 0)) acc =
      acc + c.countP (fun record => truthy (getProp record "present")) := by
  induction c generalizing acc with
  | nil => rfl
  | cons x xs ih =>
    rw [List.foldl_cons, ih, List.countP_cons]
    split <;> omega

/-- C30: the `attendanceRate` of the dashboard is an integer from 0 to 100.
It is 0 when there is no attendance record; otherwise it differs from 100 times
the number of records marked present divided by the number of records by at
most one half: a nearest integer.  (The collection is an array, of fewer than
2^32 elements.) -/
theorem attendance_rate_in_range (s : AppState) (hlen : s.attendance.length < 2 ^ 32) :
    ∃ r, (Dashboard.updateStats s).attendanceRate = .finite r 1 ∧ r ≤ 100 ∧
      (s.attendance.length = 0 → r = 0) ∧
      2 * (r * s.attendance.length) ≤
        200 * s.attendance.countP (fun record => truthy (getProp record "present")) +
          s.attendance.length ∧
      200 * s.attendance.countP (fun record => truthy (getProp record "present")) ≤
        2 * (r * s.attendance.length) + s.attendance.length := by
  have hsum := present_sum s.attendance 0
  rw [Nat.zero_add] at hsum
  have hple : s.attendance.countP (fun record => truthy (getProp record "present")) ≤
      s.attendance.length := List.countP_le_length _
  by_cases hn : s.attendance.length = 0
  · refine ⟨0, ?_, by omega, fun _ => rfl, by omega, by omega⟩
    simp only [Dashboard.updateStats, hn]
    rfl
  · obtain ⟨r, hr, h1, h2⟩ := rate_near
      (s.attendance.countP (fun record => truthy (getProp record "present")))
      s.attendance.length (by omega) (by omega)
    refine ⟨r, ?_, ?_, fun h => absurd h hn, h1, h2⟩
    · simp only [Dashboard.updateStats, hsum, hr]
      rw [if_pos (by omega)]
    · by_contra hgt
      have : 101 * s.attendance.length ≤ r * s.attendance.length :=
        Nat.mul_le_mul_right _ (by omega)
      omega

/-- C30, with three attendance records of which two are marked present: the
rate is 67. -/
theorem attendance_rate_in_range_witness :
    (Dashboard.updateStats
      { seeded.state with attendance :=
          [[("studentId", .str "1"), ("present", .bool true)],
           [("studentId", .str "2"), ("present", .bool false)],
           [("studentId", .str "3"), ("present", .bool true)]] }).attendanceRate =
      .finite 67 1 ∧
    ∃ r, (Dashboard.updateStats
      { seeded.state with attendance :=
          [[("studentId", .str "1"), ("present", .bool true)],
           [("studentId", .str "2"), ("present", .bool false)],
           [("studentId", .str "3"), ("present", .bool true)]] }).attendanceRate =
        .finite r 1 ∧ r ≤ 100 :=
  ⟨by decide,
   (attendance_rate_in_range
      { seeded.state with attendance :=
          [[("studentId", .str "1"), ("present", .bool true)],
           [("studentId", .str "2"), ("present", .bool false)],
           [("studentId", .str "3"), ("present", .bool true)]] } (by decide)).imp
      (fun _ h => ⟨h.1, h.2.1⟩)⟩

end Register
